import Mathlib

/-!
Order / inventory lifecycle of the playground-equipment backend.

Shallow embedding of `backend/routes/orders.js`, `backend/routes/equipment.js`,
`backend/routes/installations.js`, `backend/middleware/roleCheck.js` and the mongoose schemas
`backend/models/{Equipment,Order,Installation}.js`.

Modelling conventions.

* A collection is a map from `_id` to document.  Equipment can be deleted, so the equipment
  collection is a function `EquipId → Option Equipment`.  Orders and installations are never
  deleted by any route, so each collection is a list and the `_id` of a document is its position.
* Amounts of money are JavaScript numbers, that is binary64 values: each is a rational, and
  every product and sum of the handler is rounded to the nearest binary64 value, ties to the
  even significand, with gradual underflow (`roundDouble`, `jsMul`, `jsAdd`).  A result of
  magnitude 2^1024 or more, which JavaScript turns into `Infinity`, is outside the model.
  Stock and quantities are integers (`ℤ`), on which JavaScript arithmetic is exact.
* Stored documents carry the schema's enumerations as inductive types; values arriving in a
  request body that a schema validator inspects (`paymentMethod`, the shipping address,
  quantities) stay raw and are validated where mongoose validates them.
* Ambient inputs (`new Date()`, `Math.random()`) are the fields of `Env`.
* Every handler returns the database it leaves behind together with its response, because a
  handler that answers with an error may already have written.
* Two concurrent order creations are the interleavings of their store accesses: one event per
  `await` of the item loop (`readItem`, `writeItem`), run by `raceRun`.
-/

namespace Playground

abbrev EquipId := Nat
abbrev UserId := Nat
abbrev OrderId := Nat
abbrev Timestamp := Nat

/-- Ambient inputs of one request: the clock and the random draw of the order-number hook. -/
structure Env where
  /-- Value of `new Date()` / `Date.now()` during the request. -/
  now : Timestamp
  /-- Value of `date.getFullYear()`. -/
  fullYear : Nat
  /-- Value of `date.getMonth()`, i.e. 0 for January. -/
  monthIndex : Nat
  /-- Value of `Math.floor(Math.random() * 10000)`. -/
  randomDraw : Nat

/-- Roles attached to `req.user.role` by the authentication middleware. -/
inductive Role where
  | customer
  | admin
  | installation_team
deriving DecidableEq, Repr

/-- The resolved identity `req.user`. -/
structure User where
  id : UserId
  role : Role
deriving DecidableEq, Repr

/-- The fields of `models/Equipment.js` that the order routes read or write.  The `min: 0`
validator of `price` is its type; `stock` stays an integer because the routes compute with it. -/
structure Equipment where
  name : String
  price : ℚ≥0
  image : String
  stock : ℤ
  isAvailable : Bool
deriving DecidableEq

/-- The `status` enumeration of `models/Order.js`. -/
inductive OrderStatus where
  | pending
  | confirmed
  | processing
  | shipped
  | delivered
  | installation_scheduled
  | installation_in_progress
  | completed
  | cancelled
deriving DecidableEq, Repr

/-- The `paymentStatus` enumeration of `models/Order.js`. -/
inductive PaymentStatus where
  | pending
  | paid
  | failed
  | refunded
deriving DecidableEq, Repr

/-- The `paymentMethod` enumeration of `models/Order.js`. -/
inductive PaymentMethod where
  | cod
  | online
  | bank_transfer
deriving DecidableEq, Repr

/-- One element of `orderItemSchema`. -/
structure OrderItem where
  equipment : EquipId
  name : String
  quantity : ℤ
  price : ℚ
  image : String
deriving DecidableEq

/-- The `shippingAddress` sub-document; `none` is an absent field. -/
structure ShippingAddress where
  name : Option String
  phone : Option String
  street : Option String
  city : Option String
  state : Option String
  zipCode : Option String
  country : Option String
deriving DecidableEq

/-- One element of `statusHistory` of an order. -/
structure StatusEntry where
  status : OrderStatus
  date : Timestamp
  note : Option String
deriving DecidableEq

/-- A stored document of `models/Order.js`; `orderNumber = ""` is an unset order number. -/
structure Order where
  user : UserId
  orderNumber : String
  items : List OrderItem
  totalAmount : ℚ
  taxAmount : ℚ
  shippingAmount : ℚ
  grandTotal : ℚ
  shippingAddress : ShippingAddress
  status : OrderStatus
  paymentStatus : PaymentStatus
  paymentMethod : PaymentMethod
  notes : Option String
  installationLocation : Option String
  layoutImage : Option String
  layoutNotes : Option String
  statusHistory : List StatusEntry
  createdAt : Timestamp
  updatedAt : Timestamp
deriving DecidableEq

/-- The equipment collection. -/
abbrev EquipStore := EquipId → Option Equipment

/-- One element of `req.body.items`. -/
structure ItemRequest where
  equipment : EquipId
  quantity : ℤ
deriving DecidableEq

/-- The body of `POST /api/orders` together with `req.user._id`. -/
structure OrderRequest where
  user : UserId
  items : List ItemRequest
  shippingAddress : ShippingAddress
  paymentMethod : Option String
  notes : Option String
  installationLocation : Option String
  layoutImage : Option String
  layoutNotes : Option String

/-- The error responses of the order, equipment-stock and installation handlers. -/
inductive Failure where
  /-- 400 "No items in order". -/
  | noItems
  /-- 404 "Equipment not found: id". -/
  | equipmentNotFound (id : EquipId)
  /-- 400 "name is not available in requested quantity". -/
  | notAvailable (name : String)
  /-- 404 "Order not found". -/
  | orderNotFound
  /-- 403 "Not authorized to cancel this order". -/
  | notAuthorized
  /-- 400 "Cannot cancel order at this stage". -/
  | cannotCancel
  /-- 403 "Access denied. Admin only." -/
  | adminOnly
  /-- 400 "Valid stock value is required". -/
  | invalidStock
  /-- 404 "Equipment not found" of the stock route. -/
  | stockTargetNotFound
  /-- 404 "Installation not found". -/
  | installationNotFound
  /-- 403 "Access denied. Installation team only." -/
  | teamOnly
  /-- 403 "Not authorized to update this installation". -/
  | notAssigned
  /-- 404 "Equipment not found in installation". -/
  | equipmentNotInInstallation
  /-- 403 "Not authorized to add feedback". -/
  | feedbackNotAuthorized
  /-- 400 "Can only add feedback for completed installations". -/
  | feedbackNotCompleted
  /-- 500 "Server error": a rejected mongoose operation caught by the handler. -/
  | serverError
deriving DecidableEq, Repr

/-- The HTTP status code sent with each error response. -/
def Failure.httpStatus : Failure → Nat
  | .noItems => 400
  | .equipmentNotFound _ => 404
  | .notAvailable _ => 400
  | .orderNotFound => 404
  | .notAuthorized => 403
  | .cannotCancel => 400
  | .adminOnly => 403
  | .invalidStock => 400
  | .stockTargetNotFound => 404
  | .installationNotFound => 404
  | .teamOnly => 403
  | .notAssigned => 403
  | .equipmentNotInInstallation => 404
  | .feedbackNotAuthorized => 403
  | .feedbackNotCompleted => 400
  | .serverError => 500

/-- The number of binary digits of `n`, found with at most `fuel` halvings. -/
def bitLength : Nat → Nat → Nat
  | 0, _ => 0
  | fuel + 1, n => if n = 0 then 0 else bitLength fuel (n / 2) + 1

/-- The integer nearest to `num / den`, the even one of the two on a tie. -/
def roundHalfEven (num den : ℕ) : ℕ :=
  let f := num / den
  let r := num % den
  if 2 * r < den then f else if den < 2 * r then f + 1 else if f % 2 = 0 then f else f + 1

/-- The binary exponent of the positive rational `n / d`: the `e` with
`2^e ≤ n / d < 2^(e+1)`, which is the difference of the bit lengths or one less. -/
def binaryExponent (n d : ℕ) : ℤ :=
  let e0 : ℤ := (bitLength n n : ℤ) - (bitLength d d : ℤ)
  if d * 2 ^ e0.toNat ≤ n * 2 ^ (-e0).toNat then e0 else e0 - 1

/-- The binary64 value nearest to the positive rational `n / d`: with binary exponent `e`,
the multiple of `2^(e-52)` nearest to it (of `2^(-1074)` below the normal range, where `e`
is less than -1022), the even multiple on a tie. -/
def roundMagnitude (n d : ℕ) : ℚ :=
  let k : ℤ := max (binaryExponent n d) (-1022) - 52
  mkRat (roundHalfEven (n * 2 ^ (-k).toNat) (d * 2 ^ k.toNat) * 2 ^ k.toNat : ℕ)
    (2 ^ (-k).toNat)

/-- The binary64 value nearest to `q`, ties to even, as JavaScript stores the result of an
arithmetic operation whose exact value is `q`. -/
def roundDouble (q : ℚ) : ℚ :=
  if q.num = 0 then 0
  else if q.num < 0 then -roundMagnitude q.num.natAbs q.den
  else roundMagnitude q.num.natAbs q.den

/-- The JavaScript product `a * b` of two numbers. -/
def jsMul (a b : ℚ) : ℚ := roundDouble (a * b)

/-- The JavaScript sum `a + b` of two numbers. -/
def jsAdd (a b : ℚ) : ℚ := roundDouble (a + b)

/-- The `min: 0` validator on `stock` that `equipment.save()` runs on the modified path. -/
def saveEquipment (s : EquipStore) (id : EquipId) (e : Equipment) : Option EquipStore :=
  if e.stock < 0 then none else some (Function.update s id (some e))

/-- The `for (const item of items)` loop of `POST /api/orders` (orders.js 129-162), started
with the running `totalAmount` and `orderItems`.  Each iteration reads the equipment from the
store left by the previous iterations, and each `await equipment.save()` is a write; an early
`return res.status(..)` leaves the earlier writes in place. -/
def processItems (s : EquipStore) (total : ℚ) (acc : List OrderItem) :
    List ItemRequest → EquipStore × Except Failure (ℚ × List OrderItem)
  | [] => (s, .ok (total, acc))
  | item :: rest =>
    match s item.equipment with
    | none => (s, .error (.equipmentNotFound item.equipment))
    | some equipment =>
      if !equipment.isAvailable || equipment.stock < item.quantity then
        (s, .error (.notAvailable equipment.name))
      else
        let stock := equipment.stock - item.quantity
        let updated : Equipment :=
          { equipment with
            stock := stock
            isAvailable := if stock = 0 then false else equipment.isAvailable }
        match saveEquipment s item.equipment updated with
        | none => (s, .error .serverError)
        | some s' =>
          processItems s' (jsAdd total (jsMul (equipment.price : ℚ) item.quantity))
            (acc ++ [{ equipment := item.equipment, name := equipment.name,
                       quantity := item.quantity, price := (equipment.price : ℚ),
                       image := equipment.image }]) rest

/-- The `status` enumeration of `models/Installation.js`. -/
inductive InstallationStatus where
  | scheduled
  | in_progress
  | on_hold
  | completed
  | cancelled
deriving DecidableEq, Repr

/-- The `installationStatus` enumeration of an `equipmentList` entry. -/
inductive ItemStatus where
  | pending
  | in_progress
  | completed
deriving DecidableEq, Repr

/-- One element of `equipmentList`. -/
structure EquipmentEntry where
  equipment : EquipId
  name : String
  quantity : ℤ
  installationStatus : ItemStatus
deriving DecidableEq

/-- One element of `statusHistory` of an installation. -/
structure InstallationEntry where
  status : InstallationStatus
  date : Timestamp
  note : Option String
  updatedBy : Option UserId
deriving DecidableEq

/-- The `customerFeedback` sub-document. -/
structure Feedback where
  rating : Option ℤ
  comment : Option String
  date : Timestamp
deriving DecidableEq

/-- The `location` sub-document (coordinates left out). -/
structure Location where
  street : Option String
  city : Option String
  state : Option String
  zipCode : Option String
  country : Option String
  landmark : Option String
  accessInstructions : Option String
deriving DecidableEq

/-- A stored document of `models/Installation.js`. -/
structure Installation where
  order : OrderId
  team : UserId
  customer : UserId
  scheduledDate : Timestamp
  status : InstallationStatus
  location : Location
  equipmentList : List EquipmentEntry
  notes : Option String
  teamNotes : Option String
  customerFeedback : Option Feedback
  startTime : Option Timestamp
  completedDate : Option Timestamp
  estimatedDuration : Option ℚ
  statusHistory : List InstallationEntry
  createdAt : Timestamp
  updatedAt : Timestamp
deriving DecidableEq

/-- The three collections the lifecycle routes touch. -/
structure Db where
  equipment : EquipStore
  orders : List Order
  installations : List Installation

/-- `String.prototype.padStart(n, c)`. -/
def padStart (s : String) (n : Nat) (c : Char) : String :=
  String.mk (List.replicate (n - s.length) c ++ s.data)

/-- `s.slice(-2)`: the last two characters of `s`. -/
def sliceLastTwo (s : String) : String :=
  String.mk (s.data.drop (s.length - 2))

/-- The order number built by the first `pre('save')` hook of `models/Order.js`. -/
def genOrderNumber (env : Env) : String :=
  let year := sliceLastTwo (toString env.fullYear)
  let month := padStart (toString (env.monthIndex + 1)) 2 '0'
  let random := padStart (toString env.randomDraw) 4 '0'
  "PG" ++ year ++ month ++ random

/-- The two `pre('save')` hooks of `models/Order.js`, in registration order.  `statusModified`
is `this.isModified('status')`. -/
def orderPreSave (env : Env) (statusModified : Bool) (o : Order) : Order :=
  let o1 : Order :=
    { o with
      orderNumber := if o.orderNumber = "" then genOrderNumber env else o.orderNumber
      updatedAt := env.now }
  if statusModified then
    { o1 with
      statusHistory := o1.statusHistory ++ [{ status := o1.status, date := env.now, note := none }] }
  else o1

/-- Mongoose's `required: true` on a `String` path: present and non-empty. -/
def requiredString : Option String → Bool
  | some s => decide (s ≠ "")
  | none => false

/-- The `required` validators of the `shippingAddress` sub-document. -/
def ShippingAddress.complete (a : ShippingAddress) : Bool :=
  requiredString a.name && requiredString a.phone && requiredString a.street &&
    requiredString a.city && requiredString a.state && requiredString a.zipCode

/-- The `enum` validator of `paymentMethod`. -/
def parsePaymentMethod (s : String) : Option PaymentMethod :=
  if s = "cod" then some .cod
  else if s = "online" then some .online
  else if s = "bank_transfer" then some .bank_transfer
  else none

/-- The argument of `Order.create` in `POST /api/orders`, before validation. -/
structure OrderDraft where
  user : UserId
  items : List OrderItem
  totalAmount : ℚ
  taxAmount : ℚ
  shippingAmount : ℚ
  grandTotal : ℚ
  shippingAddress : ShippingAddress
  paymentMethod : String
  notes : Option String
  installationLocation : Option String
  layoutImage : Option String
  layoutNotes : Option String

/-- `Order.create(draft)`: schema validation (`min: 1` on every quantity, `min: 0` on
`totalAmount`, the required shipping-address fields, the `paymentMethod` enum), then the
`pre('save')` hooks, then the insert, which the unique index on `orderNumber` rejects when
the number is already taken.  `none` is a rejected promise. -/
def Order.create (env : Env) (orders : List Order) (d : OrderDraft) :
    Option (List Order × Order) :=
  if d.items.all (fun i => decide (1 ≤ i.quantity)) && decide (0 ≤ d.totalAmount)
      && d.shippingAddress.complete then
    match parsePaymentMethod d.paymentMethod with
    | none => none
    | some pm =>
      let doc : Order :=
        { user := d.user
          orderNumber := ""
          items := d.items
          totalAmount := d.totalAmount
          taxAmount := d.taxAmount
          shippingAmount := d.shippingAmount
          grandTotal := d.grandTotal
          shippingAddress :=
            { d.shippingAddress with
              country := some (d.shippingAddress.country.getD "India") }
          status := .pending
          paymentStatus := .pending
          paymentMethod := pm
          notes := d.notes
          installationLocation := d.installationLocation
          layoutImage := d.layoutImage
          layoutNotes := d.layoutNotes
          statusHistory := []
          createdAt := env.now
          updatedAt := env.now }
      let saved := orderPreSave env true doc
      if orders.any (fun o => decide (o.orderNumber = saved.orderNumber)) then none
      else some (orders ++ [saved], saved)
  else none

/-- The handler of `POST /api/orders` (orders.js 114-198). -/
def createOrder (env : Env) (db : Db) (req : OrderRequest) : Db × Except Failure Order :=
  if req.items.isEmpty then (db, .error .noItems)
  else
    match processItems db.equipment 0 [] req.items with
    | (s, .error f) => ({ db with equipment := s }, .error f)
    | (s, .ok (totalAmount, orderItems)) =>
      let taxAmount := jsMul totalAmount (roundDouble 0.18)
      let shippingAmount : ℚ := if totalAmount > 50000 then 0 else 2000
      let grandTotal := jsAdd (jsAdd totalAmount taxAmount) shippingAmount
      match Order.create env db.orders
          { user := req.user
            items := orderItems
            totalAmount := totalAmount
            taxAmount := taxAmount
            shippingAmount := shippingAmount
            grandTotal := grandTotal
            shippingAddress := req.shippingAddress
            paymentMethod :=
              match req.paymentMethod with
              | some pm => if pm = "" then "cod" else pm
              | none => "cod"
            notes := req.notes
            installationLocation := req.installationLocation
            layoutImage := req.layoutImage
            layoutNotes := req.layoutNotes } with
      | none => ({ db with equipment := s }, .error .serverError)
      | some (orders, order) => ({ db with equipment := s, orders := orders }, .ok order)

/-- `Equipment.findByIdAndUpdate(id, { $inc: { stock: quantity }, isAvailable: true })`;
a missing document is left missing and no validator runs. -/
def restoreStock (s : EquipStore) (id : EquipId) (quantity : ℤ) : EquipStore :=
  match s id with
  | none => s
  | some e => Function.update s id (some { e with stock := e.stock + quantity, isAvailable := true })

/-- The handler of `PUT /api/orders/:id/cancel` (orders.js 274-324). -/
def cancelOrder (env : Env) (db : Db) (caller : User) (id : OrderId) :
    Db × Except Failure Order :=
  match db.orders[id]? with
  | none => (db, .error .orderNotFound)
  | some order =>
    if caller.role ≠ .admin ∧ order.user ≠ caller.id then (db, .error .notAuthorized)
    else if ¬ (order.status = .pending ∨ order.status = .confirmed) then
      (db, .error .cannotCancel)
    else
      let s := order.items.foldl (fun s item => restoreStock s item.equipment item.quantity)
        db.equipment
      let saved := orderPreSave env (decide (order.status ≠ .cancelled))
        { order with status := .cancelled }
      ({ db with equipment := s, orders := db.orders.set id saved }, .ok saved)

/-- The `isAdmin` middleware of `middleware/roleCheck.js`, for an attached user. -/
def isAdmin (caller : User) : Bool := decide (caller.role = .admin)

/-- The handler of `PUT /api/equipment/:id/stock` behind `isAdmin` (equipment.js 250-286);
`stock = none` is `stock === undefined`. -/
def updateStock (db : Db) (caller : User) (id : EquipId) (stock : Option ℤ) :
    Db × Except Failure Equipment :=
  if !isAdmin caller then (db, .error .adminOnly)
  else
    match stock with
    | none => (db, .error .invalidStock)
    | some stock =>
      if stock < 0 then (db, .error .invalidStock)
      else
        match db.equipment id with
        | none => (db, .error .stockTargetNotFound)
        | some e =>
          let updated : Equipment := { e with stock := stock, isAvailable := decide (stock > 0) }
          ({ db with equipment := Function.update db.equipment id (some updated) }, .ok updated)

/-- Equipment A of the worked scenario: price 10000, stock 5. -/
def equipA : Equipment :=
  { name := "A", price := 10000, image := "a.jpg", stock := 5, isAvailable := true }

/-- Equipment B of the worked scenario: price 5000, stock 1. -/
def equipB : Equipment :=
  { name := "B", price := 5000, image := "b.jpg", stock := 1, isAvailable := true }

/-- A store holding A under id 1 and B under id 2. -/
def storeAB : EquipStore := fun id => if id = 1 then some equipA else if id = 2 then some equipB else none

/-- A database holding only the equipment of `storeAB`. -/
def dbAB : Db := { equipment := storeAB, orders := [], installations := [] }

/-- A complete shipping address. -/
def fullAddress : ShippingAddress :=
  { name := some "N", phone := some "1", street := some "S", city := some "C",
    state := some "T", zipCode := some "Z", country := none }

/-- An environment: November 2026, random draw 42, clock 100. -/
def env0 : Env := { now := 100, fullYear := 2026, monthIndex := 10, randomDraw := 42 }

/-- A request of user 7 with a complete address and default payment method. -/
def requestOf (items : List ItemRequest) : OrderRequest :=
  { user := 7, items := items, shippingAddress := fullAddress, paymentMethod := none,
    notes := none, installationLocation := none, layoutImage := none, layoutNotes := none }

/-- The `enum` validator of the order `status`. -/
def parseOrderStatus (s : String) : Option OrderStatus :=
  if s = "pending" then some .pending
  else if s = "confirmed" then some .confirmed
  else if s = "processing" then some .processing
  else if s = "shipped" then some .shipped
  else if s = "delivered" then some .delivered
  else if s = "installation_scheduled" then some .installation_scheduled
  else if s = "installation_in_progress" then some .installation_in_progress
  else if s = "completed" then some .completed
  else if s = "cancelled" then some .cancelled
  else none

/-- JavaScript truthiness of an optional string, as in `if (note)`. -/
def truthy : Option String → Bool
  | some s => decide (s ≠ "")
  | none => false

/-- The handler of `PUT /api/orders/:id/status` behind `isAdmin` (orders.js 203-235).  The
assignment marks `status` modified only when the value differs from the loaded one; an
unknown status is rejected by the enum validator inside `order.save()`. -/
def setOrderStatus (env : Env) (db : Db) (caller : User) (id : OrderId) (status : String)
    (note : Option String) : Db × Except Failure Order :=
  if !isAdmin caller then (db, .error .adminOnly)
  else
    match db.orders[id]? with
    | none => (db, .error .orderNotFound)
    | some order =>
      match parseOrderStatus status with
      | none => (db, .error .serverError)
      | some st =>
        let history :=
          if truthy note then order.statusHistory ++ [{ status := st, date := env.now, note := note }]
          else order.statusHistory
        let saved := orderPreSave env (decide (st ≠ order.status))
          { order with status := st, statusHistory := history }
        ({ db with orders := db.orders.set id saved }, .ok saved)

/-- The handler of `PUT /api/orders/:id/payment` behind `isAdmin` (orders.js 240-269):
`findByIdAndUpdate`, so no hook and no validator runs; an undefined `paymentStatus` updates
nothing.  The body's value is taken inside the schema enumeration, the type of the stored
field. -/
def setPaymentStatus (db : Db) (caller : User) (id : OrderId)
    (paymentStatus : Option PaymentStatus) : Db × Except Failure Order :=
  if !isAdmin caller then (db, .error .adminOnly)
  else
    match db.orders[id]? with
    | none => (db, .error .orderNotFound)
    | some order =>
      let updated : Order :=
        match paymentStatus with
        | some p => { order with paymentStatus := p }
        | none => order
      ({ db with orders := db.orders.set id updated }, .ok updated)

/-- The `pre('save')` hook of `models/Installation.js`. -/
def installationPreSave (env : Env) (statusModified : Bool) (i : Installation) : Installation :=
  let i1 : Installation := { i with updatedAt := env.now }
  if statusModified then
    let i2 : Installation :=
      { i1 with
        statusHistory := i1.statusHistory ++
          [{ status := i1.status, date := env.now, note := none, updatedBy := none }] }
    let i3 : Installation :=
      if i2.status = .completed then { i2 with completedDate := some env.now } else i2
    if i3.status = .in_progress ∧ i3.startTime = none then { i3 with startTime := some env.now }
    else i3
  else i1

/-- `Order.findByIdAndUpdate(id, { status })`: no hook runs, a missing order stays missing. -/
def mirrorOrderStatus (orders : List Order) (id : OrderId) (status : OrderStatus) : List Order :=
  match orders[id]? with
  | none => orders
  | some o => orders.set id { o with status := status }

/-- The body of `POST /api/installations`. -/
structure ScheduleRequest where
  orderId : OrderId
  teamId : Option UserId
  scheduledDate : Option Timestamp
  location : Option Location
  notes : Option String
  estimatedDuration : Option ℚ

/-- The handler of `POST /api/installations` behind `isAdmin` (installations.js 104-164).
`Installation.create` rejects a missing `team` or `scheduledDate` and fills an absent
`location.address.country` with the schema default "India". -/
def schedule (env : Env) (db : Db) (caller : User) (req : ScheduleRequest) :
    Db × Except Failure Installation :=
  if !isAdmin caller then (db, .error .adminOnly)
  else
    match db.orders[req.orderId]? with
    | none => (db, .error .orderNotFound)
    | some order =>
      let equipmentList : List EquipmentEntry := order.items.map fun item =>
        { equipment := item.equipment, name := item.name, quantity := item.quantity,
          installationStatus := .pending }
      let location : Location := req.location.getD
        { street := order.shippingAddress.street
          city := order.shippingAddress.city
          state := order.shippingAddress.state
          zipCode := order.shippingAddress.zipCode
          country := order.shippingAddress.country
          landmark := none
          accessInstructions := none }
      match req.teamId, req.scheduledDate with
      | some team, some date =>
        let installation := installationPreSave env true
          { order := req.orderId
            team := team
            customer := order.user
            scheduledDate := date
            status := .scheduled
            location := { location with country := some (location.country.getD "India") }
            equipmentList := equipmentList
            notes := req.notes
            teamNotes := none
            customerFeedback := none
            startTime := none
            completedDate := none
            estimatedDuration := req.estimatedDuration
            statusHistory := []
            createdAt := env.now
            updatedAt := env.now }
        let savedOrder := orderPreSave env (decide (order.status ≠ .installation_scheduled))
          { order with status := .installation_scheduled }
        ({ db with
            installations := db.installations ++ [installation]
            orders := db.orders.set req.orderId savedOrder }, .ok installation)
      | _, _ => (db, .error .serverError)

/-- The `isInstallationTeam` middleware of `middleware/roleCheck.js`, for an attached user. -/
def isInstallationTeam (caller : User) : Bool :=
  decide (caller.role = .installation_team ∨ caller.role = .admin)

/-- The `enum` validator of the installation `status`. -/
def parseInstallationStatus (s : String) : Option InstallationStatus :=
  if s = "scheduled" then some .scheduled
  else if s = "in_progress" then some .in_progress
  else if s = "on_hold" then some .on_hold
  else if s = "completed" then some .completed
  else if s = "cancelled" then some .cancelled
  else none

/-- The handler of `PUT /api/installations/:id/status` behind `isInstallationTeam`
(installations.js 169-224). -/
def setInstallationStatus (env : Env) (db : Db) (caller : User) (id : Nat) (status : String)
    (note : Option String) : Db × Except Failure Installation :=
  if !isInstallationTeam caller then (db, .error .teamOnly)
  else
    match db.installations[id]? with
    | none => (db, .error .installationNotFound)
    | some installation =>
      if caller.role = .installation_team ∧ installation.team ≠ caller.id then
        (db, .error .notAssigned)
      else
        match parseInstallationStatus status with
        | none => (db, .error .serverError)
        | some st =>
          let saved := installationPreSave env (decide (st ≠ installation.status))
            { installation with
              status := st
              statusHistory := installation.statusHistory ++
                [{ status := st, date := env.now, note := note, updatedBy := some caller.id }] }
          let orders :=
            if st = .in_progress then
              mirrorOrderStatus db.orders installation.order .installation_in_progress
            else if st = .completed then
              mirrorOrderStatus db.orders installation.order .completed
            else db.orders
          ({ db with installations := db.installations.set id saved, orders := orders }, .ok saved)

/-- The `enum` validator of `installationStatus`. -/
def parseItemStatus (s : String) : Option ItemStatus :=
  if s = "pending" then some .pending
  else if s = "in_progress" then some .in_progress
  else if s = "completed" then some .completed
  else none

/-- The assignment `equipment.installationStatus = status` on the entry returned by
`equipmentList.find(e => e.equipment.toString() === equipmentId)`: the first matching entry
gets the new status. -/
def setFirstMatching (equipmentId : EquipId) (status : ItemStatus) :
    List EquipmentEntry → List EquipmentEntry
  | [] => []
  | e :: rest =>
    if e.equipment = equipmentId then { e with installationStatus := status } :: rest
    else e :: setFirstMatching equipmentId status rest

/-- The handler of `PUT /api/installations/:id/equipment-status` behind `isInstallationTeam`
(installations.js 229-280).  An unknown status is rejected by the enum validator inside the
first `installation.save()`. -/
def setEquipmentItemStatus (env : Env) (db : Db) (caller : User) (id : Nat)
    (equipmentId : EquipId) (status : String) : Db × Except Failure Installation :=
  if !isInstallationTeam caller then (db, .error .teamOnly)
  else
    match db.installations[id]? with
    | none => (db, .error .installationNotFound)
    | some installation =>
      match installation.equipmentList.find? (fun e => decide (e.equipment = equipmentId)) with
      | none => (db, .error .equipmentNotInInstallation)
      | some _ =>
        match parseItemStatus status with
        | none => (db, .error .serverError)
        | some st =>
          let saved := installationPreSave env false
            { installation with
              equipmentList := setFirstMatching equipmentId st installation.equipmentList }
          if saved.equipmentList.all (fun e => decide (e.installationStatus = .completed)) then
            let completed := installationPreSave env (decide (saved.status ≠ .completed))
              { saved with status := .completed }
            ({ db with
                installations := db.installations.set id completed
                orders := mirrorOrderStatus db.orders installation.order .completed },
              .ok completed)
          else ({ db with installations := db.installations.set id saved }, .ok saved)

/-- The handler of `PUT /api/installations/:id/notes` behind `isInstallationTeam`
(installations.js 285-314). -/
def setTeamNotes (db : Db) (caller : User) (id : Nat) (teamNotes : Option String) :
    Db × Except Failure Installation :=
  if !isInstallationTeam caller then (db, .error .teamOnly)
  else
    match db.installations[id]? with
    | none => (db, .error .installationNotFound)
    | some installation =>
      let updated : Installation :=
        match teamNotes with
        | some n => { installation with teamNotes := some n }
        | none => installation
      ({ db with installations := db.installations.set id updated }, .ok updated)

/-- The handler of `PUT /api/installations/:id/feedback` (installations.js 319-366); the
`min: 1, max: 5` validators of `rating` run inside `installation.save()`. -/
def setCustomerFeedback (env : Env) (db : Db) (caller : User) (id : Nat) (rating : Option ℤ)
    (comment : Option String) : Db × Except Failure Installation :=
  match db.installations[id]? with
  | none => (db, .error .installationNotFound)
  | some installation =>
    if installation.customer ≠ caller.id then (db, .error .feedbackNotAuthorized)
    else if installation.status ≠ .completed then (db, .error .feedbackNotCompleted)
    else
      match rating with
      | some r =>
        if r < 1 ∨ 5 < r then (db, .error .serverError)
        else
          let saved := installationPreSave env false
            { installation with
              customerFeedback := some { rating := some r, comment := comment, date := env.now } }
          ({ db with installations := db.installations.set id saved }, .ok saved)
      | none =>
        let saved := installationPreSave env false
          { installation with
            customerFeedback := some { rating := none, comment := comment, date := env.now } }
        ({ db with installations := db.installations.set id saved }, .ok saved)

/-- One request to a lifecycle route, with its caller and body. -/
inductive Op where
  | createOrder (req : OrderRequest)
  | setOrderStatus (caller : User) (id : OrderId) (status : String) (note : Option String)
  | setPaymentStatus (caller : User) (id : OrderId) (paymentStatus : Option PaymentStatus)
  | cancel (caller : User) (id : OrderId)
  | updateStock (caller : User) (id : EquipId) (stock : Option ℤ)
  | schedule (caller : User) (req : ScheduleRequest)
  | setInstallationStatus (caller : User) (id : Nat) (status : String) (note : Option String)
  | setEquipmentItemStatus (caller : User) (id : Nat) (equipmentId : EquipId) (status : String)
  | setTeamNotes (caller : User) (id : Nat) (teamNotes : Option String)
  | setCustomerFeedback (caller : User) (id : Nat) (rating : Option ℤ) (comment : Option String)

/-- The database left behind by one request. -/
def step (db : Db) (r : Env × Op) : Db :=
  match r.2 with
  | .createOrder req => (createOrder r.1 db req).1
  | .setOrderStatus caller id status note => (setOrderStatus r.1 db caller id status note).1
  | .setPaymentStatus caller id p => (setPaymentStatus db caller id p).1
  | .cancel caller id => (cancelOrder r.1 db caller id).1
  | .updateStock caller id stock => (updateStock db caller id stock).1
  | .schedule caller req => (schedule r.1 db caller req).1
  | .setInstallationStatus caller id status note =>
    (setInstallationStatus r.1 db caller id status note).1
  | .setEquipmentItemStatus caller id equipmentId status =>
    (setEquipmentItemStatus r.1 db caller id equipmentId status).1
  | .setTeamNotes caller id notes => (setTeamNotes db caller id notes).1
  | .setCustomerFeedback caller id rating comment =>
    (setCustomerFeedback r.1 db caller id rating comment).1

/-- The database left behind by a sequence of requests, each with its own clock and draw. -/
def run (db : Db) (rs : List (Env × Op)) : Db := rs.foldl step db

/-- The line item that a successful iteration pushes for `item` when it read `e`. -/
def lineOf (item : ItemRequest) (e : Equipment) : OrderItem :=
  { equipment := item.equipment, name := e.name, quantity := item.quantity,
    price := (e.price : ℚ), image := e.image }

/-- The equipment document that a successful iteration saves after reading `e`. -/
def reserved (e : Equipment) (quantity : ℤ) : Equipment :=
  { e with
    stock := e.stock - quantity
    isAvailable := if e.stock - quantity = 0 then false else e.isAvailable }

/-- The object handed to `Order.create` by `POST /api/orders` once the loop has returned
`totalAmount` and `orderItems`. -/
def draftOf (req : OrderRequest) (totalAmount : ℚ) (orderItems : List OrderItem) : OrderDraft :=
  { user := req.user
    items := orderItems
    totalAmount := totalAmount
    taxAmount := jsMul totalAmount (roundDouble 0.18)
    shippingAmount := if totalAmount > 50000 then 0 else 2000
    grandTotal := jsAdd (jsAdd totalAmount (jsMul totalAmount (roundDouble 0.18)))
      (if totalAmount > 50000 then 0 else 2000)
    shippingAddress := req.shippingAddress
    paymentMethod :=
      match req.paymentMethod with
      | some pm => if pm = "" then "cod" else pm
      | none => "cod"
    notes := req.notes
    installationLocation := req.installationLocation
    layoutImage := req.layoutImage
    layoutNotes := req.layoutNotes }

/-- A store whose single order already carries the number that `env0` generates. -/
def dbTaken : Db :=
  { equipment := storeAB
    orders :=
      [{ user := 9, orderNumber := "PG26110042", items := [], totalAmount := 0, taxAmount := 0,
         shippingAmount := 2000, grandTotal := 2000, shippingAddress := fullAddress,
         status := .delivered, paymentStatus := .paid, paymentMethod := .cod, notes := none,
         installationLocation := none, layoutImage := none, layoutNotes := none,
         statusHistory := [], createdAt := 1, updatedAt := 1 }]
    installations := [] }

/-- The worked request "2 of A, 1 of B". -/
def requestAB : OrderRequest := requestOf [⟨1, 2⟩, ⟨2, 1⟩]

/-- The stored order `a` carries the line items and the four amounts of `b`. -/
def Order.sameTotals (a b : Order) : Prop :=
  a.items = b.items ∧ a.totalAmount = b.totalAmount ∧ a.taxAmount = b.taxAmount ∧
    a.shippingAmount = b.shippingAmount ∧ a.grandTotal = b.grandTotal

/-- Every order of `before` is still stored under its id in `after`, with the same line items
and amounts. -/
def TotalsKept (before after : List Order) : Prop :=
  ∀ (i : Nat) (o : Order), before[i]? = some o →
    ∃ o' : Order, after[i]? = some o' ∧ o'.sameTotals o

/-- The order that the worked request stores: totals 25000, 4500, 2000 and 31500. -/
def orderAB : Order :=
  { user := 7
    orderNumber := "PG26110042"
    items :=
      [{ equipment := 1, name := "A", quantity := 2, price := 10000, image := "a.jpg" },
       { equipment := 2, name := "B", quantity := 1, price := 5000, image := "b.jpg" }]
    totalAmount := 25000
    taxAmount := 4500
    shippingAmount := 2000
    grandTotal := 31500
    shippingAddress := { fullAddress with country := some "India" }
    status := .pending
    paymentStatus := .pending
    paymentMethod := .cod
    notes := none
    installationLocation := none
    layoutImage := none
    layoutNotes := none
    statusHistory := [{ status := .pending, date := 100, note := none }]
    createdAt := 100
    updatedAt := 100 }

/-- A database with two pieces of equipment, both with stock 4: id 3 costs 4999 and id 4
costs 25000. -/
def dbOdd : Db :=
  { equipment := fun id =>
      if id = 3 then
        some { name := "C", price := 4999, image := "c.jpg", stock := 4, isAvailable := true }
      else if id = 4 then
        some { name := "D", price := 25000, image := "d.jpg", stock := 4, isAvailable := true }
      else none
    orders := []
    installations := [] }

/-- A database with two pieces of equipment, both with stock 4: id 5 costs 877 and id 6
costs 0.1, that is the binary64 value nearest to one tenth. -/
def dbFine : Db :=
  { equipment := fun id =>
      if id = 5 then
        some { name := "F", price := 877, image := "f.jpg", stock := 4, isAvailable := true }
      else if id = 6 then
        some { name := "G", price := 3602879701896397 / 36028797018963968, image := "g.jpg",
               stock := 4, isAvailable := true }
      else none
    orders := []
    installations := [] }

/-- The order stored for "2 of equipment 4" against `dbOdd`: its total is exactly 50000. -/
def orderThreshold : Order :=
  { orderAB with
    items := [{ equipment := 4, name := "D", quantity := 2, price := 25000, image := "d.jpg" }]
    totalAmount := 50000
    taxAmount := 9000
    shippingAmount := 2000
    grandTotal := 61000 }

/-- The inventory invariant of the data model on every stored equipment: stock is not
negative, and stock 0 forces `isAvailable = false`. -/
def EquipInv (s : EquipStore) : Prop :=
  ∀ (id : EquipId) (e : Equipment), s id = some e →
    0 ≤ e.stock ∧ (e.stock = 0 → e.isAvailable = false)

/-- The `min: 1` validator of `orderItemSchema.quantity`, on every stored order. -/
def OrdersValid (orders : List Order) : Prop :=
  ∀ o ∈ orders, ∀ i ∈ o.items, 1 ≤ i.quantity

/-- The quantity that the lines of `items` naming equipment `id` add up to. -/
def quantityFor (items : List OrderItem) (id : EquipId) : ℤ :=
  ((items.filter (fun i => decide (i.equipment = id))).map (·.quantity)).sum

/-- The restore loop of `PUT /api/orders/:id/cancel` (orders.js 302-307). -/
def restoreAll (s : EquipStore) (items : List OrderItem) : EquipStore :=
  items.foldl (fun s item => restoreStock s item.equipment item.quantity) s

/-- The outcome of the specification's `reserve(equipmentId, quantity)` (section 4.1). -/
inductive ReserveOutcome where
  | notFound
  | insufficientStock
  | reserved (s : EquipStore)

/-- The specification's `reserve(equipmentId, quantity)`, written from its words: NotFound if
the equipment does not exist; InsufficientStock if `isAvailable` is false or
`stock < quantity`; otherwise stock is decremented by the quantity and, if the resulting stock
is 0, `isAvailable` is set to false. -/
def specReserve (s : EquipStore) (id : EquipId) (quantity : ℤ) : ReserveOutcome :=
  match s id with
  | none => .notFound
  | some e =>
    if e.isAvailable = false ∨ e.stock < quantity then .insufficientStock
    else
      .reserved (Function.update s id
        (some { e with
                stock := e.stock - quantity
                isAvailable := if e.stock - quantity = 0 then false else e.isAvailable }))

/-- The two ways the specification's `reserve` can reject an item. -/
inductive ItemFailure where
  | notFound
  | insufficientStock
deriving DecidableEq, Repr

/-- The first failing item of a request, by the specification's words: the items are reserved
in list order, each against the store left by the reservations before it, and the first item
whose reservation is rejected is returned with the kind of rejection. -/
def firstFailing (s : EquipStore) : List ItemRequest → Option (ItemRequest × ItemFailure)
  | [] => none
  | item :: rest =>
    match specReserve s item.equipment item.quantity with
    | .notFound => some (item, .notFound)
    | .insufficientStock => some (item, .insufficientStock)
    | .reserved s' => firstFailing s' rest

/-- The database after the worked request has been stored as order 0. -/
def dbPlaced : Db := (createOrder env0 dbAB requestAB).1

/-- The environment of a later request: clock 200. -/
def env1 : Env := { now := 200, fullYear := 2026, monthIndex := 10, randomDraw := 43 }

/-- The owner of the worked order. -/
def owner : User := { id := 7, role := .customer }

/-- The worked order after its owner cancelled it at clock 200. -/
def orderABCancelled : Order :=
  { orderAB with
    status := .cancelled
    statusHistory :=
      [{ status := .pending, date := 100, note := none },
       { status := .cancelled, date := 200, note := none }]
    updatedAt := 200 }

/-- The database after the owner cancelled order 0 of `dbPlaced`. -/
def dbCancelled : Db := (cancelOrder env1 dbPlaced owner 0).1

/-- A database whose equipment 5 has stock 10 but is marked unavailable. -/
def dbHidden : Db :=
  { equipment := fun id =>
      if id = 5 then
        some { name := "E", price := 100, image := "e.jpg", stock := 10, isAvailable := false }
      else none
    orders := []
    installations := [] }

/-- The string of the order `status` enumeration that names `st` in a request body. -/
def OrderStatus.name : OrderStatus → String
  | .pending => "pending"
  | .confirmed => "confirmed"
  | .processing => "processing"
  | .shipped => "shipped"
  | .delivered => "delivered"
  | .installation_scheduled => "installation_scheduled"
  | .installation_in_progress => "installation_in_progress"
  | .completed => "completed"
  | .cancelled => "cancelled"

/-- The string of the installation `status` enumeration that names `st` in a request body. -/
def InstallationStatus.name : InstallationStatus → String
  | .scheduled => "scheduled"
  | .in_progress => "in_progress"
  | .on_hold => "on_hold"
  | .completed => "completed"
  | .cancelled => "cancelled"

/-- Between `before` and `after`, the status of every order that stays stored under its id is
either kept or moved in a way that `allowed` admits (order id, old status, new status). -/
def StatusMoves (before after : List Order)
    (allowed : OrderId → OrderStatus → OrderStatus → Prop) : Prop :=
  ∀ (i : Nat) (o o' : Order), before[i]? = some o → after[i]? = some o' →
    o'.status = o.status ∨ allowed i o.status o'.status

/-- Every entry of an `equipmentList` is completed, as in
`equipmentList.every(e => e.installationStatus === 'completed')`. -/
def allCompleted (l : List EquipmentEntry) : Bool :=
  l.all (fun e => decide (e.installationStatus = .completed))

/-- The number of stored installations that reference order `id`. -/
def installationsOf (db : Db) (id : OrderId) : Nat :=
  (db.installations.filter (fun x => decide (x.order = id))).length

/-- An administrator. -/
def adminUser : User := { id := 1, role := .admin }

/-- The installation-team member the worked installation is assigned to. -/
def teamUser : User := { id := 20, role := .installation_team }

/-- An installation-team member the worked installation is not assigned to. -/
def otherTeamUser : User := { id := 21, role := .installation_team }

/-- The request that schedules the installation of order 0 for team member 20. -/
def scheduleAB : ScheduleRequest :=
  { orderId := 0, teamId := some 20, scheduledDate := some 500, location := none,
    notes := none, estimatedDuration := none }

/-- The database after the administrator scheduled the installation of order 0 at clock 200. -/
def dbScheduled : Db := (schedule env1 dbPlaced adminUser scheduleAB).1

/-- The installation stored by `scheduleAB`. -/
def installationAB : Installation :=
  { order := 0
    team := 20
    customer := 7
    scheduledDate := 500
    status := .scheduled
    location :=
      { street := some "S", city := some "C", state := some "T", zipCode := some "Z",
        country := some "India", landmark := none, accessInstructions := none }
    equipmentList :=
      [{ equipment := 1, name := "A", quantity := 2, installationStatus := .pending },
       { equipment := 2, name := "B", quantity := 1, installationStatus := .pending }]
    notes := none
    teamNotes := none
    customerFeedback := none
    startTime := none
    completedDate := none
    estimatedDuration := none
    statusHistory := [{ status := .scheduled, date := 200, note := none, updatedBy := none }]
    createdAt := 200
    updatedAt := 200 }

/-- The worked order after its installation was scheduled at clock 200. -/
def orderABScheduled : Order :=
  { orderAB with
    status := .installation_scheduled
    statusHistory :=
      [{ status := .pending, date := 100, note := none },
       { status := .installation_scheduled, date := 200, note := none }]
    updatedAt := 200 }

/-- The environment of a third request: clock 300. -/
def env2 : Env := { now := 300, fullYear := 2026, monthIndex := 10, randomDraw := 44 }

/-- The database after the administrator set order 0 of `dbPlaced` to shipped. -/
def dbShipped : Db := (setOrderStatus env1 dbPlaced adminUser 0 "shipped" none).1

/-- The environment of a fourth request: clock 400. -/
def env3 : Env := { now := 400, fullYear := 2026, monthIndex := 10, randomDraw := 45 }

/-- The database after the assigned team member marked equipment 1 of installation 0
completed at clock 300. -/
def dbOneDone : Db := (setEquipmentItemStatus env2 dbScheduled teamUser 0 1 "completed").1

/-- The worked installation after equipment 1 was marked completed at clock 300. -/
def installationOneDone : Installation :=
  { installationAB with
    equipmentList :=
      [{ equipment := 1, name := "A", quantity := 2, installationStatus := .completed },
       { equipment := 2, name := "B", quantity := 1, installationStatus := .pending }]
    updatedAt := 300 }

/-- The worked installation after equipment 2 was marked completed as well, at clock 400. -/
def installationAllDone : Installation :=
  { installationAB with
    status := .completed
    equipmentList :=
      [{ equipment := 1, name := "A", quantity := 2, installationStatus := .completed },
       { equipment := 2, name := "B", quantity := 1, installationStatus := .completed }]
    completedDate := some 400
    statusHistory :=
      [{ status := .scheduled, date := 200, note := none, updatedBy := none },
       { status := .completed, date := 400, note := none, updatedBy := none }]
    updatedAt := 400 }

/-- What a role middleware of `middleware/roleCheck.js` does with a request: it calls
`next()`, or it answers with the given HTTP status and the handler is not run. -/
inductive GateResult where
  | next
  | rejected (status : Nat)
deriving DecidableEq, Repr

/-- The `isAdmin` middleware on `req.user`, which may be absent. -/
def isAdminGate (user : Option User) : GateResult :=
  match user with
  | some u => if u.role = .admin then .next else .rejected 403
  | none => .rejected 403

/-- The `isInstallationTeam` middleware on `req.user`, which may be absent. -/
def isInstallationTeamGate (user : Option User) : GateResult :=
  match user with
  | some u => if u.role = .installation_team ∨ u.role = .admin then .next else .rejected 403
  | none => .rejected 403

/-- The `authorize(...roles)` middleware on `req.user`, which may be absent. -/
def authorize (roles : List Role) (user : Option User) : GateResult :=
  match user with
  | none => .rejected 401
  | some u => if u.role ∈ roles then .next else .rejected 403

/-- The ranges of the ambient inputs: a year of at least two digits, `getMonth()` in 0..11
and `Math.floor(Math.random() * 10000)` in 0..9999. -/
def Env.valid (env : Env) : Prop :=
  10 ≤ env.fullYear ∧ env.monthIndex < 12 ∧ env.randomDraw < 10000

/-- Every stored order has an order number and no two stored orders share one. -/
def NumbersOk (orders : List Order) : Prop :=
  (∀ o ∈ orders, o.orderNumber ≠ "") ∧ (orders.map (·.orderNumber)).Nodup

/-- Between `before` and `after`, every installation that stays stored under its id is
either the same document or related to the old one by `rel`. -/
def InstallationMoves (before after : List Installation)
    (rel : Installation → Installation → Prop) : Prop :=
  ∀ (i : Nat) (x x' : Installation), before[i]? = some x → after[i]? = some x' →
    x' = x ∨ rel x x'

/-- The stamping rule of `startTime` and `completedDate` for one write at clock `now`: a set
`startTime` stays; an unset one becomes `now` when the write changes the status to
in_progress and stays unset otherwise; `completedDate` is `now` when the write changes the
status to completed. -/
def stampRule (now : Timestamp) (x x' : Installation) : Prop :=
  (∀ t, x.startTime = some t → x'.startTime = some t) ∧
  (x.startTime = none → x.status ≠ .in_progress → x'.status = .in_progress →
    x'.startTime = some now) ∧
  (x.startTime = none → ¬ (x.status ≠ .in_progress ∧ x'.status = .in_progress) →
    x'.startTime = none) ∧
  (x.status ≠ .completed → x'.status = .completed → x'.completedDate = some now)

/-- The database after the assigned team member set installation 0 to in_progress at
clock 300. -/
def dbInProgress : Db := (setInstallationStatus env2 dbScheduled teamUser 0 "in_progress" none).1

/-- The worked installation after it was set to in_progress at clock 300. -/
def installationInProgress : Installation :=
  { installationAB with
    status := .in_progress
    statusHistory :=
      [{ status := .scheduled, date := 200, note := none, updatedBy := none },
       { status := .in_progress, date := 300, note := none, updatedBy := some 20 },
       { status := .in_progress, date := 300, note := none, updatedBy := none }]
    startTime := some 300
    updatedAt := 300 }

/-- The database after both entries of installation 0 were marked completed. -/
def dbAllDone : Db := (setEquipmentItemStatus env3 dbOneDone teamUser 0 2 "completed").1

/-- The first `await` of one loop iteration with the checks that follow it synchronously:
`Equipment.findById` and the two early returns (orders.js 130-144). -/
def readItem (s : EquipStore) (item : ItemRequest) : Except Failure Equipment :=
  match s item.equipment with
  | none => .error (.equipmentNotFound item.equipment)
  | some equipment =>
    if !equipment.isAvailable || equipment.stock < item.quantity then
      .error (.notAvailable equipment.name)
    else .ok equipment

/-- The second `await` of one loop iteration: the update of the document that was read and
`equipment.save()` (orders.js 157-161). -/
def writeItem (s : EquipStore) (item : ItemRequest) (equipment : Equipment) :
    Option EquipStore :=
  saveEquipment s item.equipment (reserved equipment item.quantity)

/-- The points at which two concurrent single-item requests A and B touch the store. -/
inductive Event where
  | readA
  | writeA
  | readB
  | writeB
deriving DecidableEq, Repr

/-- The store together with what each of the two requests holds between its `await`s: the
document it read, if it passed the checks, and whether it has saved its decrement. -/
structure RaceState where
  store : EquipStore
  docA : Option Equipment
  docB : Option Equipment
  savedA : Bool
  savedB : Bool

/-- One event of an interleaving of request A (item `a`) and request B (item `b`). -/
def raceStep (a b : ItemRequest) (st : RaceState) : Event → RaceState
  | .readA =>
    match readItem st.store a with
    | .ok e => { st with docA := some e }
    | .error _ => { st with docA := none }
  | .writeA =>
    match st.docA with
    | some e =>
      match writeItem st.store a e with
      | some s => { st with store := s, savedA := true }
      | none => st
    | none => st
  | .readB =>
    match readItem st.store b with
    | .ok e => { st with docB := some e }
    | .error _ => { st with docB := none }
  | .writeB =>
    match st.docB with
    | some e =>
      match writeItem st.store b e with
      | some s => { st with store := s, savedB := true }
      | none => st
    | none => st

/-- The state after an interleaving, started from `s` with nothing read or saved. -/
def raceRun (a b : ItemRequest) (s : EquipStore) (events : List Event) : RaceState :=
  events.foldl (raceStep a b)
    { store := s, docA := none, docB := none, savedA := false, savedB := false }

/-- The database after an order with two lines that both name equipment 1 (quantities 1
and 2) was placed and its installation scheduled. -/
def dbDup : Db :=
  run dbAB [(env0, .createOrder (requestOf [⟨1, 1⟩, ⟨1, 2⟩])),
            (env1, .schedule adminUser scheduleAB)]

/-- The installation stored in `dbDup`: two pending entries, both for equipment 1. -/
def installationDup : Installation :=
  { installationAB with
    equipmentList :=
      [{ equipment := 1, name := "A", quantity := 1, installationStatus := .pending },
       { equipment := 1, name := "A", quantity := 2, installationStatus := .pending }] }

/-- The number that a list of decimal digit characters writes, most significant digit
first. -/
def decimalValue (cs : List Char) : Nat :=
  cs.foldl (fun acc c => 10 * acc + (c.toNat - 48)) 0

/-- The order numbers of `after` are those of `before`, position by position, possibly
followed by one number that is set and that no order of `before` carries. -/
def NumbersStep (before after : List Order) : Prop :=
  after.map (·.orderNumber) = before.map (·.orderNumber) ∨
  ∃ n : String, n ≠ "" ∧ n ∉ before.map (·.orderNumber) ∧
    after.map (·.orderNumber) = before.map (·.orderNumber) ++ [n]

/-! ## JavaScript numbers -/

theorem bitLength_zero (fuel : ℕ) : bitLength fuel 0 = 0 := by
  cases fuel <;> simp [bitLength]

theorem bitLength_spec (fuel : ℕ) : ∀ n : ℕ, n ≠ 0 → n < 2 ^ fuel →
    ∃ b, bitLength fuel n = b + 1 ∧ 2 ^ b ≤ n ∧ n < 2 ^ (b + 1) := by
  induction fuel with
  | zero =>
    intro n hn h
    simp at h
    exact absurd h hn
  | succ fuel ih =>
    intro n hn h
    rw [bitLength, if_neg hn]
    by_cases h2 : n / 2 = 0
    · rw [h2, bitLength_zero]
      refine ⟨0, rfl, ?_, ?_⟩
      · simp; omega
      · simp; omega
    · have hlt : n / 2 < 2 ^ fuel := by
        rw [pow_succ] at h
        omega
      obtain ⟨b, hb, h1, h3⟩ := ih (n / 2) h2 hlt
      refine ⟨b + 1, by rw [hb], ?_, ?_⟩
      · rw [pow_succ]; omega
      · rw [pow_succ] at h3 ⊢; omega

theorem two_zpow_split (k : ℤ) : ((2 : ℚ) ^ k.toNat) / 2 ^ (-k).toNat = (2 : ℚ) ^ k := by
  rcases le_or_lt 0 k with h | h
  · have h1 : (-k).toNat = 0 := Int.toNat_eq_zero.mpr (by omega)
    rw [h1, pow_zero, div_one, ← zpow_natCast, Int.toNat_of_nonneg h]
  · have h1 : k.toNat = 0 := Int.toNat_eq_zero.mpr (by omega)
    have h2 : ((-k).toNat : ℤ) = -k := Int.toNat_of_nonneg (by omega)
    have h3 : k = -((-k).toNat : ℤ) := by omega
    rw [h1, pow_zero, one_div]
    conv_rhs => rw [h3]
    rw [zpow_neg, zpow_natCast]

/-- The rounded quotient is within one half of the exact quotient. -/
theorem roundHalfEven_spec (num den : ℕ) (hden : 0 < den) :
    |(roundHalfEven num den : ℚ) - (num : ℚ) / (den : ℚ)| ≤ 1 / 2 := by
  have hd : (0 : ℚ) < (den : ℚ) := by exact_mod_cast hden
  have hsplit : (num : ℚ) = (den : ℚ) * ((num / den : ℕ) : ℚ) + ((num % den : ℕ) : ℚ) := by
    exact_mod_cast (Nat.div_add_mod num den).symm
  have hr : ((num % den : ℕ) : ℚ) < (den : ℚ) := by exact_mod_cast Nat.mod_lt num hden
  have hr0 : (0 : ℚ) ≤ ((num % den : ℕ) : ℚ) := by positivity
  have hq : (num : ℚ) / (den : ℚ) =
      ((num / den : ℕ) : ℚ) + ((num % den : ℕ) : ℚ) / (den : ℚ) := by
    conv_lhs => rw [hsplit]
    rw [add_div, mul_div_cancel_left₀ _ (ne_of_gt hd)]
  unfold roundHalfEven
  simp only
  rw [hq, abs_le]
  by_cases h1 : 2 * (num % den) < den
  · rw [if_pos h1]
    have h1' : (2 : ℚ) * ((num % den : ℕ) : ℚ) < (den : ℚ) := by exact_mod_cast h1
    have : ((num % den : ℕ) : ℚ) / (den : ℚ) ≤ 1 / 2 := by
      rw [div_le_iff₀ hd]; linarith
    have : 0 ≤ ((num % den : ℕ) : ℚ) / (den : ℚ) := by positivity
    constructor <;> linarith
  · rw [if_neg h1]
    have h1' : (den : ℚ) ≤ (2 : ℚ) * ((num % den : ℕ) : ℚ) := by exact_mod_cast not_lt.mp h1
    have hlo : 1 / 2 ≤ ((num % den : ℕ) : ℚ) / (den : ℚ) := by
      rw [le_div_iff₀ hd]; linarith
    have hhi : ((num % den : ℕ) : ℚ) / (den : ℚ) ≤ 1 := by
      rw [div_le_iff₀ hd]; linarith
    by_cases h2 : den < 2 * (num % den)
    · rw [if_pos h2]
      push_cast
      constructor <;> linarith
    · rw [if_neg h2]
      have h2' : (2 : ℚ) * ((num % den : ℕ) : ℚ) ≤ (den : ℚ) := by exact_mod_cast not_lt.mp h2
      have heq : ((num % den : ℕ) : ℚ) / (den : ℚ) = 1 / 2 := by
        apply le_antisymm _ hlo
        rw [div_le_iff₀ hd]; linarith
      split
      · constructor <;> linarith
      · push_cast
        constructor <;> linarith

/-- The binary exponent is not too large: `2^e` does not exceed the number. -/
theorem binaryExponent_le (n d : ℕ) (hn : n ≠ 0) (hd : d ≠ 0) :
    (2 : ℚ) ^ binaryExponent n d ≤ (n : ℚ) / (d : ℚ) := by
  have hd' : (0 : ℚ) < (d : ℚ) := by exact_mod_cast Nat.pos_of_ne_zero hd
  unfold binaryExponent
  simp only
  split
  · rename_i hc
    rw [← two_zpow_split, div_le_div_iff₀ (by positivity) hd']
    have hc' : (d : ℚ) * 2 ^ ((bitLength n n : ℤ) - (bitLength d d : ℤ)).toNat ≤
        (n : ℚ) * 2 ^ (-((bitLength n n : ℤ) - (bitLength d d : ℤ))).toNat := by
      exact_mod_cast hc
    linarith
  · obtain ⟨a, ha, ha1, _⟩ := bitLength_spec n n hn (Nat.lt_two_pow n)
    obtain ⟨b, hb, _, hb2⟩ := bitLength_spec d d hd (Nat.lt_two_pow d)
    rw [ha, hb]
    have he : ((a + 1 : ℕ) : ℤ) - ((b + 1 : ℕ) : ℤ) - 1 = (a : ℤ) - ((b + 1 : ℕ) : ℤ) := by
      push_cast
      ring
    rw [he, zpow_sub₀ (by norm_num), zpow_natCast, zpow_natCast]
    have h1 : ((2 : ℚ) ^ a) ≤ (n : ℚ) := by exact_mod_cast ha1
    have h2 : (d : ℚ) ≤ (2 : ℚ) ^ (b + 1) := by exact_mod_cast hb2.le
    exact div_le_div₀ (by positivity) h1 hd' h2

/-- The binary exponent is not too small: the number lies below `2^(e+1)`. -/
theorem binaryExponent_lt (n d : ℕ) (hn : n ≠ 0) (hd : d ≠ 0) :
    (n : ℚ) / (d : ℚ) < (2 : ℚ) ^ (binaryExponent n d + 1) := by
  have hd' : (0 : ℚ) < (d : ℚ) := by exact_mod_cast Nat.pos_of_ne_zero hd
  unfold binaryExponent
  simp only
  split
  · obtain ⟨a, ha, _, ha2⟩ := bitLength_spec n n hn (Nat.lt_two_pow n)
    obtain ⟨b, hb, hb1, _⟩ := bitLength_spec d d hd (Nat.lt_two_pow d)
    rw [ha, hb]
    have he : ((a + 1 : ℕ) : ℤ) - ((b + 1 : ℕ) : ℤ) + 1 = ((a + 1 : ℕ) : ℤ) - (b : ℤ) := by
      push_cast
      ring
    rw [he, zpow_sub₀ (by norm_num), zpow_natCast, zpow_natCast]
    have h1 : (n : ℚ) < (2 : ℚ) ^ (a + 1) := by exact_mod_cast ha2
    have h2 : ((2 : ℚ) ^ b) ≤ (d : ℚ) := by exact_mod_cast hb1
    have h3 : (0 : ℚ) < (2 : ℚ) ^ b := by positivity
    rw [div_lt_div_iff₀ hd' h3]
    calc (n : ℚ) * 2 ^ b ≤ (n : ℚ) * (d : ℚ) :=
          mul_le_mul_of_nonneg_left h2 (by positivity)
      _ < (2 : ℚ) ^ (a + 1) * (d : ℚ) := mul_lt_mul_of_pos_right h1 hd'
  · rename_i hc
    rw [sub_add_cancel, ← two_zpow_split, div_lt_div_iff₀ hd' (by positivity)]
    have hc' : (n : ℚ) * 2 ^ (-((bitLength n n : ℤ) - (bitLength d d : ℤ))).toNat <
        (d : ℚ) * 2 ^ ((bitLength n n : ℤ) - (bitLength d d : ℤ)).toNat := by
      exact_mod_cast not_le.mp hc
    linarith

theorem roundMagnitude_error (n d : ℕ) (hn : n ≠ 0) (hd : d ≠ 0) :
    |roundMagnitude n d - (n : ℚ) / (d : ℚ)| ≤ (n : ℚ) / (d : ℚ) / 2 ^ 53 + 1 / 2 ^ 1075 := by
  have hd' : (0 : ℚ) < (d : ℚ) := by exact_mod_cast Nat.pos_of_ne_zero hd
  have hq0 : (0 : ℚ) ≤ (n : ℚ) / (d : ℚ) := by positivity
  have hexp := binaryExponent_le n d hn hd
  unfold roundMagnitude
  simp only
  generalize hk : max (binaryExponent n d) (-1022) - 52 = k
  have hden : 0 < d * 2 ^ k.toNat := by positivity
  have hround := roundHalfEven_spec (n * 2 ^ (-k).toNat) (d * 2 ^ k.toNat) hden
  have hpos : (0 : ℚ) < (2 : ℚ) ^ k := by positivity
  have hratio : ((n * 2 ^ (-k).toNat : ℕ) : ℚ) / ((d * 2 ^ k.toNat : ℕ) : ℚ) =
      (n : ℚ) / (d : ℚ) / (2 : ℚ) ^ k := by
    rw [← two_zpow_split k]
    push_cast
    field_simp
  rw [hratio] at hround
  rw [Rat.mkRat_eq_div]
  set m : ℚ := ((roundHalfEven (n * 2 ^ (-k).toNat) (d * 2 ^ k.toNat) : ℕ) : ℚ) with hm
  have hmag :
      (((roundHalfEven (n * 2 ^ (-k).toNat) (d * 2 ^ k.toNat) * 2 ^ k.toNat : ℕ) : ℤ) : ℚ) /
        (((2 ^ (-k).toNat : ℕ) : ℕ) : ℚ) = m * (2 : ℚ) ^ k := by
    rw [← two_zpow_split k]
    push_cast
    rw [mul_div_assoc]
  rw [hmag]
  have hdiff : m * (2 : ℚ) ^ k - (n : ℚ) / (d : ℚ) =
      (m - (n : ℚ) / (d : ℚ) / (2 : ℚ) ^ k) * (2 : ℚ) ^ k := by
    field_simp
    ring
  rw [hdiff, abs_mul, abs_of_pos hpos]
  have hstep : |m - (n : ℚ) / (d : ℚ) / (2 : ℚ) ^ k| * (2 : ℚ) ^ k ≤ 1 / 2 * (2 : ℚ) ^ k :=
    mul_le_mul_of_nonneg_right hround hpos.le
  refine hstep.trans ?_
  rcases le_total (binaryExponent n d) (-1022) with hsmall | hbig
  · have hk' : k = -1074 := by
      rw [← hk, max_eq_right hsmall]
      norm_num
    rw [hk']
    have : (0 : ℚ) ≤ (n : ℚ) / (d : ℚ) / 2 ^ 53 := by positivity
    have h2 : (1 / 2 : ℚ) * (2 : ℚ) ^ (-1074 : ℤ) = 1 / 2 ^ 1075 := by
      have hz : (2 : ℚ) ^ (-1074 : ℤ) = 1 / 2 ^ 1074 := by
        rw [zpow_neg, one_div]
        norm_cast
      have hp : (2 : ℚ) ^ 1075 = 2 ^ 1074 * 2 := by rw [← pow_succ]
      rw [hz, hp]
      generalize (2 : ℚ) ^ 1074 = x
      ring
    linarith
  · have hk' : k = binaryExponent n d - 52 := by
      rw [← hk, max_eq_left hbig]
    have h2 : (1 / 2 : ℚ) * (2 : ℚ) ^ k = (2 : ℚ) ^ binaryExponent n d / 2 ^ 53 := by
      have hz : (2 : ℚ) ^ (52 : ℤ) = 2 ^ 52 := by norm_cast
      have hp : (2 : ℚ) ^ 53 = 2 ^ 52 * 2 := by rw [← pow_succ]
      rw [hk', zpow_sub₀ (by norm_num), hz, hp]
      generalize (2 : ℚ) ^ 52 = x
      ring
    rw [h2]
    have h3 : (2 : ℚ) ^ binaryExponent n d / 2 ^ 53 ≤ (n : ℚ) / (d : ℚ) / 2 ^ 53 :=
      div_le_div_of_nonneg_right hexp (by positivity)
    have : (0 : ℚ) ≤ 1 / 2 ^ 1075 := by positivity
    linarith

/-- Rounding to the nearest binary64 value moves a number by at most one part in `2^53`,
or by `2^(-1075)` below the normal range. -/
theorem roundDouble_error (q : ℚ) : |roundDouble q - q| ≤ |q| / 2 ^ 53 + 1 / 2 ^ 1075 := by
  unfold roundDouble
  by_cases h0 : q.num = 0
  · have hq : q = 0 := Rat.num_eq_zero.mp h0
    rw [if_pos h0, hq]
    norm_num
  · rw [if_neg h0]
    have hn : q.num.natAbs ≠ 0 := Int.natAbs_ne_zero.mpr h0
    have hd : q.den ≠ 0 := q.den_nz
    have herr := roundMagnitude_error q.num.natAbs q.den hn hd
    have habs : |q| = (q.num.natAbs : ℚ) / (q.den : ℚ) := by
      conv_lhs => rw [← Rat.num_div_den q]
      rw [abs_div, Nat.abs_cast, ← Int.cast_abs, Int.abs_eq_natAbs, Int.cast_natCast]
    rw [← habs] at herr
    by_cases hneg : q.num < 0
    · rw [if_pos hneg]
      have hq : q < 0 := Rat.num_neg.mp hneg
      have : |q| = -q := abs_of_neg hq
      have e : -roundMagnitude q.num.natAbs q.den - q =
          -(roundMagnitude q.num.natAbs q.den - |q|) := by
        rw [this]; ring
      rw [e, abs_neg]
      exact herr
    · rw [if_neg hneg]
      have hq : 0 ≤ q := Rat.num_nonneg.mp (not_lt.mp hneg)
      have : |q| = q := abs_of_nonneg hq
      rw [this] at herr
      rw [this]
      exact herr

/-- Rounding keeps the sign: the nearest binary64 value of a non-negative number is not
negative. -/
theorem roundDouble_nonneg (q : ℚ) (h : 0 ≤ q) : 0 ≤ roundDouble q := by
  unfold roundDouble
  by_cases h0 : q.num = 0
  · rw [if_pos h0]
  · have hneg : ¬ q.num < 0 := not_lt.mpr (Rat.num_nonneg.mpr h)
    rw [if_neg h0, if_neg hneg]
    unfold roundMagnitude
    simp only
    rw [Rat.mkRat_eq_div]
    positivity

/-- The running total of the item loop is not negative when no product is. -/
theorem foldl_jsAdd_nonneg (lines : List OrderItem) :
    ∀ total : ℚ, 0 ≤ total → (∀ i ∈ lines, 0 ≤ i.price * (i.quantity : ℚ)) →
      0 ≤ lines.foldl (fun t i => jsAdd t (jsMul i.price (i.quantity : ℚ))) total := by
  induction lines with
  | nil => intro total h _; exact h
  | cons l rest ih =>
    intro total h hall
    rw [List.foldl_cons]
    refine ih _ ?_ (fun i hi => hall i (List.mem_cons_of_mem _ hi))
    exact roundDouble_nonneg _
      (add_nonneg h (roundDouble_nonneg _ (hall l (List.mem_cons_self _ _))))

/-! ## Order creation: the item loop -/

theorem processItems_cons_ok (s : EquipStore) (total : ℚ) (acc : List OrderItem)
    (item : ItemRequest) (rest : List ItemRequest) (e : Equipment)
    (he : s item.equipment = some e) (ha : e.isAvailable = true)
    (hq : item.quantity ≤ e.stock) :
    processItems s total acc (item :: rest) =
      processItems (Function.update s item.equipment (some (reserved e item.quantity)))
        (jsAdd total (jsMul (e.price : ℚ) item.quantity)) (acc ++ [lineOf item e]) rest := by
  have h1 : ¬ (e.stock < item.quantity) := not_lt.mpr hq
  have h2 : ¬ (e.stock - item.quantity < 0) := by omega
  simp [processItems, he, ha, h1, h2, saveEquipment, reserved, lineOf]

theorem processItems_cons_error (s : EquipStore) (total : ℚ) (acc : List OrderItem)
    (item : ItemRequest) (rest : List ItemRequest) (e : Equipment)
    (he : s item.equipment = some e) (h : e.isAvailable = false ∨ e.stock < item.quantity) :
    processItems s total acc (item :: rest) = (s, .error (.notAvailable e.name)) := by
  rcases h with h | h <;> simp [processItems, he, h]

theorem processItems_cons_missing (s : EquipStore) (total : ℚ) (acc : List OrderItem)
    (item : ItemRequest) (rest : List ItemRequest) (he : s item.equipment = none) :
    processItems s total acc (item :: rest) = (s, .error (.equipmentNotFound item.equipment)) := by
  simp [processItems, he]

/-- The three ways one iteration of the loop can go. -/
theorem processItems_cons_cases (s : EquipStore) (total : ℚ) (acc : List OrderItem)
    (item : ItemRequest) (rest : List ItemRequest) :
    (s item.equipment = none ∧
      processItems s total acc (item :: rest) =
        (s, .error (.equipmentNotFound item.equipment))) ∨
    (∃ e, s item.equipment = some e ∧ (e.isAvailable = false ∨ e.stock < item.quantity) ∧
      processItems s total acc (item :: rest) = (s, .error (.notAvailable e.name))) ∨
    (∃ e, s item.equipment = some e ∧ e.isAvailable = true ∧ item.quantity ≤ e.stock ∧
      processItems s total acc (item :: rest) =
        processItems (Function.update s item.equipment (some (reserved e item.quantity)))
          (jsAdd total (jsMul (e.price : ℚ) item.quantity)) (acc ++ [lineOf item e]) rest) := by
  cases he : s item.equipment with
  | none => exact Or.inl ⟨rfl, processItems_cons_missing s total acc item rest he⟩
  | some e =>
    by_cases h : e.isAvailable = false ∨ e.stock < item.quantity
    · exact Or.inr (Or.inl ⟨e, rfl, h, processItems_cons_error s total acc item rest e he h⟩)
    · have ha : e.isAvailable = true := by
        cases hb : e.isAvailable with
        | true => rfl
        | false => exact absurd (Or.inl hb) h
      have hq : item.quantity ≤ e.stock := not_lt.mp fun hlt => h (Or.inr hlt)
      exact Or.inr (Or.inr ⟨e, rfl, ha, hq, processItems_cons_ok s total acc item rest e he ha hq⟩)



/-- The loop writes only to equipment named by the request. -/
theorem processItems_unnamed (items : List ItemRequest) :
    ∀ (s : EquipStore) (total : ℚ) (acc : List OrderItem) (id : EquipId),
      id ∉ items.map (·.equipment) → (processItems s total acc items).1 id = s id := by
  induction items with
  | nil => intro s total acc id _; rfl
  | cons item rest ih =>
    intro s total acc id hid
    simp only [List.map_cons, List.mem_cons, not_or] at hid
    rcases processItems_cons_cases s total acc item rest with ⟨_, h⟩ | ⟨e, _, _, h⟩ | ⟨e, _, _, _, h⟩
    · rw [h]
    · rw [h]
    · rw [h, ih _ _ _ id hid.2, Function.update_noteq hid.1]

/-- When every item names distinct, available equipment holding at least the requested
quantity, the loop runs to its end and each named equipment is saved once, reserved. -/
theorem processItems_valid (items : List ItemRequest) :
    ∀ (s : EquipStore) (total : ℚ) (acc : List OrderItem),
      (items.map (·.equipment)).Nodup →
      (∀ it ∈ items, ∃ e, s it.equipment = some e ∧ e.isAvailable = true ∧
        it.quantity ≤ e.stock) →
      (∃ r, (processItems s total acc items).2 = .ok r) ∧
      ∀ it ∈ items, ∀ e, s it.equipment = some e →
        (processItems s total acc items).1 it.equipment = some (reserved e it.quantity) := by
  induction items with
  | nil =>
    intro s total acc _ _
    exact ⟨⟨(total, acc), rfl⟩, fun it hit => absurd hit (List.not_mem_nil it)⟩
  | cons item rest ih =>
    intro s total acc hnd hval
    simp only [List.map_cons, List.nodup_cons] at hnd
    obtain ⟨e, he, ha, hq⟩ := hval item (List.mem_cons_self _ _)
    have hstep := processItems_cons_ok s total acc item rest e he ha hq
    have hrest : ∀ it ∈ rest, it.equipment ≠ item.equipment := by
      intro it hit heq
      exact hnd.1 (heq ▸ List.mem_map_of_mem (·.equipment) hit)
    have hval' : ∀ it ∈ rest, ∃ e',
        Function.update s item.equipment (some (reserved e item.quantity)) it.equipment = some e' ∧
        e'.isAvailable = true ∧ it.quantity ≤ e'.stock := by
      intro it hit
      obtain ⟨e', he', h'⟩ := hval it (List.mem_cons_of_mem _ hit)
      exact ⟨e', by rw [Function.update_noteq (hrest it hit)]; exact he', h'⟩
    obtain ⟨hok, hst⟩ := ih (Function.update s item.equipment (some (reserved e item.quantity)))
      (jsAdd total (jsMul (e.price : ℚ) item.quantity)) (acc ++ [lineOf item e]) hnd.2 hval'
    rw [hstep]
    refine ⟨hok, ?_⟩
    intro it hit e0 he0
    rcases List.mem_cons.mp hit with rfl | hit
    · rw [processItems_unnamed rest _ _ _ _ hnd.1, Function.update_same]
      rw [he] at he0
      cases he0
      rfl
    · exact hst it hit e0 (by rw [Function.update_noteq (hrest it hit)]; exact he0)

/-- What a completed loop returns: the running `orderItems` extended by one line per request
item, in order, each carrying the price and name read from the store, and the running total
to which the product of price and quantity of each new line has been added in turn, every
product and sum being a JavaScript operation. -/
theorem processItems_ok_shape (items : List ItemRequest) :
    ∀ (s : EquipStore) (total : ℚ) (acc : List OrderItem) (r : ℚ × List OrderItem),
      (processItems s total acc items).2 = .ok r →
      ∃ lines : List OrderItem,
        r.2 = acc ++ lines ∧
        lines.map (fun i => (i.equipment, i.quantity)) =
          items.map (fun it => (it.equipment, it.quantity)) ∧
        r.1 = lines.foldl (fun t i => jsAdd t (jsMul i.price (i.quantity : ℚ))) total ∧
        ∀ i ∈ lines, ∃ e, s i.equipment = some e ∧ i.price = (e.price : ℚ) ∧ i.name = e.name := by
  induction items with
  | nil =>
    intro s total acc r h
    simp only [processItems, Except.ok.injEq] at h
    subst h
    exact ⟨[], by simp⟩
  | cons item rest ih =>
    intro s total acc r h
    rcases processItems_cons_cases s total acc item rest with
      ⟨_, h'⟩ | ⟨e, _, _, h'⟩ | ⟨e, he, _, _, h'⟩
    · rw [h'] at h; cases h
    · rw [h'] at h; cases h
    · rw [h'] at h
      obtain ⟨lines, h1, h2, h3, h4⟩ := ih _ _ _ r h
      refine ⟨lineOf item e :: lines, ?_, ?_, ?_, ?_⟩
      · rw [h1]; simp
      · simp [h2, lineOf]
      · rw [h3]; rfl
      · intro i hi
        rcases List.mem_cons.mp hi with rfl | hi
        · exact ⟨e, he, rfl, rfl⟩
        · obtain ⟨e1, he1, hp, hn⟩ := h4 i hi
          by_cases hid : i.equipment = item.equipment
          · rw [hid, Function.update_same] at he1
            cases he1
            exact ⟨e, hid ▸ he, hp, hn⟩
          · rw [Function.update_noteq hid] at he1
            exact ⟨e1, he1, hp, hn⟩

/-! ## Order creation: persistence -/

/-- What `Order.create` stores when it resolves. -/
theorem orderCreate_some (env : Env) (orders : List Order) (d : OrderDraft)
    (r : List Order × Order) (h : Order.create env orders d = some r) :
    r.1 = orders ++ [r.2] ∧ r.2.items = d.items ∧ r.2.totalAmount = d.totalAmount ∧
    r.2.taxAmount = d.taxAmount ∧ r.2.shippingAmount = d.shippingAmount ∧
    r.2.grandTotal = d.grandTotal ∧ r.2.user = d.user ∧ r.2.status = .pending ∧
    r.2.paymentStatus = .pending ∧ r.2.orderNumber = genOrderNumber env ∧
    r.2.statusHistory = [{ status := .pending, date := env.now, note := none }] ∧
    (∀ i ∈ d.items, 1 ≤ i.quantity) ∧ (∀ o ∈ orders, o.orderNumber ≠ genOrderNumber env) := by
  unfold Order.create at h
  by_cases hv : (d.items.all (fun i => decide (1 ≤ i.quantity)) && decide (0 ≤ d.totalAmount)
      && d.shippingAddress.complete) = true
  · rw [if_pos hv] at h
    cases hpm : parsePaymentMethod d.paymentMethod with
    | none => simp [hpm] at h
    | some pm =>
      simp only [hpm, orderPreSave, if_true] at h
      split at h
      · cases h
      · rename_i hfresh
        cases h
        simp only [Bool.and_eq_true, List.all_eq_true, decide_eq_true_eq] at hv
        simp only [List.any_eq_true, decide_eq_true_eq, not_exists, not_and] at hfresh
        refine ⟨rfl, rfl, rfl, rfl, rfl, rfl, rfl, rfl, rfl, rfl, rfl, hv.1.1, ?_⟩
        intro o ho hn
        exact hfresh o ho hn
  · rw [if_neg hv] at h
    cases h

/-- When the validators pass and the generated number is free, `Order.create` resolves. -/
theorem orderCreate_isSome (env : Env) (orders : List Order) (d : OrderDraft)
    (hq : ∀ i ∈ d.items, 1 ≤ i.quantity) (ht : 0 ≤ d.totalAmount)
    (ha : d.shippingAddress.complete = true)
    (hp : (parsePaymentMethod d.paymentMethod).isSome = true)
    (hf : ∀ o ∈ orders, o.orderNumber ≠ genOrderNumber env) :
    ∃ r, Order.create env orders d = some r := by
  obtain ⟨pm, hpm⟩ := Option.isSome_iff_exists.mp hp
  have hall : d.items.all (fun i => decide (1 ≤ i.quantity)) = true := by
    simpa [List.all_eq_true] using hq
  have hany : ¬ (orders.any (fun o => decide (o.orderNumber = genOrderNumber env)) = true) := by
    simp only [List.any_eq_true, decide_eq_true_eq, not_exists, not_and]
    exact hf
  unfold Order.create
  simp only [hall, ht, ha, hpm, decide_True, Bool.and_self, if_true]
  simp only [orderPreSave, if_true]
  simp only [hany]
  exact ⟨_, rfl⟩

theorem createOrder_of_loop_ok (env : Env) (db : Db) (req : OrderRequest) (s : EquipStore)
    (total : ℚ) (lines : List OrderItem) (hne : req.items ≠ [])
    (hp : processItems db.equipment 0 [] req.items = (s, .ok (total, lines))) :
    createOrder env db req =
      match Order.create env db.orders (draftOf req total lines) with
      | none => ({ db with equipment := s }, .error .serverError)
      | some (orders, order) => ({ db with equipment := s, orders := orders }, .ok order) := by
  have hemp : req.items.isEmpty = false := by
    cases hi : req.items with
    | nil => exact absurd hi hne
    | cons _ _ => rfl
  unfold createOrder
  rw [hemp, hp]
  rfl

theorem createOrder_of_loop_error (env : Env) (db : Db) (req : OrderRequest) (s : EquipStore)
    (f : Failure) (hne : req.items ≠ [])
    (hp : processItems db.equipment 0 [] req.items = (s, .error f)) :
    createOrder env db req = ({ db with equipment := s }, .error f) := by
  have hemp : req.items.isEmpty = false := by
    cases hi : req.items with
    | nil => exact absurd hi hne
    | cons _ _ => rfl
  unfold createOrder
  rw [hemp, hp]
  rfl

theorem createOrder_nil (env : Env) (db : Db) (req : OrderRequest) (h : req.items = []) :
    createOrder env db req = (db, .error .noItems) := by
  unfold createOrder
  rw [h]
  rfl

/-- What a 201 answer of `POST /api/orders` implies about the loop, the totals and the stored
order. -/
theorem createOrder_ok_inv (env : Env) (db : Db) (req : OrderRequest) (o : Order)
    (h : (createOrder env db req).2 = .ok o) :
    req.items ≠ [] ∧
    (processItems db.equipment 0 [] req.items).2 = .ok (o.totalAmount, o.items) ∧
    o.taxAmount = jsMul o.totalAmount (roundDouble 0.18) ∧
    o.shippingAmount = (if o.totalAmount > 50000 then 0 else 2000) ∧
    o.grandTotal = jsAdd (jsAdd o.totalAmount o.taxAmount) o.shippingAmount ∧
    (createOrder env db req).1.orders = db.orders ++ [o] ∧
    (createOrder env db req).1.equipment = (processItems db.equipment 0 [] req.items).1 ∧
    (createOrder env db req).1.installations = db.installations ∧
    o.user = req.user ∧ o.status = .pending ∧ o.paymentStatus = .pending ∧
    o.orderNumber = genOrderNumber env ∧
    o.statusHistory = [{ status := .pending, date := env.now, note := none }] ∧
    (∀ i ∈ o.items, 1 ≤ i.quantity) ∧
    (∀ o' ∈ db.orders, o'.orderNumber ≠ genOrderNumber env) := by
  by_cases hne : req.items = []
  · rw [createOrder_nil env db req hne] at h
    cases h
  · rcases hp : processItems db.equipment 0 [] req.items with ⟨s, f | ⟨total, lines⟩⟩
    · rw [createOrder_of_loop_error env db req s f hne hp] at h
      cases h
    · rw [createOrder_of_loop_ok env db req s total lines hne hp] at h ⊢
      cases hc : Order.create env db.orders (draftOf req total lines) with
      | none => rw [hc] at h; cases h
      | some r =>
        obtain ⟨orders, order⟩ := r
        rw [hc] at h
        simp only [Except.ok.injEq] at h
        subst h
        obtain ⟨h1, h2, h3, h4, h5, h6, h7, h8, h9, h10, h11, h12, h13⟩ :=
          orderCreate_some env db.orders _ _ hc
        simp only [draftOf] at h1 h2 h3 h4 h5 h6 h7 h12
        refine ⟨hne, ?_, ?_, ?_, ?_, h1, rfl, rfl, h7, h8, h9, h10, h11, ?_, h13⟩
        · rw [h3, h2]
        · rw [h4, h3]
        · rw [h5, h3]
        · rw [h6, h3, h4, h5]
        · rw [h2]; exact h12

/-- The `min: 0` validator on `totalAmount` has passed for every created order. -/
theorem createOrder_total_nonneg (env : Env) (db : Db) (req : OrderRequest) (o : Order)
    (h : (createOrder env db req).2 = .ok o) : 0 ≤ o.totalAmount := by
  by_cases hne : req.items = []
  · rw [createOrder_nil env db req hne] at h
    cases h
  · rcases hp : processItems db.equipment 0 [] req.items with ⟨s, f | ⟨total, lines⟩⟩
    · rw [createOrder_of_loop_error env db req s f hne hp] at h
      cases h
    · rw [createOrder_of_loop_ok env db req s total lines hne hp] at h
      cases hc : Order.create env db.orders (draftOf req total lines) with
      | none => rw [hc] at h; cases h
      | some r =>
        obtain ⟨orders, order⟩ := r
        rw [hc] at h
        simp only [Except.ok.injEq] at h
        subst h
        have h3 := (orderCreate_some env db.orders _ _ hc).2.2.1
        simp only [draftOf] at h3
        rw [h3]
        unfold Order.create at hc
        by_cases hv : ((draftOf req total lines).items.all (fun i => decide (1 ≤ i.quantity)) &&
            decide (0 ≤ (draftOf req total lines).totalAmount) &&
            (draftOf req total lines).shippingAddress.complete) = true
        · simp only [Bool.and_eq_true, decide_eq_true_eq] at hv
          exact hv.1.2
        · rw [if_neg hv] at hc
          cases hc

/-- The binary64 value of the literal `0.18`. -/
theorem roundDouble_tax_rate :
    roundDouble 0.18 = 3242591731706757 / 18014398509481984 := by
  with_unfolding_all rfl

/-- C1 (all-or-nothing on failure), evaluated on the code.  Against the store holding A
(stock 5) and B (stock 1), the request "2 of A, then 3 of B" is answered with the 400
"not available" error and stores no order, yet A is left with stock 3: the decrement made for
the item that precedes the failing one is not undone. -/
theorem createOrder_keeps_earlier_decrement :
    (createOrder env0 dbAB (requestOf [⟨1, 2⟩, ⟨2, 3⟩])).2 = .error (.notAvailable "B") ∧
    (createOrder env0 dbAB (requestOf [⟨1, 2⟩, ⟨2, 3⟩])).1.orders = dbAB.orders ∧
    (dbAB.equipment 1).map (·.stock) = some 5 ∧
    ((createOrder env0 dbAB (requestOf [⟨1, 2⟩, ⟨2, 3⟩])).1.equipment 1).map (·.stock) = some 3 := by
  refine ⟨?_, ?_, ?_, ?_⟩ <;> rfl

/-- C2 as stated fails.  The request "2 of A, 1 of B" names distinct, available equipment with
enough stock and carries a complete shipping address, yet it is answered with the 500 error
both when its `paymentMethod` is outside the schema enumeration and when the generated order
number is already carried by a stored order. -/
theorem createOrder_valid_items_can_fail :
    (requestAB.items ≠ [] ∧ (requestAB.items.map (·.equipment)).Nodup ∧
      (∀ it ∈ requestAB.items, ∃ e, storeAB it.equipment = some e ∧ e.isAvailable = true ∧
        1 ≤ it.quantity ∧ it.quantity ≤ e.stock) ∧
      requestAB.shippingAddress.complete = true) ∧
    (createOrder env0 dbAB { requestAB with paymentMethod := some "paypal" }).2 =
      .error .serverError ∧
    (createOrder env0 dbTaken requestAB).2 = .error .serverError := by
  refine ⟨⟨by decide, by decide, ?_, by decide⟩, by with_unfolding_all rfl,
    by with_unfolding_all rfl⟩
  intro it hit
  simp only [requestAB, requestOf, List.mem_cons, List.mem_singleton, List.not_mem_nil,
    or_false] at hit
  rcases hit with rfl | rfl
  · exact ⟨equipA, rfl, rfl, by decide, by decide⟩
  · exact ⟨equipB, rfl, rfl, by decide, by decide⟩

/-- C2, amended.  A non-empty request naming pairwise distinct existing equipment, each
available and with `stock ≥ quantity ≥ 1`, with a complete shipping address, a payment method
that is absent, empty or one of the schema's three values, and a generated order number that
no stored order carries, is answered with the created order; every named equipment is left
with its stock reduced by the ordered quantity and `isAvailable` false exactly when that
stock is 0, and every other equipment id is untouched. -/
theorem createOrder_reserves_stock (env : Env) (db : Db) (req : OrderRequest)
    (hne : req.items ≠ [])
    (hdistinct : (req.items.map (·.equipment)).Nodup)
    (hitems : ∀ it ∈ req.items, ∃ e, db.equipment it.equipment = some e ∧
      e.isAvailable = true ∧ 1 ≤ it.quantity ∧ it.quantity ≤ e.stock)
    (haddr : req.shippingAddress.complete = true)
    (hpay : ∀ pm, req.paymentMethod = some pm → pm ∈ ["", "cod", "online", "bank_transfer"])
    (hfresh : ∀ o ∈ db.orders, o.orderNumber ≠ genOrderNumber env) :
    (∃ o, (createOrder env db req).2 = .ok o) ∧
    (∀ it ∈ req.items, ∀ e, db.equipment it.equipment = some e →
      ∃ e', (createOrder env db req).1.equipment it.equipment = some e' ∧
        e'.stock = e.stock - it.quantity ∧ (e'.isAvailable = false ↔ e'.stock = 0) ∧
        e'.name = e.name ∧ e'.price = e.price ∧ e'.image = e.image) ∧
    (∀ id, id ∉ req.items.map (·.equipment) →
      (createOrder env db req).1.equipment id = db.equipment id) := by
  have hitems' : ∀ it ∈ req.items, ∃ e, db.equipment it.equipment = some e ∧
      e.isAvailable = true ∧ it.quantity ≤ e.stock := by
    intro it hit
    obtain ⟨e, he, ha, _, hq⟩ := hitems it hit
    exact ⟨e, he, ha, hq⟩
  obtain ⟨⟨r, hr⟩, hst⟩ := processItems_valid req.items db.equipment 0 [] hdistinct hitems'
  have hun := processItems_unnamed req.items db.equipment 0 []
  rcases hp : processItems db.equipment 0 [] req.items with ⟨s, res⟩
  rw [hp] at hr hst hun
  simp only at hr hst hun
  subst hr
  obtain ⟨total, lines⟩ := r
  obtain ⟨lines', hl1, hl2, hl3, hl4⟩ :=
    processItems_ok_shape req.items db.equipment 0 [] (total, lines) (by rw [hp])
  simp only [List.nil_append] at hl1 hl3
  subst hl1
  -- the validators of `Order.create` pass
  have hq : ∀ i ∈ lines, 1 ≤ i.quantity := by
    intro i hi
    have hmem : (i.equipment, i.quantity) ∈ req.items.map (fun it => (it.equipment, it.quantity)) :=
      hl2 ▸ List.mem_map_of_mem (fun i => (i.equipment, i.quantity)) hi
    obtain ⟨it, hit, heq⟩ := List.mem_map.mp hmem
    obtain ⟨_, _, _, h1, _⟩ := hitems it hit
    have : it.quantity = i.quantity := congrArg Prod.snd heq
    omega
  have htot : 0 ≤ total := by
    rw [hl3]
    apply foldl_jsAdd_nonneg _ _ le_rfl
    intro i hi
    obtain ⟨e, _, hpe, _⟩ := hl4 i hi
    have h1 : (0 : ℚ) ≤ i.price := by rw [hpe]; exact e.price.2
    have h2 : (0 : ℚ) ≤ (i.quantity : ℚ) := by
      have := hq i hi
      exact_mod_cast (by omega : (0 : ℤ) ≤ i.quantity)
    exact mul_nonneg h1 h2
  have hpm : (parsePaymentMethod (draftOf req total lines).paymentMethod).isSome = true := by
    simp only [draftOf]
    cases hpm : req.paymentMethod with
    | none => rfl
    | some pm =>
      have := hpay pm hpm
      simp only [List.mem_cons, List.mem_singleton, List.not_mem_nil, or_false] at this
      rcases this with rfl | rfl | rfl | rfl <;> rfl
  obtain ⟨⟨orders, order⟩, hc⟩ := orderCreate_isSome env db.orders (draftOf req total lines) hq
    htot haddr hpm hfresh
  rw [createOrder_of_loop_ok env db req s total lines hne hp, hc]
  refine ⟨⟨order, rfl⟩, ?_, ?_⟩
  · intro it hit e he
    refine ⟨reserved e it.quantity, hst it hit e he, rfl, ?_, rfl, rfl, rfl⟩
    obtain ⟨e0, he0, ha, _, _⟩ := hitems it hit
    rw [he] at he0
    cases he0
    simp only [reserved, ha]
    split <;> simp_all
  · intro id hid
    exact hun id hid

/-- C2 on the worked scenario: A (stock 5, quantity 2) and B (stock 1, quantity 1) are left
with stock 3 and stock 0, and B is no longer available. -/
theorem createOrder_reserves_stock_witness :
    ((∃ o, (createOrder env0 dbAB requestAB).2 = .ok o) ∧
      (∀ it ∈ requestAB.items, ∀ e, dbAB.equipment it.equipment = some e →
        ∃ e', (createOrder env0 dbAB requestAB).1.equipment it.equipment = some e' ∧
          e'.stock = e.stock - it.quantity ∧ (e'.isAvailable = false ↔ e'.stock = 0) ∧
          e'.name = e.name ∧ e'.price = e.price ∧ e'.image = e.image) ∧
      (∀ id, id ∉ requestAB.items.map (·.equipment) →
        (createOrder env0 dbAB requestAB).1.equipment id = dbAB.equipment id)) ∧
    (createOrder env0 dbAB requestAB).1.equipment 1 = some { equipA with stock := 3 } ∧
    (createOrder env0 dbAB requestAB).1.equipment 2 =
      some { equipB with stock := 0, isAvailable := false } :=
  ⟨createOrder_reserves_stock env0 dbAB requestAB (by decide) (by decide)
    (by
      intro it hit
      simp only [requestAB, requestOf, List.mem_cons, List.mem_singleton, List.not_mem_nil,
        or_false] at hit
      rcases hit with rfl | rfl
      · exact ⟨equipA, rfl, rfl, by decide, by decide⟩
      · exact ⟨equipB, rfl, rfl, by decide, by decide⟩)
    (by decide) (by intro pm h; cases h) (by intro o ho; cases ho),
   by with_unfolding_all rfl, by with_unfolding_all rfl⟩

/-! ## The amounts of a stored order -/

theorem totalsKept_refl (orders : List Order) : TotalsKept orders orders := by
  intro _ o h
  exact ⟨o, h, rfl, rfl, rfl, rfl, rfl⟩

theorem totalsKept_trans {a b c : List Order} (hab : TotalsKept a b) (hbc : TotalsKept b c) :
    TotalsKept a c := by
  intro i o h
  obtain ⟨o1, h1, e1, e2, e3, e4, e5⟩ := hab i o h
  obtain ⟨o2, h2, f1, f2, f3, f4, f5⟩ := hbc i o1 h1
  exact ⟨o2, h2, f1.trans e1, f2.trans e2, f3.trans e3, f4.trans e4, f5.trans e5⟩

theorem totalsKept_set {orders : List Order} {id : OrderId} {o o' : Order}
    (h : orders[id]? = some o) (hs : o'.sameTotals o) : TotalsKept orders (orders.set id o') := by
  intro i x hx
  by_cases hi : id = i
  · subst hi
    rw [h] at hx
    cases hx
    have hlt : id < orders.length := (List.getElem?_eq_some.mp h).1
    exact ⟨o', List.getElem?_set_self hlt, hs⟩
  · exact ⟨x, by rw [List.getElem?_set_ne hi]; exact hx, rfl, rfl, rfl, rfl, rfl⟩

theorem totalsKept_append (orders extra : List Order) : TotalsKept orders (orders ++ extra) := by
  intro i o h
  have hlt : i < orders.length := (List.getElem?_eq_some.mp h).1
  exact ⟨o, by rw [List.getElem?_append_left hlt]; exact h, rfl, rfl, rfl, rfl, rfl⟩

theorem orderPreSave_sameTotals (env : Env) (m : Bool) (o : Order) :
    (orderPreSave env m o).sameTotals o := by
  cases m <;> exact ⟨rfl, rfl, rfl, rfl, rfl⟩

theorem mirrorOrderStatus_totalsKept (orders : List Order) (id : OrderId) (st : OrderStatus) :
    TotalsKept orders (mirrorOrderStatus orders id st) := by
  unfold mirrorOrderStatus
  cases h : orders[id]? with
  | none => exact totalsKept_refl orders
  | some o => exact totalsKept_set h ⟨rfl, rfl, rfl, rfl, rfl⟩

theorem createOrder_totalsKept (env : Env) (db : Db) (req : OrderRequest) :
    TotalsKept db.orders (createOrder env db req).1.orders := by
  by_cases hne : req.items = []
  · rw [createOrder_nil env db req hne]
    exact totalsKept_refl _
  · rcases hp : processItems db.equipment 0 [] req.items with ⟨s, f | ⟨total, lines⟩⟩
    · rw [createOrder_of_loop_error env db req s f hne hp]
      exact totalsKept_refl _
    · rw [createOrder_of_loop_ok env db req s total lines hne hp]
      cases hc : Order.create env db.orders (draftOf req total lines) with
      | none => exact totalsKept_refl _
      | some r =>
        have h1 := (orderCreate_some env db.orders _ r hc).1
        obtain ⟨orders, order⟩ := r
        simp only at h1 ⊢
        rw [h1]
        exact totalsKept_append _ _

theorem setOrderStatus_totalsKept (env : Env) (db : Db) (caller : User) (id : OrderId)
    (status : String) (note : Option String) :
    TotalsKept db.orders (setOrderStatus env db caller id status note).1.orders := by
  unfold setOrderStatus
  split
  · exact totalsKept_refl _
  · split
    · exact totalsKept_refl _
    · rename_i order ho
      split
      · exact totalsKept_refl _
      · exact totalsKept_set ho (orderPreSave_sameTotals _ _ _)

theorem setPaymentStatus_totalsKept (db : Db) (caller : User) (id : OrderId)
    (p : Option PaymentStatus) :
    TotalsKept db.orders (setPaymentStatus db caller id p).1.orders := by
  unfold setPaymentStatus
  split
  · exact totalsKept_refl _
  · split
    · exact totalsKept_refl _
    · rename_i order ho
      refine totalsKept_set ho ?_
      cases p <;> exact ⟨rfl, rfl, rfl, rfl, rfl⟩

theorem cancelOrder_totalsKept (env : Env) (db : Db) (caller : User) (id : OrderId) :
    TotalsKept db.orders (cancelOrder env db caller id).1.orders := by
  unfold cancelOrder
  split
  · exact totalsKept_refl _
  · rename_i order ho
    split
    · exact totalsKept_refl _
    · split
      · exact totalsKept_refl _
      · exact totalsKept_set ho (orderPreSave_sameTotals _ _ _)

theorem updateStock_orders (db : Db) (caller : User) (id : EquipId) (stock : Option ℤ) :
    (updateStock db caller id stock).1.orders = db.orders := by
  unfold updateStock
  split
  · rfl
  · split
    · rfl
    · split
      · rfl
      · split <;> rfl

theorem schedule_totalsKept (env : Env) (db : Db) (caller : User) (req : ScheduleRequest) :
    TotalsKept db.orders (schedule env db caller req).1.orders := by
  unfold schedule
  split
  · exact totalsKept_refl _
  · split
    · exact totalsKept_refl _
    · rename_i order ho
      split
      · exact totalsKept_set ho (orderPreSave_sameTotals _ _ _)
      · exact totalsKept_refl _

theorem setInstallationStatus_totalsKept (env : Env) (db : Db) (caller : User) (id : Nat)
    (status : String) (note : Option String) :
    TotalsKept db.orders (setInstallationStatus env db caller id status note).1.orders := by
  unfold setInstallationStatus
  split
  · exact totalsKept_refl _
  · split
    · exact totalsKept_refl _
    · split
      · exact totalsKept_refl _
      · split
        · exact totalsKept_refl _
        · simp only
          split
          · exact mirrorOrderStatus_totalsKept _ _ _
          · split
            · exact mirrorOrderStatus_totalsKept _ _ _
            · exact totalsKept_refl _

theorem setEquipmentItemStatus_totalsKept (env : Env) (db : Db) (caller : User) (id : Nat)
    (equipmentId : EquipId) (status : String) :
    TotalsKept db.orders (setEquipmentItemStatus env db caller id equipmentId status).1.orders := by
  unfold setEquipmentItemStatus
  split
  · exact totalsKept_refl _
  · split
    · exact totalsKept_refl _
    · split
      · exact totalsKept_refl _
      · split
        · exact totalsKept_refl _
        · simp only
          split
          · exact mirrorOrderStatus_totalsKept _ _ _
          · exact totalsKept_refl _

theorem setTeamNotes_orders (db : Db) (caller : User) (id : Nat) (notes : Option String) :
    (setTeamNotes db caller id notes).1.orders = db.orders := by
  unfold setTeamNotes
  split
  · rfl
  · split <;> rfl

theorem setCustomerFeedback_orders (env : Env) (db : Db) (caller : User) (id : Nat)
    (rating : Option ℤ) (comment : Option String) :
    (setCustomerFeedback env db caller id rating comment).1.orders = db.orders := by
  unfold setCustomerFeedback
  split
  · rfl
  · split
    · rfl
    · split
      · rfl
      · split
        · split <;> rfl
        · rfl

/-- No request changes the line items or the amounts of an order that is already stored. -/
theorem step_totalsKept (db : Db) (r : Env × Op) : TotalsKept db.orders (step db r).orders := by
  obtain ⟨env, op⟩ := r
  cases op with
  | createOrder req => exact createOrder_totalsKept env db req
  | setOrderStatus caller id status note => exact setOrderStatus_totalsKept env db caller id status note
  | setPaymentStatus caller id p => exact setPaymentStatus_totalsKept db caller id p
  | cancel caller id => exact cancelOrder_totalsKept env db caller id
  | updateStock caller id stock =>
    show TotalsKept db.orders (updateStock db caller id stock).1.orders
    rw [updateStock_orders]
    exact totalsKept_refl _
  | schedule caller req => exact schedule_totalsKept env db caller req
  | setInstallationStatus caller id status note =>
    exact setInstallationStatus_totalsKept env db caller id status note
  | setEquipmentItemStatus caller id equipmentId status =>
    exact setEquipmentItemStatus_totalsKept env db caller id equipmentId status
  | setTeamNotes caller id notes =>
    show TotalsKept db.orders (setTeamNotes db caller id notes).1.orders
    rw [setTeamNotes_orders]
    exact totalsKept_refl _
  | setCustomerFeedback caller id rating comment =>
    show TotalsKept db.orders (setCustomerFeedback env db caller id rating comment).1.orders
    rw [setCustomerFeedback_orders]
    exact totalsKept_refl _

theorem run_totalsKept (rs : List (Env × Op)) :
    ∀ db : Db, TotalsKept db.orders (run db rs).orders := by
  induction rs with
  | nil => intro db; exact totalsKept_refl _
  | cons r rest ih =>
    intro db
    exact totalsKept_trans (step_totalsKept db r) (ih (step db r))

/-! ## Totals of a created order -/

set_option maxRecDepth 8000 in
/-- C3 as stated fails: the amounts are JavaScript numbers, and a sum or product that is not
a binary64 value is stored rounded.  One unit of equipment priced 877 gives totalAmount 877,
taxAmount 157.85999999999999 and shippingAmount 2000, and the stored grandTotal
3034.8599999999997 is not the sum of these three.  Three units of equipment priced 0.1 give
the totalAmount 0.30000000000000004, which is not three times the stored price. -/
theorem createOrder_amounts_rounded :
    (∃ o : Order, (createOrder env0 dbFine (requestOf [⟨5, 1⟩])).2 = .ok o ∧
      o.totalAmount = 877 ∧ o.taxAmount = 5554204977943019 / 35184372088832 ∧
      o.shippingAmount = 2000 ∧ o.grandTotal = 3336863858672271 / 1099511627776 ∧
      o.grandTotal ≠ o.totalAmount + o.taxAmount + o.shippingAmount) ∧
    (∃ o : Order, (createOrder env0 dbFine (requestOf [⟨6, 3⟩])).2 = .ok o ∧
      o.items.map (fun i => (i.price, i.quantity)) =
        [(3602879701896397 / 36028797018963968, 3)] ∧
      o.totalAmount = 1351079888211149 / 4503599627370496 ∧
      o.totalAmount ≠ (o.items.map (fun i => i.price * (i.quantity : ℚ))).sum) := by
  refine ⟨⟨{ orderAB with
      items := [{ equipment := 5, name := "F", quantity := 1, price := 877, image := "f.jpg" }]
      totalAmount := 877
      taxAmount := 5554204977943019 / 35184372088832
      shippingAmount := 2000
      grandTotal := 3336863858672271 / 1099511627776 },
      by with_unfolding_all rfl, rfl, rfl, rfl, rfl, ?_⟩,
    ⟨{ orderAB with
      items := [{ equipment := 6, name := "G", quantity := 3,
                  price := 3602879701896397 / 36028797018963968, image := "g.jpg" }]
      totalAmount := 1351079888211149 / 4503599627370496
      taxAmount := 3891110078048109 / 72057594037927936
      shippingAmount := 2000
      grandTotal := 8797649930672931 / 4398046511104 },
      by with_unfolding_all rfl, rfl, rfl, ?_⟩⟩
  · show (3336863858672271 / 1099511627776 : ℚ) ≠
      877 + 5554204977943019 / 35184372088832 + 2000
    norm_num
  · show (1351079888211149 / 4503599627370496 : ℚ) ≠
      ([(3602879701896397 / 36028797018963968 : ℚ) * ((3 : ℤ) : ℚ)]).sum
    norm_num

/-- C3, amended.  For a created order whose amounts stay within the range of finite
JavaScript numbers, `totalAmount` is the running total of the loop: starting from 0, the
product of price and quantity of each line item is added in turn, every product and every
sum being rounded to the nearest binary64 value; the lines are the request's items in order
and each line's price is the price stored for that equipment when the request arrived.
`grandTotal` is the JavaScript sum `(totalAmount + taxAmount) + shippingAmount`, rounded the
same way, so it lies within one part in `2^51` (and `3 · 2^(-1075)`) of the exact sum of the
three stored amounts.  The order is stored under the next free id, and after any sequence of later
requests (status and payment updates, cancellation, scheduling, installation updates, stock
updates, further orders) the order stored under that id still has the same line items,
`totalAmount`, `taxAmount`, `shippingAmount` and `grandTotal`. -/
theorem createOrder_totals_fixed (env : Env) (db : Db) (req : OrderRequest) (o : Order)
    (h : (createOrder env db req).2 = .ok o) (_hrange : o.grandTotal < 2 ^ 1024) :
    o.totalAmount =
      o.items.foldl (fun t i => jsAdd t (jsMul i.price (i.quantity : ℚ))) 0 ∧
    o.items.map (fun i => (i.equipment, i.quantity)) =
      req.items.map (fun it => (it.equipment, it.quantity)) ∧
    (∀ i ∈ o.items, ∃ e, db.equipment i.equipment = some e ∧ i.price = (e.price : ℚ)) ∧
    o.grandTotal = jsAdd (jsAdd o.totalAmount o.taxAmount) o.shippingAmount ∧
    |o.grandTotal - (o.totalAmount + o.taxAmount + o.shippingAmount)| ≤
      (o.totalAmount + o.taxAmount + o.shippingAmount) / 2 ^ 51 + 3 / 2 ^ 1075 ∧
    (createOrder env db req).1.orders[db.orders.length]? = some o ∧
    ∀ rs : List (Env × Op), ∃ o' : Order,
      (run (createOrder env db req).1 rs).orders[db.orders.length]? = some o' ∧
      o'.items = o.items ∧ o'.totalAmount = o.totalAmount ∧ o'.taxAmount = o.taxAmount ∧
      o'.shippingAmount = o.shippingAmount ∧ o'.grandTotal = o.grandTotal := by
  obtain ⟨_, hloop, htax, hship, hgrand, horders, _⟩ := createOrder_ok_inv env db req o h
  have ht : 0 ≤ o.totalAmount := createOrder_total_nonneg env db req o h
  have hx : 0 ≤ o.taxAmount := by
    rw [htax]
    exact roundDouble_nonneg _ (mul_nonneg ht (roundDouble_nonneg _ (by norm_num)))
  have hs : 0 ≤ o.shippingAmount := by
    rw [hship]
    split <;> norm_num
  have hbound : |o.grandTotal - (o.totalAmount + o.taxAmount + o.shippingAmount)| ≤
      (o.totalAmount + o.taxAmount + o.shippingAmount) / 2 ^ 51 + 3 / 2 ^ 1075 := by
    have ha : 0 ≤ o.totalAmount + o.taxAmount := add_nonneg ht hx
    have hy : 0 ≤ jsAdd o.totalAmount o.taxAmount := roundDouble_nonneg _ ha
    have e1 := roundDouble_error (o.totalAmount + o.taxAmount)
    have e2 := roundDouble_error (jsAdd o.totalAmount o.taxAmount + o.shippingAmount)
    rw [abs_of_nonneg ha] at e1
    rw [abs_of_nonneg (add_nonneg hy hs)] at e2
    rw [hgrand]
    change |jsAdd (jsAdd o.totalAmount o.taxAmount) o.shippingAmount - _| ≤ _
    have e1' : |jsAdd o.totalAmount o.taxAmount - (o.totalAmount + o.taxAmount)| ≤
        (o.totalAmount + o.taxAmount) / 2 ^ 53 + 1 / 2 ^ 1075 := e1
    have e2' : |jsAdd (jsAdd o.totalAmount o.taxAmount) o.shippingAmount -
        (jsAdd o.totalAmount o.taxAmount + o.shippingAmount)| ≤
        (jsAdd o.totalAmount o.taxAmount + o.shippingAmount) / 2 ^ 53 + 1 / 2 ^ 1075 := e2
    have hu : (0 : ℚ) ≤ 1 / 2 ^ 1075 := by positivity
    have h3 : (3 : ℚ) / 2 ^ 1075 = 3 * (1 / 2 ^ 1075) := by ring
    rw [h3]
    generalize (1 : ℚ) / 2 ^ 1075 = u at e1' e2' hu ⊢
    generalize jsAdd (jsAdd o.totalAmount o.taxAmount) o.shippingAmount = g at e2' ⊢
    generalize jsAdd o.totalAmount o.taxAmount = y at e1' e2' hy ⊢
    rw [abs_le] at e1' e2' ⊢
    constructor <;> norm_num at e1' e2' ⊢ <;> linarith
  obtain ⟨lines, h1, h2, h3, h4⟩ :=
    processItems_ok_shape req.items db.equipment 0 [] (o.totalAmount, o.items) hloop
  simp only [List.nil_append] at h1 h3
  have hstored : (createOrder env db req).1.orders[db.orders.length]? = some o := by
    rw [horders]
    exact List.getElem?_concat_length _ _
  refine ⟨by rw [h3, h1], by rw [h1, h2], ?_, hgrand, hbound, hstored, ?_⟩
  · intro i hi
    obtain ⟨e, he, hp, _⟩ := h4 i (h1 ▸ hi)
    exact ⟨e, he, hp⟩
  · intro rs
    exact run_totalsKept rs (createOrder env db req).1 _ o hstored

/-- C3 on the worked scenario: totalAmount 25000 = 10000 × 2 + 5000 × 1, grandTotal 31500. -/
theorem createOrder_totals_fixed_witness :
    ((createOrder env0 dbAB requestAB).2 = .ok orderAB ∧ orderAB.grandTotal < 2 ^ 1024) ∧
    orderAB.totalAmount = 25000 ∧ orderAB.grandTotal = 31500 ∧
    (orderAB.totalAmount =
        orderAB.items.foldl (fun t i => jsAdd t (jsMul i.price (i.quantity : ℚ))) 0 ∧
      orderAB.items.map (fun i => (i.equipment, i.quantity)) =
        requestAB.items.map (fun it => (it.equipment, it.quantity)) ∧
      (∀ i ∈ orderAB.items, ∃ e, dbAB.equipment i.equipment = some e ∧ i.price = (e.price : ℚ)) ∧
      orderAB.grandTotal = jsAdd (jsAdd orderAB.totalAmount orderAB.taxAmount)
        orderAB.shippingAmount ∧
      |orderAB.grandTotal -
          (orderAB.totalAmount + orderAB.taxAmount + orderAB.shippingAmount)| ≤
        (orderAB.totalAmount + orderAB.taxAmount + orderAB.shippingAmount) / 2 ^ 51 +
          3 / 2 ^ 1075 ∧
      (createOrder env0 dbAB requestAB).1.orders[dbAB.orders.length]? = some orderAB ∧
      ∀ rs : List (Env × Op), ∃ o' : Order,
        (run (createOrder env0 dbAB requestAB).1 rs).orders[dbAB.orders.length]? = some o' ∧
        o'.items = orderAB.items ∧ o'.totalAmount = orderAB.totalAmount ∧
        o'.taxAmount = orderAB.taxAmount ∧ o'.shippingAmount = orderAB.shippingAmount ∧
        o'.grandTotal = orderAB.grandTotal) :=
  ⟨⟨by with_unfolding_all rfl, by norm_num [orderAB]⟩, rfl, rfl,
    createOrder_totals_fixed env0 dbAB requestAB orderAB (by with_unfolding_all rfl)
      (by norm_num [orderAB])⟩

/-- C4 as stated fails: one unit of equipment priced 4999 gives totalAmount 4999 and the
taxAmount 899.8199999999999, the binary64 product of 4999 and 0.18.  It lies strictly between
899 and 900, so it is not `round(4999 × 0.18) = 900`, and it is not the exact product 899.82
either. -/
theorem createOrder_tax_not_rounded :
    ∃ o : Order, (createOrder env0 dbOdd (requestOf [⟨3, 1⟩])).2 = .ok o ∧
      o.totalAmount = 4999 ∧ o.taxAmount = 3957450211621601 / 4398046511104 ∧
      o.taxAmount ≠ ((round (o.totalAmount * 0.18) : ℤ) : ℚ) ∧
      o.taxAmount ≠ o.totalAmount * 0.18 := by
  have key : ∀ z : ℤ, (3957450211621601 / 4398046511104 : ℚ) ≠ (z : ℚ) := by
    intro z hz
    have h1 : ((899 : ℤ) : ℚ) < (z : ℚ) := by
      rw [← hz]
      norm_num
    have h2 : (z : ℚ) < ((900 : ℤ) : ℚ) := by
      rw [← hz]
      norm_num
    have h3 : (899 : ℤ) < z := by exact_mod_cast h1
    have h4 : z < (900 : ℤ) := by exact_mod_cast h2
    omega
  refine ⟨{ orderAB with
      items := [{ equipment := 3, name := "C", quantity := 1, price := 4999, image := "c.jpg" }]
      totalAmount := 4999
      taxAmount := 3957450211621601 / 4398046511104
      shippingAmount := 2000
      grandTotal := 1085605554463703 / 137438953472 },
    by with_unfolding_all rfl, rfl, rfl, ?_, ?_⟩
  · exact key _
  · show (3957450211621601 / 4398046511104 : ℚ) ≠ 4999 * 0.18
    norm_num

/-- C4, amended.  For a created order whose amounts stay within the range of finite
JavaScript numbers, `taxAmount` is the JavaScript product `totalAmount * 0.18`: the product
of `totalAmount` (not of `grandTotal`) and the binary64 value nearest to 0.18, rounded to the
nearest binary64 value and not to a whole currency unit.  It lies within
`totalAmount / 2^54` (and `2^(-1075)`) of 18% of `totalAmount`. -/
theorem createOrder_tax (env : Env) (db : Db) (req : OrderRequest) (o : Order)
    (h : (createOrder env db req).2 = .ok o) (_hrange : o.grandTotal < 2 ^ 1024) :
    o.taxAmount = jsMul o.totalAmount (roundDouble 0.18) ∧
    |o.taxAmount - o.totalAmount * 0.18| ≤ o.totalAmount / 2 ^ 54 + 1 / 2 ^ 1075 := by
  have htax := (createOrder_ok_inv env db req o h).2.2.1
  have ht : 0 ≤ o.totalAmount := createOrder_total_nonneg env db req o h
  refine ⟨htax, ?_⟩
  have e1 := roundDouble_error (o.totalAmount * roundDouble 0.18)
  rw [abs_of_nonneg (mul_nonneg ht (roundDouble_nonneg _ (by norm_num)))] at e1
  have e1' : |o.taxAmount - o.totalAmount * roundDouble 0.18| ≤
      o.totalAmount * roundDouble 0.18 / 2 ^ 53 + 1 / 2 ^ 1075 := by
    rw [htax]
    exact e1
  rw [roundDouble_tax_rate] at e1'
  generalize (1 : ℚ) / 2 ^ 1075 = u at e1' ⊢
  rw [abs_le] at e1' ⊢
  constructor <;> norm_num at e1' ⊢ <;> linarith

/-- C4 on the worked scenario: totalAmount 25000 gives taxAmount 4500. -/
theorem createOrder_tax_witness :
    ((createOrder env0 dbAB requestAB).2 = .ok orderAB ∧ orderAB.grandTotal < 2 ^ 1024) ∧
    orderAB.totalAmount = 25000 ∧ orderAB.taxAmount = 4500 ∧
    (orderAB.taxAmount = jsMul orderAB.totalAmount (roundDouble 0.18) ∧
      |orderAB.taxAmount - orderAB.totalAmount * 0.18| ≤
        orderAB.totalAmount / 2 ^ 54 + 1 / 2 ^ 1075) :=
  ⟨⟨by with_unfolding_all rfl, by norm_num [orderAB]⟩, rfl, rfl,
    createOrder_tax env0 dbAB requestAB orderAB (by with_unfolding_all rfl)
      (by norm_num [orderAB])⟩

/-- C5.  For a created order, `shippingAmount` is 0 exactly when `totalAmount > 50000` and is
2000 otherwise; in particular a total of exactly 50000 pays 2000. -/
theorem createOrder_shipping (env : Env) (db : Db) (req : OrderRequest) (o : Order)
    (h : (createOrder env db req).2 = .ok o) :
    (o.shippingAmount = 0 ↔ o.totalAmount > 50000) ∧
    (¬ o.totalAmount > 50000 → o.shippingAmount = 2000) ∧
    (o.totalAmount = 50000 → o.shippingAmount = 2000) := by
  have hs := (createOrder_ok_inv env db req o h).2.2.2.1
  refine ⟨?_, ?_, ?_⟩
  · constructor
    · intro h0
      by_contra hgt
      rw [if_neg hgt] at hs
      rw [hs] at h0
      norm_num at h0
    · intro hgt
      rw [hs, if_pos hgt]
  · intro hle
    rw [hs, if_neg hle]
  · intro heq
    rw [hs, if_neg (by rw [heq]; norm_num)]

/-- C5 at the threshold: two units priced 25000 total exactly 50000 and pay 2000. -/
theorem createOrder_shipping_witness :
    (createOrder env0 dbOdd (requestOf [⟨4, 2⟩])).2 = .ok orderThreshold ∧
    orderThreshold.totalAmount = 50000 ∧ orderThreshold.shippingAmount = 2000 ∧
    ((orderThreshold.shippingAmount = 0 ↔ orderThreshold.totalAmount > 50000) ∧
      (¬ orderThreshold.totalAmount > 50000 → orderThreshold.shippingAmount = 2000) ∧
      (orderThreshold.totalAmount = 50000 → orderThreshold.shippingAmount = 2000)) :=
  ⟨by with_unfolding_all rfl, rfl, rfl,
    createOrder_shipping env0 dbOdd (requestOf [⟨4, 2⟩]) orderThreshold
      (by with_unfolding_all rfl)⟩

/-! ## The inventory invariant -/

theorem equipInv_update {s : EquipStore} (h : EquipInv s) (id : EquipId) (e : Equipment)
    (h0 : 0 ≤ e.stock) (h1 : e.stock = 0 → e.isAvailable = false) :
    EquipInv (Function.update s id (some e)) := by
  intro id' e' he'
  by_cases hid : id' = id
  · subst hid
    rw [Function.update_same] at he'
    cases he'
    exact ⟨h0, h1⟩
  · rw [Function.update_noteq hid] at he'
    exact h id' e' he'

theorem processItems_equipInv (items : List ItemRequest) :
    ∀ (s : EquipStore) (total : ℚ) (acc : List OrderItem),
      EquipInv s → EquipInv (processItems s total acc items).1 := by
  induction items with
  | nil => intro s total acc h; exact h
  | cons item rest ih =>
    intro s total acc h
    rcases processItems_cons_cases s total acc item rest with
      ⟨_, h'⟩ | ⟨e, _, _, h'⟩ | ⟨e, he, ha, hq, h'⟩
    · rw [h']; exact h
    · rw [h']; exact h
    · rw [h']
      apply ih
      apply equipInv_update h
      · simp only [reserved]; omega
      · intro h0
        simp only [reserved] at h0 ⊢
        rw [if_pos h0]

theorem createOrder_equipment (env : Env) (db : Db) (req : OrderRequest) :
    (createOrder env db req).1.equipment =
      if req.items = [] then db.equipment else (processItems db.equipment 0 [] req.items).1 := by
  by_cases hne : req.items = []
  · rw [createOrder_nil env db req hne, if_pos hne]
  · rw [if_neg hne]
    rcases hp : processItems db.equipment 0 [] req.items with ⟨s, f | ⟨total, lines⟩⟩
    · rw [createOrder_of_loop_error env db req s f hne hp]
    · rw [createOrder_of_loop_ok env db req s total lines hne hp]
      cases Order.create env db.orders (draftOf req total lines) <;> rfl

theorem restoreStock_equipInv (s : EquipStore) (id : EquipId) (q : ℤ) (h : EquipInv s)
    (hq : 1 ≤ q) : EquipInv (restoreStock s id q) := by
  unfold restoreStock
  cases he : s id with
  | none => exact h
  | some e =>
    have := (h id e he).1
    apply equipInv_update h
    · show 0 ≤ e.stock + q
      omega
    · intro h0
      have h0' : e.stock + q = 0 := h0
      omega

theorem restoreAll_equipInv (items : List OrderItem) :
    ∀ s : EquipStore, EquipInv s → (∀ i ∈ items, 1 ≤ i.quantity) →
      EquipInv (restoreAll s items) := by
  induction items with
  | nil => intro s h _; exact h
  | cons item rest ih =>
    intro s h hq
    show EquipInv (restoreAll (restoreStock s item.equipment item.quantity) rest)
    exact ih _ (restoreStock_equipInv s _ _ h (hq item (List.mem_cons_self _ _)))
      (fun i hi => hq i (List.mem_cons_of_mem _ hi))

theorem cancelOrder_equipment (env : Env) (db : Db) (caller : User) (id : OrderId) :
    (cancelOrder env db caller id).1.equipment = db.equipment ∨
    ∃ order, db.orders[id]? = some order ∧
      (cancelOrder env db caller id).1.equipment = restoreAll db.equipment order.items := by
  unfold cancelOrder
  split
  · exact Or.inl rfl
  · rename_i order ho
    split
    · exact Or.inl rfl
    · split
      · exact Or.inl rfl
      · exact Or.inr ⟨order, ho, rfl⟩

theorem ordersValid_set {orders : List Order} (h : OrdersValid orders) (id : OrderId)
    (o : Order) (ho : ∀ i ∈ o.items, 1 ≤ i.quantity) : OrdersValid (orders.set id o) := by
  intro x hx
  rcases List.mem_or_eq_of_mem_set hx with hx | rfl
  · exact h x hx
  · exact ho

theorem createOrder_ordersValid (env : Env) (db : Db) (req : OrderRequest)
    (h : OrdersValid db.orders) : OrdersValid (createOrder env db req).1.orders := by
  cases hr : (createOrder env db req).2 with
  | error f =>
    have : (createOrder env db req).1.orders = db.orders := by
      by_cases hne : req.items = []
      · rw [createOrder_nil env db req hne]
      · rcases hp : processItems db.equipment 0 [] req.items with ⟨s, f | ⟨total, lines⟩⟩
        · rw [createOrder_of_loop_error env db req s f hne hp]
        · rw [createOrder_of_loop_ok env db req s total lines hne hp] at hr ⊢
          cases hc : Order.create env db.orders (draftOf req total lines) with
          | none => rfl
          | some r => rw [hc] at hr; cases hr
    rw [this]
    exact h
  | ok o =>
    obtain ⟨_, _, _, _, _, horders, _, _, _, _, _, _, _, hq, _⟩ := createOrder_ok_inv env db req o hr
    rw [horders]
    intro x hx
    rcases List.mem_append.mp hx with hx | hx
    · exact h x hx
    · rw [List.mem_singleton.mp hx]
      exact hq

theorem cancelOrder_ordersValid (env : Env) (db : Db) (caller : User) (id : OrderId)
    (h : OrdersValid db.orders) : OrdersValid (cancelOrder env db caller id).1.orders := by
  unfold cancelOrder
  split
  · exact h
  · rename_i order ho
    split
    · exact h
    · split
      · exact h
      · apply ordersValid_set h
        rw [(orderPreSave_sameTotals _ _ _).1]
        exact h order (List.mem_iff_getElem?.mpr ⟨id, ho⟩)

/-- C6.  The predicate "stock ≥ 0 and stock = 0 implies isAvailable = false" on every
equipment record is preserved by `createOrder` (whatever its answer), by `cancel` and by the
admin stock update.  Stored orders satisfy the `min: 1` validator of their line quantities,
which `Order.create` enforces on every order it stores; the three operations keep that too. -/
theorem inventory_invariant_preserved (env : Env) (db : Db) (hinv : EquipInv db.equipment)
    (hord : OrdersValid db.orders) :
    (∀ req, EquipInv (createOrder env db req).1.equipment ∧
      OrdersValid (createOrder env db req).1.orders) ∧
    (∀ caller id, EquipInv (cancelOrder env db caller id).1.equipment ∧
      OrdersValid (cancelOrder env db caller id).1.orders) ∧
    (∀ caller id stock, EquipInv (updateStock db caller id stock).1.equipment ∧
      OrdersValid (updateStock db caller id stock).1.orders) := by
  refine ⟨?_, ?_, ?_⟩
  · intro req
    refine ⟨?_, createOrder_ordersValid env db req hord⟩
    rw [createOrder_equipment]
    split
    · exact hinv
    · exact processItems_equipInv _ _ _ _ hinv
  · intro caller id
    refine ⟨?_, cancelOrder_ordersValid env db caller id hord⟩
    rcases cancelOrder_equipment env db caller id with h | ⟨order, ho, h⟩
    · rw [h]; exact hinv
    · rw [h]
      have hmem : order ∈ db.orders := List.mem_iff_getElem?.mpr ⟨id, ho⟩
      exact restoreAll_equipInv _ _ hinv (hord order hmem)
  · intro caller id stock
    refine ⟨?_, by rw [updateStock_orders]; exact hord⟩
    unfold updateStock
    split
    · exact hinv
    · split
      · exact hinv
      · rename_i st
        split
        · exact hinv
        · rename_i hst
          split
          · exact hinv
          · apply equipInv_update hinv
            · exact not_lt.mp hst
            · intro h0
              have h0' : st = 0 := h0
              simp [h0']

theorem equipInv_storeAB : EquipInv storeAB := by
  intro id e he
  unfold storeAB at he
  split at he
  · cases he; exact ⟨by decide, by decide⟩
  · split at he
    · cases he; exact ⟨by decide, by decide⟩
    · cases he

/-- C6 on the worked scenario: the store left by the worked order (A with stock 3, B with
stock 0 and unavailable) satisfies the invariant, and so does every store that a further
order, a cancellation or a stock update leaves behind. -/
theorem inventory_invariant_preserved_witness :
    EquipInv dbPlaced.equipment ∧ OrdersValid dbPlaced.orders ∧
    ((∀ req, EquipInv (createOrder env1 dbPlaced req).1.equipment ∧
        OrdersValid (createOrder env1 dbPlaced req).1.orders) ∧
      (∀ caller id, EquipInv (cancelOrder env1 dbPlaced caller id).1.equipment ∧
        OrdersValid (cancelOrder env1 dbPlaced caller id).1.orders) ∧
      (∀ caller id stock, EquipInv (updateStock dbPlaced caller id stock).1.equipment ∧
        OrdersValid (updateStock dbPlaced caller id stock).1.orders)) :=
  have hnil : OrdersValid dbAB.orders := fun o ho => absurd ho (List.not_mem_nil o)
  have hplaced := (inventory_invariant_preserved env0 dbAB equipInv_storeAB hnil).1 requestAB
  ⟨hplaced.1, hplaced.2, inventory_invariant_preserved env1 dbPlaced hplaced.1 hplaced.2⟩

/-! ## Cancellation -/

theorem restoreStock_apply (s : EquipStore) (id : EquipId) (q : ℤ) (eid : EquipId) :
    restoreStock s id q eid =
      if eid = id then (s eid).map (fun e => { e with stock := e.stock + q, isAvailable := true })
      else s eid := by
  unfold restoreStock
  by_cases h : eid = id
  · subst h
    rw [if_pos rfl]
    cases he : s eid with
    | none => simp [he]
    | some e => simp [Function.update_same]
  · rw [if_neg h]
    cases he : s id with
    | none => rfl
    | some e => simp [Function.update_noteq h]

/-- The restore loop adds, to every equipment some line names, the quantities of all lines
naming it, and marks it available; it leaves every other id alone. -/
theorem restoreAll_apply (items : List OrderItem) :
    ∀ (s : EquipStore) (eid : EquipId),
      restoreAll s items eid =
        if eid ∈ items.map (·.equipment) then
          (s eid).map (fun e =>
            { e with stock := e.stock + quantityFor items eid, isAvailable := true })
        else s eid := by
  induction items with
  | nil => intro s eid; simp [restoreAll]
  | cons item rest ih =>
    intro s eid
    show restoreAll (restoreStock s item.equipment item.quantity) rest eid = _
    rw [ih, restoreStock_apply]
    by_cases h1 : eid = item.equipment
    · subst h1
      by_cases h2 : item.equipment ∈ rest.map (·.equipment)
      · rw [if_pos h2, if_pos rfl, if_pos (by simp)]
        cases s item.equipment with
        | none => rfl
        | some e =>
          simp only [Option.map_some', quantityFor, List.filter_cons, decide_True, if_true,
            List.map_cons, List.sum_cons]
          congr 2
          ring
      · rw [if_neg h2, if_pos rfl, if_pos (by simp)]
        have hz : quantityFor rest item.equipment = 0 := by
          unfold quantityFor
          rw [List.filter_eq_nil_iff.mpr]
          · rfl
          · intro i hi hd
            exact h2 (List.mem_map.mpr ⟨i, hi, of_decide_eq_true hd⟩)
        cases s item.equipment with
        | none => rfl
        | some e =>
          simp only [Option.map_some', quantityFor, List.filter_cons, decide_True, if_true,
            List.map_cons, List.sum_cons]
          unfold quantityFor at hz
          rw [hz, add_zero]
    · have hq : quantityFor (item :: rest) eid = quantityFor rest eid := by
        unfold quantityFor
        rw [List.filter_cons, if_neg (by simpa using fun h => h1 h.symm)]
      rw [if_neg h1, hq]
      by_cases h2 : eid ∈ rest.map (·.equipment)
      · rw [if_pos h2, if_pos (by simp [h2])]
      · rw [if_neg h2, if_neg (by simp only [List.map_cons, List.mem_cons, not_or]; exact ⟨h1, h2⟩)]

/-- C7.  When the order exists with status pending or confirmed and the caller is an admin or
the owning user, `cancel` answers with the order, now cancelled and stored under the same id;
every equipment named by a line item gets the quantities of the lines naming it added to its
stock and is marked available, whatever `isAvailable` was; every other equipment id is
unchanged. -/
theorem cancelOrder_restores_stock (env : Env) (db : Db) (caller : User) (id : OrderId)
    (order : Order) (ho : db.orders[id]? = some order)
    (hst : order.status = .pending ∨ order.status = .confirmed)
    (hauth : caller.role = .admin ∨ caller.id = order.user) :
    (∃ o', (cancelOrder env db caller id).2 = .ok o' ∧ o'.status = .cancelled ∧
      (cancelOrder env db caller id).1.orders[id]? = some o') ∧
    (∀ eid, eid ∈ order.items.map (·.equipment) →
      (cancelOrder env db caller id).1.equipment eid =
        (db.equipment eid).map (fun e =>
          { e with stock := e.stock + quantityFor order.items eid, isAvailable := true })) ∧
    (∀ eid, eid ∉ order.items.map (·.equipment) →
      (cancelOrder env db caller id).1.equipment eid = db.equipment eid) := by
  have hauth' : ¬ (caller.role ≠ .admin ∧ order.user ≠ caller.id) := by
    rintro ⟨h1, h2⟩
    rcases hauth with h | h
    · exact h1 h
    · exact h2 h.symm
  have hst' : ¬ ¬ (order.status = .pending ∨ order.status = .confirmed) := not_not.mpr hst
  have hmod : decide (order.status ≠ OrderStatus.cancelled) = true := by
    rcases hst with h | h <;> rw [h] <;> rfl
  have hlt : id < db.orders.length := (List.getElem?_eq_some.mp ho).1
  have heq : cancelOrder env db caller id =
      ({ db with
          equipment := restoreAll db.equipment order.items
          orders := db.orders.set id (orderPreSave env true { order with status := .cancelled }) },
        .ok (orderPreSave env true { order with status := .cancelled })) := by
    unfold cancelOrder
    rw [ho]
    simp only [hauth', hst', if_false, hmod]
    rfl
  rw [heq]
  refine ⟨⟨_, rfl, rfl, List.getElem?_set_self hlt⟩, ?_, ?_⟩
  · intro eid hmem
    show restoreAll db.equipment order.items eid = _
    rw [restoreAll_apply, if_pos hmem]
  · intro eid hmem
    show restoreAll db.equipment order.items eid = _
    rw [restoreAll_apply, if_neg hmem]

/-- C7 on the worked scenario: the owner cancels the pending order; A goes from stock 3 back
to 5 and B from stock 0, unavailable, back to stock 1, available. -/
theorem cancelOrder_restores_stock_witness :
    ((∃ o', (cancelOrder env1 dbPlaced owner 0).2 = .ok o' ∧ o'.status = .cancelled ∧
        (cancelOrder env1 dbPlaced owner 0).1.orders[0]? = some o') ∧
      (∀ eid, eid ∈ orderAB.items.map (·.equipment) →
        (cancelOrder env1 dbPlaced owner 0).1.equipment eid =
          (dbPlaced.equipment eid).map (fun e =>
            { e with stock := e.stock + quantityFor orderAB.items eid, isAvailable := true })) ∧
      (∀ eid, eid ∉ orderAB.items.map (·.equipment) →
        (cancelOrder env1 dbPlaced owner 0).1.equipment eid = dbPlaced.equipment eid)) ∧
    dbPlaced.equipment 2 = some { equipB with stock := 0, isAvailable := false } ∧
    (cancelOrder env1 dbPlaced owner 0).1.equipment 1 = some equipA ∧
    (cancelOrder env1 dbPlaced owner 0).1.equipment 2 = some equipB :=
  ⟨cancelOrder_restores_stock env1 dbPlaced owner 0 orderAB (by with_unfolding_all rfl)
      (Or.inl rfl) (Or.inr rfl),
    by with_unfolding_all rfl, by with_unfolding_all rfl, by with_unfolding_all rfl⟩

/-- C8.  When the order exists with a status other than pending and confirmed, `cancel` by
the owner or an admin answers 400 "Cannot cancel order at this stage" and writes nothing:
the database, hence the order's status and statusHistory and every equipment record, is the
one it started from. -/
theorem cancelOrder_rejects_late (env : Env) (db : Db) (caller : User) (id : OrderId)
    (order : Order) (ho : db.orders[id]? = some order)
    (hst : order.status ≠ .pending ∧ order.status ≠ .confirmed)
    (hauth : caller.role = .admin ∨ caller.id = order.user) :
    (cancelOrder env db caller id).2 = .error .cannotCancel ∧
    Failure.httpStatus .cannotCancel = 400 ∧
    (cancelOrder env db caller id).1 = db := by
  have hauth' : ¬ (caller.role ≠ .admin ∧ order.user ≠ caller.id) := by
    rintro ⟨h1, h2⟩
    rcases hauth with h | h
    · exact h1 h
    · exact h2 h.symm
  have hst' : ¬ (order.status = .pending ∨ order.status = .confirmed) := by
    rintro (h | h)
    · exact hst.1 h
    · exact hst.2 h
  have heq : cancelOrder env db caller id = (db, .error .cannotCancel) := by
    unfold cancelOrder
    rw [ho]
    simp only [hauth', hst', if_false, not_false_eq_true, if_true]
  rw [heq]
  exact ⟨rfl, rfl, rfl⟩

/-- C8 on the worked scenario: a second cancel of the already cancelled order is rejected
and restores nothing. -/
theorem cancelOrder_rejects_late_witness :
    dbCancelled.orders[0]? = some orderABCancelled ∧
    ((cancelOrder env1 dbCancelled owner 0).2 = .error .cannotCancel ∧
      Failure.httpStatus .cannotCancel = 400 ∧
      (cancelOrder env1 dbCancelled owner 0).1 = dbCancelled) :=
  ⟨by with_unfolding_all rfl,
    cancelOrder_rejects_late env1 dbCancelled owner 0 orderABCancelled
      (by with_unfolding_all rfl) ⟨by decide, by decide⟩ (Or.inr rfl)⟩

/-- C9.  When the order exists and the caller is neither an admin nor the owning user,
`cancel` answers 403 "Not authorized to cancel this order" whatever the order's status is,
and writes nothing. -/
theorem cancelOrder_forbidden (env : Env) (db : Db) (caller : User) (id : OrderId)
    (order : Order) (ho : db.orders[id]? = some order)
    (hrole : caller.role ≠ .admin) (hother : caller.id ≠ order.user) :
    (cancelOrder env db caller id).2 = .error .notAuthorized ∧
    Failure.httpStatus .notAuthorized = 403 ∧
    (cancelOrder env db caller id).1 = db := by
  have hauth : caller.role ≠ .admin ∧ order.user ≠ caller.id := ⟨hrole, fun h => hother h.symm⟩
  have heq : cancelOrder env db caller id = (db, .error .notAuthorized) := by
    unfold cancelOrder
    rw [ho]
    exact if_pos hauth
  rw [heq]
  exact ⟨rfl, rfl, rfl⟩

/-- C9 on the worked scenario: user 8, a customer who does not own the order, is refused on
the pending order and on the cancelled one alike. -/
theorem cancelOrder_forbidden_witness :
    ((cancelOrder env1 dbPlaced { id := 8, role := .customer } 0).2 = .error .notAuthorized ∧
      Failure.httpStatus .notAuthorized = 403 ∧
      (cancelOrder env1 dbPlaced { id := 8, role := .customer } 0).1 = dbPlaced) ∧
    (cancelOrder env1 dbCancelled { id := 8, role := .installation_team } 0).2 =
      .error .notAuthorized :=
  ⟨cancelOrder_forbidden env1 dbPlaced { id := 8, role := .customer } 0 orderAB
      (by with_unfolding_all rfl) (by decide) (by decide),
    by with_unfolding_all rfl⟩

/-! ## Which error a rejected order gets -/

/-- The loop of the handler against the specification's first failing item: with no failing
item the loop completes; otherwise it returns the 404 error for an item whose equipment is
missing and the 400 error for one that is unavailable or short of stock. -/
theorem processItems_firstFailing (items : List ItemRequest) :
    ∀ (s : EquipStore) (total : ℚ) (acc : List OrderItem),
      (firstFailing s items = none → ∃ r, (processItems s total acc items).2 = .ok r) ∧
      (∀ it, firstFailing s items = some (it, .notFound) →
        (processItems s total acc items).2 = .error (.equipmentNotFound it.equipment)) ∧
      (∀ it, firstFailing s items = some (it, .insufficientStock) →
        ∃ name, (processItems s total acc items).2 = .error (.notAvailable name)) := by
  induction items with
  | nil =>
    intro s total acc
    refine ⟨fun _ => ⟨(total, acc), rfl⟩, ?_, ?_⟩ <;> intro it h <;> simp [firstFailing] at h
  | cons item rest ih =>
    intro s total acc
    rcases processItems_cons_cases s total acc item rest with
      ⟨he, h'⟩ | ⟨e, he, hbad, h'⟩ | ⟨e, he, ha, hq, h'⟩
    · have hf : firstFailing s (item :: rest) = some (item, .notFound) := by
        simp [firstFailing, specReserve, he]
      rw [hf, h']
      refine ⟨?_, ?_, ?_⟩
      · intro h
        cases h
      · intro it h
        cases h
        rfl
      · intro it h
        cases h
    · have hf : firstFailing s (item :: rest) = some (item, .insufficientStock) := by
        simp [firstFailing, specReserve, he, hbad]
      rw [hf, h']
      refine ⟨?_, ?_, ?_⟩
      · intro h
        cases h
      · intro it h
        cases h
      · intro it _
        exact ⟨e.name, rfl⟩
    · have hgood : ¬ (e.isAvailable = false ∨ e.stock < item.quantity) := by
        rintro (h | h)
        · rw [ha] at h; cases h
        · omega
      have hf : firstFailing s (item :: rest) =
          firstFailing (Function.update s item.equipment (some (reserved e item.quantity))) rest := by
        simp [firstFailing, specReserve, he, hgood, reserved]
      rw [hf, h']
      exact ih _ _ _

/-- The answer of `POST /api/orders` to a non-empty request, by the first failing item. -/
theorem createOrder_by_firstFailing (env : Env) (db : Db) (req : OrderRequest)
    (hne : req.items ≠ []) :
    (firstFailing db.equipment req.items = none →
      (∃ o, (createOrder env db req).2 = .ok o) ∨
        (createOrder env db req).2 = .error .serverError) ∧
    (∀ it, firstFailing db.equipment req.items = some (it, .notFound) →
      (createOrder env db req).2 = .error (.equipmentNotFound it.equipment)) ∧
    (∀ it, firstFailing db.equipment req.items = some (it, .insufficientStock) →
      ∃ name, (createOrder env db req).2 = .error (.notAvailable name)) := by
  obtain ⟨h1, h2, h3⟩ := processItems_firstFailing req.items db.equipment 0 []
  rcases hp : processItems db.equipment 0 [] req.items with ⟨s, f | ⟨total, lines⟩⟩
  · rw [createOrder_of_loop_error env db req s f hne hp]
    rw [hp] at h1 h2 h3
    refine ⟨?_, ?_, ?_⟩
    · intro hnone
      obtain ⟨r, hr⟩ := h1 hnone
      cases hr
    · intro it h
      have := h2 it h
      simp only [Except.error.injEq] at this
      rw [this]
    · intro it h
      obtain ⟨name, this⟩ := h3 it h
      simp only [Except.error.injEq] at this
      exact ⟨name, by rw [this]⟩
  · rw [createOrder_of_loop_ok env db req s total lines hne hp]
    rw [hp] at h2 h3
    refine ⟨?_, ?_, ?_⟩
    · intro _
      cases Order.create env db.orders (draftOf req total lines) with
      | none => exact Or.inr rfl
      | some r => exact Or.inl ⟨r.2, rfl⟩
    · intro it h
      have := h2 it h
      cases this
    · intro it h
      obtain ⟨_, this⟩ := h3 it h
      cases this

/-- C10.  For a non-empty request, `createOrder` answers 404 (equipment not found) exactly
when, reserving the items in list order against the store as updated by the items before,
the first failing item names equipment that does not exist, and it answers 400 (not available
in requested quantity) exactly when the first failing item names existing equipment with
`isAvailable = false` or `stock < quantity`.  In particular a first item whose equipment is
marked unavailable is rejected with the 400 error whatever its stock. -/
theorem createOrder_failure_kind (env : Env) (db : Db) (req : OrderRequest)
    (hne : req.items ≠ []) :
    ((∃ f, (createOrder env db req).2 = .error f ∧ f.httpStatus = 404) ↔
      ∃ it, firstFailing db.equipment req.items = some (it, .notFound)) ∧
    ((∃ id, (createOrder env db req).2 = .error (.equipmentNotFound id)) ↔
      ∃ it, firstFailing db.equipment req.items = some (it, .notFound)) ∧
    ((∃ f, (createOrder env db req).2 = .error f ∧ f.httpStatus = 400) ↔
      ∃ it, firstFailing db.equipment req.items = some (it, .insufficientStock)) ∧
    ((∃ name, (createOrder env db req).2 = .error (.notAvailable name)) ↔
      ∃ it, firstFailing db.equipment req.items = some (it, .insufficientStock)) ∧
    (∀ it rest e, req.items = it :: rest → db.equipment it.equipment = some e →
      e.isAvailable = false →
      (createOrder env db req).2 = .error (.notAvailable e.name)) := by
  obtain ⟨h1, h2, h3⟩ := createOrder_by_firstFailing env db req hne
  have hcases : firstFailing db.equipment req.items = none ∨
      (∃ it, firstFailing db.equipment req.items = some (it, .notFound)) ∨
      (∃ it, firstFailing db.equipment req.items = some (it, .insufficientStock)) := by
    cases hf : firstFailing db.equipment req.items with
    | none => exact Or.inl rfl
    | some p =>
      obtain ⟨it, k⟩ := p
      cases k
      · exact Or.inr (Or.inl ⟨it, rfl⟩)
      · exact Or.inr (Or.inr ⟨it, rfl⟩)
  refine ⟨?_, ?_, ?_, ?_, ?_⟩
  · constructor
    · rintro ⟨f, hf, hcode⟩
      rcases hcases with hn | hnf | ⟨it, hi⟩
      · rcases h1 hn with ⟨o, ho⟩ | hs
        · rw [ho] at hf; cases hf
        · rw [hs] at hf; cases hf; simp [Failure.httpStatus] at hcode
      · exact hnf
      · obtain ⟨name, hname⟩ := h3 it hi
        rw [hname] at hf; cases hf; simp [Failure.httpStatus] at hcode
    · rintro ⟨it, hi⟩
      exact ⟨_, h2 it hi, rfl⟩
  · constructor
    · rintro ⟨id, hf⟩
      rcases hcases with hn | hnf | ⟨it, hi⟩
      · rcases h1 hn with ⟨o, ho⟩ | hs
        · rw [ho] at hf; cases hf
        · rw [hs] at hf; cases hf
      · exact hnf
      · obtain ⟨name, hname⟩ := h3 it hi
        rw [hname] at hf; cases hf
    · rintro ⟨it, hi⟩
      exact ⟨_, h2 it hi⟩
  · constructor
    · rintro ⟨f, hf, hcode⟩
      rcases hcases with hn | ⟨it, hi⟩ | his
      · rcases h1 hn with ⟨o, ho⟩ | hs
        · rw [ho] at hf; cases hf
        · rw [hs] at hf; cases hf; simp [Failure.httpStatus] at hcode
      · rw [h2 it hi] at hf; cases hf; simp [Failure.httpStatus] at hcode
      · exact his
    · rintro ⟨it, hi⟩
      obtain ⟨name, hname⟩ := h3 it hi
      exact ⟨_, hname, rfl⟩
  · constructor
    · rintro ⟨name, hf⟩
      rcases hcases with hn | ⟨it, hi⟩ | his
      · rcases h1 hn with ⟨o, ho⟩ | hs
        · rw [ho] at hf; cases hf
        · rw [hs] at hf; cases hf
      · rw [h2 it hi] at hf; cases hf
      · exact his
    · rintro ⟨it, hi⟩
      exact h3 it hi
  · intro it rest e hitems he ha
    have hloop := processItems_cons_error db.equipment 0 [] it rest e he (Or.inl ha)
    rw [← hitems] at hloop
    rw [createOrder_of_loop_error env db req _ _ hne hloop]

/-- C10 on two requests: equipment 5 has stock 10 but is unavailable, so one unit of it is
refused with the 400 error; equipment 9 does not exist, so "2 of A, then 1 of equipment 9" is
refused with the 404 error. -/
theorem createOrder_failure_kind_witness :
    (((∃ f, (createOrder env0 dbHidden (requestOf [⟨5, 1⟩])).2 = .error f ∧
          f.httpStatus = 404) ↔
        ∃ it, firstFailing dbHidden.equipment (requestOf [⟨5, 1⟩]).items = some (it, .notFound)) ∧
      ((∃ id, (createOrder env0 dbHidden (requestOf [⟨5, 1⟩])).2 =
          .error (.equipmentNotFound id)) ↔
        ∃ it, firstFailing dbHidden.equipment (requestOf [⟨5, 1⟩]).items = some (it, .notFound)) ∧
      ((∃ f, (createOrder env0 dbHidden (requestOf [⟨5, 1⟩])).2 = .error f ∧
          f.httpStatus = 400) ↔
        ∃ it, firstFailing dbHidden.equipment (requestOf [⟨5, 1⟩]).items =
          some (it, .insufficientStock)) ∧
      ((∃ name, (createOrder env0 dbHidden (requestOf [⟨5, 1⟩])).2 =
          .error (.notAvailable name)) ↔
        ∃ it, firstFailing dbHidden.equipment (requestOf [⟨5, 1⟩]).items =
          some (it, .insufficientStock)) ∧
      (∀ it rest e, (requestOf [⟨5, 1⟩]).items = it :: rest →
        dbHidden.equipment it.equipment = some e → e.isAvailable = false →
        (createOrder env0 dbHidden (requestOf [⟨5, 1⟩])).2 = .error (.notAvailable e.name))) ∧
    (createOrder env0 dbHidden (requestOf [⟨5, 1⟩])).2 = .error (.notAvailable "E") ∧
    firstFailing dbHidden.equipment [⟨5, 1⟩] = some (⟨5, 1⟩, .insufficientStock) ∧
    (createOrder env0 dbAB (requestOf [⟨1, 2⟩, ⟨9, 1⟩])).2 = .error (.equipmentNotFound 9) ∧
    firstFailing dbAB.equipment [⟨1, 2⟩, ⟨9, 1⟩] = some (⟨9, 1⟩, .notFound) :=
  ⟨createOrder_failure_kind env0 dbHidden (requestOf [⟨5, 1⟩]) (by decide),
    by with_unfolding_all rfl, by with_unfolding_all rfl, by with_unfolding_all rfl,
    by with_unfolding_all rfl⟩

/-! ## Order status writes -/

theorem parseOrderStatus_name (st : OrderStatus) : parseOrderStatus st.name = some st := by
  cases st <;> decide

theorem parseOrderStatus_cancelled (s : String) (h : parseOrderStatus s = some .cancelled) :
    s = "cancelled" := by
  unfold parseOrderStatus at h
  repeat' split at h
  all_goals first | assumption | cases h

/-- What `PUT /api/orders/:id/status` does for an administrator, an existing order and a
status of the enumeration. -/
theorem setOrderStatus_admin (env : Env) (db : Db) (caller : User) (id : OrderId)
    (status : String) (note : Option String) (order : Order) (st : OrderStatus)
    (hadmin : caller.role = .admin) (ho : db.orders[id]? = some order)
    (hp : parseOrderStatus status = some st) :
    setOrderStatus env db caller id status note =
      ({ db with
          orders := db.orders.set id
            (orderPreSave env (decide (st ≠ order.status))
              { order with
                status := st
                statusHistory :=
                  if truthy note then
                    order.statusHistory ++ [{ status := st, date := env.now, note := note }]
                  else order.statusHistory }) },
        .ok (orderPreSave env (decide (st ≠ order.status))
              { order with
                status := st
                statusHistory :=
                  if truthy note then
                    order.statusHistory ++ [{ status := st, date := env.now, note := note }]
                  else order.statusHistory })) := by
  have h1 : isAdmin caller = true := by simp [isAdmin, hadmin]
  unfold setOrderStatus
  rw [h1, ho, hp]
  rfl

/-- C11 as stated fails: the administrator sets the pending order 0 to "pending" without a
note; the call succeeds, the status is pending, and statusHistory is exactly what it was, so
no entry has been appended. -/
theorem setOrderStatus_same_status_appends_nothing :
    dbPlaced.orders[0]? = some orderAB ∧
    (setOrderStatus env2 dbPlaced adminUser 0 (OrderStatus.name .pending) none).2 =
      .ok { orderAB with updatedAt := 300 } ∧
    ({ orderAB with updatedAt := 300 } : Order).statusHistory = orderAB.statusHistory ∧
    ¬ ∃ e, ({ orderAB with updatedAt := 300 } : Order).statusHistory =
      orderAB.statusHistory ++ [e] := by
  refine ⟨by with_unfolding_all rfl, by with_unfolding_all rfl, rfl, ?_⟩
  rintro ⟨e, he⟩
  have := congrArg List.length he
  simp [orderAB] at this

/-- C11, amended.  For an existing order, any current status, any status of the enumeration
and any optional note, an administrator's Order setStatus succeeds, stores the order with the
new status under the same id, and keeps all earlier statusHistory entries in place.  It
appends exactly one entry when the status changes and no note is given (the entry carries the
new status, the clock and no note) and when the status stays the same and a note is given
(the entry carries the status, the clock and the note); it appends nothing when the status
stays the same and no note is given. -/
theorem setOrderStatus_history (env : Env) (db : Db) (caller : User) (id : OrderId)
    (st : OrderStatus) (note : Option String) (order : Order)
    (hadmin : caller.role = .admin) (ho : db.orders[id]? = some order) :
    ∃ o', (setOrderStatus env db caller id st.name note).2 = .ok o' ∧
      (setOrderStatus env db caller id st.name note).1.orders[id]? = some o' ∧
      o'.status = st ∧
      (∃ added, o'.statusHistory = order.statusHistory ++ added) ∧
      (st ≠ order.status → truthy note = false →
        o'.statusHistory = order.statusHistory ++ [{ status := st, date := env.now, note := none }]) ∧
      (st = order.status → truthy note = true →
        o'.statusHistory = order.statusHistory ++ [{ status := st, date := env.now, note := note }]) ∧
      (st = order.status → truthy note = false → o'.statusHistory = order.statusHistory) := by
  have hlt : id < db.orders.length := (List.getElem?_eq_some.mp ho).1
  rw [setOrderStatus_admin env db caller id st.name note order st hadmin ho
    (parseOrderStatus_name st)]
  refine ⟨_, rfl, List.getElem?_set_self hlt, ?_, ?_, ?_, ?_, ?_⟩
  · cases decide (st ≠ order.status) <;> rfl
  · by_cases hc : st = order.status <;> cases hn : truthy note <;>
      simp [orderPreSave, hc, hn]
  · intro hc hn
    simp [orderPreSave, hc, hn]
  · intro hc hn
    simp [orderPreSave, hc, hn]
  · intro hc hn
    simp [orderPreSave, hc, hn]

/-- C11 on the worked scenario: the administrator sets the pending order 0 to shipped without
a note; one entry "shipped at clock 300" is appended after the creation entry. -/
theorem setOrderStatus_history_witness :
    (∃ o', (setOrderStatus env2 dbPlaced adminUser 0 (OrderStatus.name .shipped) none).2 = .ok o' ∧
      (setOrderStatus env2 dbPlaced adminUser 0 (OrderStatus.name .shipped) none).1.orders[0]? =
        some o' ∧
      o'.status = .shipped ∧
      (∃ added, o'.statusHistory = orderAB.statusHistory ++ added) ∧
      (OrderStatus.shipped ≠ orderAB.status → truthy none = false →
        o'.statusHistory =
          orderAB.statusHistory ++ [{ status := .shipped, date := env2.now, note := none }]) ∧
      (OrderStatus.shipped = orderAB.status → truthy none = true →
        o'.statusHistory =
          orderAB.statusHistory ++ [{ status := .shipped, date := env2.now, note := none }]) ∧
      (OrderStatus.shipped = orderAB.status → truthy none = false →
        o'.statusHistory = orderAB.statusHistory)) ∧
    ((setOrderStatus env2 dbPlaced adminUser 0 "shipped" none).2.toOption.map
        (·.statusHistory)) =
      some [{ status := .pending, date := 100, note := none },
            { status := .shipped, date := 300, note := none }] :=
  ⟨setOrderStatus_history env2 dbPlaced adminUser 0 .shipped none orderAB rfl
      (by with_unfolding_all rfl),
    by with_unfolding_all rfl⟩

/-- With a note and a changed status the handler's own push and the `pre('save')` hook both
run: two entries are appended, the first with the note and the second without. -/
theorem setOrderStatus_note_and_change (env : Env) (db : Db) (caller : User) (id : OrderId)
    (st : OrderStatus) (note : Option String) (order : Order)
    (hadmin : caller.role = .admin) (ho : db.orders[id]? = some order)
    (hc : st ≠ order.status) (hn : truthy note = true) :
    ∃ o', (setOrderStatus env db caller id st.name note).2 = .ok o' ∧
      o'.statusHistory = order.statusHistory ++
        [{ status := st, date := env.now, note := note },
         { status := st, date := env.now, note := none }] := by
  rw [setOrderStatus_admin env db caller id st.name note order st hadmin ho
    (parseOrderStatus_name st)]
  exact ⟨_, rfl, by simp [orderPreSave, hc, hn]⟩

/-! ## How each request moves the status of a stored order -/

theorem statusMoves_refl (orders : List Order)
    (allowed : OrderId → OrderStatus → OrderStatus → Prop) :
    StatusMoves orders orders allowed := by
  intro i o o' h h'
  rw [h] at h'
  cases h'
  exact Or.inl rfl

theorem statusMoves_set {orders : List Order} {id : OrderId} {o x : Order}
    {allowed : OrderId → OrderStatus → OrderStatus → Prop}
    (h : orders[id]? = some o) (hx : x.status = o.status ∨ allowed id o.status x.status) :
    StatusMoves orders (orders.set id x) allowed := by
  intro i a a' ha ha'
  by_cases hi : id = i
  · subst hi
    have hlt : id < orders.length := (List.getElem?_eq_some.mp h).1
    rw [List.getElem?_set_self hlt] at ha'
    rw [h] at ha
    cases ha
    cases ha'
    exact hx
  · rw [List.getElem?_set_ne hi, ha] at ha'
    cases ha'
    exact Or.inl rfl

theorem statusMoves_append (orders extra : List Order)
    (allowed : OrderId → OrderStatus → OrderStatus → Prop) :
    StatusMoves orders (orders ++ extra) allowed := by
  intro i o o' h h'
  have hlt : i < orders.length := (List.getElem?_eq_some.mp h).1
  rw [List.getElem?_append_left hlt, h] at h'
  cases h'
  exact Or.inl rfl

theorem statusMoves_mirror (orders : List Order) (id : OrderId) (st : OrderStatus)
    (allowed : OrderId → OrderStatus → OrderStatus → Prop)
    (h : ∀ old, allowed id old st) :
    StatusMoves orders (mirrorOrderStatus orders id st) allowed := by
  unfold mirrorOrderStatus
  cases ho : orders[id]? with
  | none => exact statusMoves_refl _ _
  | some o => exact statusMoves_set ho (Or.inr (h o.status))

theorem orderPreSave_status (env : Env) (m : Bool) (o : Order) :
    (orderPreSave env m o).status = o.status := by
  cases m <;> rfl

theorem createOrder_orders (env : Env) (db : Db) (req : OrderRequest) :
    (createOrder env db req).1.orders = db.orders ∨
    ∃ o, (createOrder env db req).1.orders = db.orders ++ [o] := by
  by_cases hne : req.items = []
  · rw [createOrder_nil env db req hne]
    exact Or.inl rfl
  · rcases hp : processItems db.equipment 0 [] req.items with ⟨s, f | ⟨total, lines⟩⟩
    · rw [createOrder_of_loop_error env db req s f hne hp]
      exact Or.inl rfl
    · rw [createOrder_of_loop_ok env db req s total lines hne hp]
      cases hc : Order.create env db.orders (draftOf req total lines) with
      | none => exact Or.inl rfl
      | some r =>
        have h1 := (orderCreate_some env db.orders _ r hc).1
        obtain ⟨orders, order⟩ := r
        exact Or.inr ⟨order, h1⟩

theorem createOrder_statusMoves (env : Env) (db : Db) (req : OrderRequest)
    (allowed : OrderId → OrderStatus → OrderStatus → Prop) :
    StatusMoves db.orders (createOrder env db req).1.orders allowed := by
  rcases createOrder_orders env db req with h | ⟨o, h⟩
  · rw [h]; exact statusMoves_refl _ _
  · rw [h]; exact statusMoves_append _ _ _

/-- Order setStatus moves only the addressed order, only for an administrator, and to the
status that the request names. -/
theorem setOrderStatus_statusMoves (env : Env) (db : Db) (caller : User) (id : OrderId)
    (status : String) (note : Option String) :
    StatusMoves db.orders (setOrderStatus env db caller id status note).1.orders
      (fun i _ new => i = id ∧ caller.role = .admin ∧ parseOrderStatus status = some new) := by
  unfold setOrderStatus
  split
  · exact statusMoves_refl _ _
  · rename_i hadmin
    have hrole : caller.role = .admin := by simpa [isAdmin] using hadmin
    split
    · exact statusMoves_refl _ _
    · rename_i order ho
      split
      · exact statusMoves_refl _ _
      · rename_i st hp
        refine statusMoves_set ho (Or.inr ⟨rfl, hrole, ?_⟩)
        rw [orderPreSave_status]
        exact hp

theorem setPaymentStatus_statusMoves (db : Db) (caller : User) (id : OrderId)
    (p : Option PaymentStatus) (allowed : OrderId → OrderStatus → OrderStatus → Prop) :
    StatusMoves db.orders (setPaymentStatus db caller id p).1.orders allowed := by
  unfold setPaymentStatus
  split
  · exact statusMoves_refl _ _
  · split
    · exact statusMoves_refl _ _
    · rename_i order ho
      refine statusMoves_set ho (Or.inl ?_)
      cases p <;> rfl

/-- Cancel moves only the addressed order, only to cancelled, and only from pending or
confirmed. -/
theorem cancelOrder_statusMoves (env : Env) (db : Db) (caller : User) (id : OrderId) :
    StatusMoves db.orders (cancelOrder env db caller id).1.orders
      (fun i old new => i = id ∧ new = .cancelled ∧ (old = .pending ∨ old = .confirmed)) := by
  unfold cancelOrder
  split
  · exact statusMoves_refl _ _
  · rename_i order ho
    split
    · exact statusMoves_refl _ _
    · split
      · exact statusMoves_refl _ _
      · rename_i hst
        refine statusMoves_set ho (Or.inr ⟨rfl, ?_, not_not.mp hst⟩)
        rw [orderPreSave_status]

theorem schedule_statusMoves (env : Env) (db : Db) (caller : User) (req : ScheduleRequest) :
    StatusMoves db.orders (schedule env db caller req).1.orders
      (fun _ _ new => new = .installation_scheduled) := by
  unfold schedule
  split
  · exact statusMoves_refl _ _
  · split
    · exact statusMoves_refl _ _
    · rename_i order ho
      split
      · refine statusMoves_set ho (Or.inr ?_)
        rw [orderPreSave_status]
      · exact statusMoves_refl _ _

theorem setInstallationStatus_statusMoves (env : Env) (db : Db) (caller : User) (id : Nat)
    (status : String) (note : Option String) :
    StatusMoves db.orders (setInstallationStatus env db caller id status note).1.orders
      (fun _ _ new => new = .installation_in_progress ∨ new = .completed) := by
  unfold setInstallationStatus
  split
  · exact statusMoves_refl _ _
  · split
    · exact statusMoves_refl _ _
    · split
      · exact statusMoves_refl _ _
      · split
        · exact statusMoves_refl _ _
        · simp only
          split
          · exact statusMoves_mirror _ _ _ _ (fun _ => Or.inl rfl)
          · split
            · exact statusMoves_mirror _ _ _ _ (fun _ => Or.inr rfl)
            · exact statusMoves_refl _ _

theorem setEquipmentItemStatus_statusMoves (env : Env) (db : Db) (caller : User) (id : Nat)
    (equipmentId : EquipId) (status : String) :
    StatusMoves db.orders (setEquipmentItemStatus env db caller id equipmentId status).1.orders
      (fun _ _ new => new = .completed) := by
  unfold setEquipmentItemStatus
  split
  · exact statusMoves_refl _ _
  · split
    · exact statusMoves_refl _ _
    · split
      · exact statusMoves_refl _ _
      · split
        · exact statusMoves_refl _ _
        · simp only
          split
          · exact statusMoves_mirror _ _ _ _ (fun _ => rfl)
          · exact statusMoves_refl _ _

/-- C12 as stated fails: order 0 is shipped, the administrator calls Order setStatus with
"cancelled", and the order's status changes from shipped to cancelled. -/
theorem setOrderStatus_cancels_shipped :
    (dbShipped.orders[0]?).map (·.status) = some .shipped ∧
    ((step dbShipped (env2, .setOrderStatus adminUser 0 "cancelled" none)).orders[0]?).map
      (·.status) = some .cancelled := by
  constructor <;> with_unfolding_all rfl

/-- C12, amended.  In every sequence of requests, whenever a step changes an order's status
to cancelled, either the step is a cancel of that order and its status immediately before was
pending or confirmed, or the step is an administrator's Order setStatus on that order with
the status "cancelled", which is accepted from every status.  No other request sets
cancelled. -/
theorem cancelled_only_by_cancel_or_admin (db : Db) (rs : List (Env × Op)) (r : Env × Op)
    (i : OrderId) (o o' : Order)
    (hbefore : (run db rs).orders[i]? = some o)
    (hafter : (step (run db rs) r).orders[i]? = some o')
    (hwas : o.status ≠ .cancelled) (hnow : o'.status = .cancelled) :
    ((∃ caller, r.2 = .cancel caller i) ∧ (o.status = .pending ∨ o.status = .confirmed)) ∨
    (∃ caller note, r.2 = .setOrderStatus caller i "cancelled" note ∧ caller.role = .admin) := by
  have hne : o'.status ≠ o.status := by rw [hnow]; exact fun h => hwas h.symm
  obtain ⟨env, op⟩ := r
  cases op with
  | createOrder req =>
    rcases createOrder_statusMoves env (run db rs) req (fun _ _ _ => False) i o o' hbefore hafter
      with h | h
    · exact absurd h hne
    · exact h.elim
  | setOrderStatus caller id status note =>
    rcases setOrderStatus_statusMoves env (run db rs) caller id status note i o o' hbefore hafter
      with h | ⟨hi, hadmin, hp⟩
    · exact absurd h hne
    · rw [hnow] at hp
      have hs := parseOrderStatus_cancelled status hp
      subst hi hs
      exact Or.inr ⟨caller, note, rfl, hadmin⟩
  | setPaymentStatus caller id p =>
    rcases setPaymentStatus_statusMoves (run db rs) caller id p (fun _ _ _ => False) i o o'
      hbefore hafter with h | h
    · exact absurd h hne
    · exact h.elim
  | cancel caller id =>
    rcases cancelOrder_statusMoves env (run db rs) caller id i o o' hbefore hafter
      with h | ⟨hi, _, hold⟩
    · exact absurd h hne
    · subst hi
      exact Or.inl ⟨⟨caller, rfl⟩, hold⟩
  | updateStock caller id stock =>
    have h : (step (run db rs) (env, .updateStock caller id stock)).orders = (run db rs).orders :=
      updateStock_orders _ _ _ _
    rw [h, hbefore] at hafter
    cases hafter
    exact absurd rfl hne
  | schedule caller req =>
    rcases schedule_statusMoves env (run db rs) caller req i o o' hbefore hafter with h | h
    · exact absurd h hne
    · rw [hnow] at h; cases h
  | setInstallationStatus caller id status note =>
    rcases setInstallationStatus_statusMoves env (run db rs) caller id status note i o o'
      hbefore hafter with h | h | h
    · exact absurd h hne
    · rw [hnow] at h; cases h
    · rw [hnow] at h; cases h
  | setEquipmentItemStatus caller id equipmentId status =>
    rcases setEquipmentItemStatus_statusMoves env (run db rs) caller id equipmentId status i o o'
      hbefore hafter with h | h
    · exact absurd h hne
    · rw [hnow] at h; cases h
  | setTeamNotes caller id notes =>
    have h : (step (run db rs) (env, .setTeamNotes caller id notes)).orders = (run db rs).orders :=
      setTeamNotes_orders _ _ _ _
    rw [h, hbefore] at hafter
    cases hafter
    exact absurd rfl hne
  | setCustomerFeedback caller id rating comment =>
    have h : (step (run db rs) (env, .setCustomerFeedback caller id rating comment)).orders =
        (run db rs).orders := setCustomerFeedback_orders _ _ _ _ _ _
    rw [h, hbefore] at hafter
    cases hafter
    exact absurd rfl hne

/-- C12 on the worked scenario: the owner's cancel moves the pending order 0 to cancelled, and
the administrator's setStatus "cancelled" moves the shipped order 0 to cancelled. -/
theorem cancelled_only_by_cancel_or_admin_witness :
    (((∃ caller, (env1, Op.cancel owner 0).2 = .cancel caller 0) ∧
        (orderAB.status = .pending ∨ orderAB.status = .confirmed)) ∨
      (∃ caller note, (env1, Op.cancel owner 0).2 = .setOrderStatus caller 0 "cancelled" note ∧
        caller.role = .admin)) ∧
    (((∃ caller, (env2, Op.setOrderStatus adminUser 0 "cancelled" none).2 = .cancel caller 0) ∧
        (OrderStatus.shipped = .pending ∨ OrderStatus.shipped = .confirmed)) ∨
      (∃ caller note,
        (env2, Op.setOrderStatus adminUser 0 "cancelled" none).2 =
          .setOrderStatus caller 0 "cancelled" note ∧
        caller.role = .admin)) :=
  ⟨cancelled_only_by_cancel_or_admin dbAB [(env0, .createOrder requestAB)]
      (env1, .cancel owner 0) 0 orderAB orderABCancelled
      (by with_unfolding_all rfl) (by with_unfolding_all rfl) (by decide) rfl,
    cancelled_only_by_cancel_or_admin dbAB
      [(env0, .createOrder requestAB), (env1, .setOrderStatus adminUser 0 "shipped" none)]
      (env2, .setOrderStatus adminUser 0 "cancelled" none) 0
      { orderAB with
        status := .shipped
        statusHistory :=
          [{ status := .pending, date := 100, note := none },
           { status := .shipped, date := 200, note := none }]
        updatedAt := 200 }
      { orderAB with
        status := .cancelled
        statusHistory :=
          [{ status := .pending, date := 100, note := none },
           { status := .shipped, date := 200, note := none },
           { status := .cancelled, date := 300, note := none }]
        updatedAt := 300 }
      (by with_unfolding_all rfl) (by with_unfolding_all rfl) (by decide) rfl⟩

/-! ## Status history of an order -/

/-- C13, evaluated on the code.  Order 0 has status installation_scheduled and its history
ends with the installation_scheduled entry.  The administrator sets its installation to
"in_progress": the order's status becomes installation_in_progress, but the order is stored
with the same statusHistory, whose last entry still says installation_scheduled.  The
mirroring write goes through `findByIdAndUpdate`, which runs no `pre('save')` hook. -/
theorem mirrored_status_not_logged :
    dbScheduled.orders[0]? = some orderABScheduled ∧
    (setInstallationStatus env2 dbScheduled adminUser 0 "in_progress" none).1.orders[0]? =
      some { orderABScheduled with status := .installation_in_progress } ∧
    ({ orderABScheduled with status := .installation_in_progress } : Order).statusHistory =
      orderABScheduled.statusHistory ∧
    (orderABScheduled.statusHistory.getLast?).map (·.status) = some .installation_scheduled := by
  refine ⟨?_, ?_, rfl, ?_⟩ <;> with_unfolding_all rfl

/-! ## Payment status -/

/-- C14.  An administrator's setPaymentStatus leaves the equipment collection, the
installations and every other order as they were.  On an existing order it answers with the
stored order, which differs from the one before in the `paymentStatus` field at most (so
status, statusHistory, items and amounts are the same) and carries the requested value; on a
non-existent order it answers 404 "Order not found" and the database is unchanged. -/
theorem setPaymentStatus_frame (db : Db) (caller : User) (id : OrderId)
    (p : Option PaymentStatus) (hadmin : caller.role = .admin) :
    (setPaymentStatus db caller id p).1.equipment = db.equipment ∧
    (setPaymentStatus db caller id p).1.installations = db.installations ∧
    (∀ j, j ≠ id → (setPaymentStatus db caller id p).1.orders[j]? = db.orders[j]?) ∧
    (∀ o, db.orders[id]? = some o →
      ∃ o', (setPaymentStatus db caller id p).2 = .ok o' ∧
        (setPaymentStatus db caller id p).1.orders[id]? = some o' ∧
        o' = { o with paymentStatus := o'.paymentStatus } ∧
        (∀ v, p = some v → o'.paymentStatus = v) ∧ (p = none → o' = o)) ∧
    (db.orders[id]? = none →
      (setPaymentStatus db caller id p).2 = .error .orderNotFound ∧
      Failure.httpStatus .orderNotFound = 404 ∧
      (setPaymentStatus db caller id p).1 = db) := by
  have h1 : isAdmin caller = true := by simp [isAdmin, hadmin]
  cases ho : db.orders[id]? with
  | none =>
    have heq : setPaymentStatus db caller id p = (db, .error .orderNotFound) := by
      unfold setPaymentStatus
      rw [h1, ho]
      rfl
    rw [heq]
    refine ⟨rfl, rfl, fun _ _ => rfl, ?_, fun _ => ⟨rfl, rfl, rfl⟩⟩
    intro o h
    cases h
  | some order =>
    have hlt : id < db.orders.length := (List.getElem?_eq_some.mp ho).1
    cases p with
    | none =>
      have heq : setPaymentStatus db caller id none =
          ({ db with orders := db.orders.set id order }, .ok order) := by
        unfold setPaymentStatus
        rw [h1, ho]
        rfl
      rw [heq]
      refine ⟨rfl, rfl, fun j hj => List.getElem?_set_ne (Ne.symm hj), ?_, ?_⟩
      · intro o h
        cases h
        exact ⟨_, rfl, List.getElem?_set_self hlt, rfl, fun v hv => (by cases hv), fun _ => rfl⟩
      · intro h
        cases h
    | some v =>
      have heq : setPaymentStatus db caller id (some v) =
          ({ db with orders := db.orders.set id { order with paymentStatus := v } },
            .ok { order with paymentStatus := v }) := by
        unfold setPaymentStatus
        rw [h1, ho]
        rfl
      rw [heq]
      refine ⟨rfl, rfl, fun j hj => List.getElem?_set_ne (Ne.symm hj), ?_, ?_⟩
      · intro o h
        cases h
        refine ⟨_, rfl, List.getElem?_set_self hlt, rfl, ?_, fun h => (by cases h)⟩
        intro w hw
        cases hw
        rfl
      · intro h
        cases h

/-- C14 on the worked scenario: the administrator marks order 0 paid; the stored order is
the worked order with `paymentStatus = paid` and nothing else changed, and A and B keep their
stock. -/
theorem setPaymentStatus_frame_witness :
    ((setPaymentStatus dbPlaced adminUser 0 (some .paid)).1.equipment = dbPlaced.equipment ∧
      (setPaymentStatus dbPlaced adminUser 0 (some .paid)).1.installations =
        dbPlaced.installations ∧
      (∀ j, j ≠ 0 →
        (setPaymentStatus dbPlaced adminUser 0 (some .paid)).1.orders[j]? =
          dbPlaced.orders[j]?) ∧
      (∀ o, dbPlaced.orders[0]? = some o →
        ∃ o', (setPaymentStatus dbPlaced adminUser 0 (some .paid)).2 = .ok o' ∧
          (setPaymentStatus dbPlaced adminUser 0 (some .paid)).1.orders[0]? = some o' ∧
          o' = { o with paymentStatus := o'.paymentStatus } ∧
          (∀ v, some PaymentStatus.paid = some v → o'.paymentStatus = v) ∧
          (some PaymentStatus.paid = none → o' = o)) ∧
      (dbPlaced.orders[0]? = none →
        (setPaymentStatus dbPlaced adminUser 0 (some .paid)).2 = .error .orderNotFound ∧
        Failure.httpStatus .orderNotFound = 404 ∧
        (setPaymentStatus dbPlaced adminUser 0 (some .paid)).1 = dbPlaced)) ∧
    (setPaymentStatus dbPlaced adminUser 0 (some .paid)).2 =
      .ok { orderAB with paymentStatus := .paid } ∧
    (setPaymentStatus dbPlaced adminUser 5 (some .paid)).2 = .error .orderNotFound :=
  ⟨setPaymentStatus_frame dbPlaced adminUser 0 (some .paid) rfl,
    by with_unfolding_all rfl, by with_unfolding_all rfl⟩

/-! ## Scheduling an installation -/

/-- What `POST /api/installations` does for an administrator, an existing order and a body
that carries `teamId` and `scheduledDate`. -/
theorem schedule_ok (env : Env) (db : Db) (caller : User) (req : ScheduleRequest)
    (order : Order) (team : UserId) (date : Timestamp)
    (hadmin : caller.role = .admin) (ho : db.orders[req.orderId]? = some order)
    (hteam : req.teamId = some team) (hdate : req.scheduledDate = some date) :
    ∃ inst, schedule env db caller req =
        ({ db with
            installations := db.installations ++ [inst]
            orders := db.orders.set req.orderId
              (orderPreSave env (decide (order.status ≠ .installation_scheduled))
                { order with status := .installation_scheduled }) }, .ok inst) ∧
      inst.order = req.orderId ∧ inst.status = .scheduled ∧ inst.customer = order.user ∧
      inst.team = team ∧ inst.scheduledDate = date ∧
      inst.equipmentList = order.items.map (fun item =>
        { equipment := item.equipment, name := item.name, quantity := item.quantity,
          installationStatus := .pending }) ∧
      inst.statusHistory = [{ status := .scheduled, date := env.now, note := none,
                              updatedBy := none }] ∧
      inst.startTime = none ∧ inst.completedDate = none := by
  have h1 : isAdmin caller = true := by simp [isAdmin, hadmin]
  unfold schedule
  rw [h1, ho, hteam, hdate]
  exact ⟨_, rfl, rfl, rfl, rfl, rfl, rfl, rfl, rfl, rfl, rfl⟩

/-- C15.  For an administrator and a request carrying `teamId` and `scheduledDate`: when the
order exists, schedule answers with a new Installation, stored after the existing ones, whose
status is scheduled, whose customer is the order's user and whose equipmentList has one
pending entry per line item of the order, in order, with that line's equipment reference,
name and quantity; the order is stored with status installation_scheduled.  When the order
does not exist, schedule answers 404 "Order not found" and the database is unchanged. -/
theorem schedule_creates_installation (env : Env) (db : Db) (caller : User)
    (req : ScheduleRequest) (team : UserId) (date : Timestamp)
    (hadmin : caller.role = .admin)
    (hteam : req.teamId = some team) (hdate : req.scheduledDate = some date) :
    (∀ order, db.orders[req.orderId]? = some order →
      ∃ inst, (schedule env db caller req).2 = .ok inst ∧
        (schedule env db caller req).1.installations = db.installations ++ [inst] ∧
        inst.order = req.orderId ∧ inst.status = .scheduled ∧ inst.customer = order.user ∧
        inst.team = team ∧
        inst.equipmentList = order.items.map (fun item =>
          { equipment := item.equipment, name := item.name, quantity := item.quantity,
            installationStatus := .pending }) ∧
        (∃ o', (schedule env db caller req).1.orders[req.orderId]? = some o' ∧
          o'.status = .installation_scheduled ∧ o'.items = order.items) ∧
        (schedule env db caller req).1.equipment = db.equipment) ∧
    (db.orders[req.orderId]? = none →
      (schedule env db caller req).2 = .error .orderNotFound ∧
      Failure.httpStatus .orderNotFound = 404 ∧
      (schedule env db caller req).1 = db) := by
  constructor
  · intro order ho
    have hlt : req.orderId < db.orders.length := (List.getElem?_eq_some.mp ho).1
    obtain ⟨inst, heq, h1, h2, h3, h4, _, h6, _⟩ :=
      schedule_ok env db caller req order team date hadmin ho hteam hdate
    rw [heq]
    refine ⟨inst, rfl, rfl, h1, h2, h3, h4, h6, ⟨_, List.getElem?_set_self hlt, ?_, ?_⟩, rfl⟩
    · rw [orderPreSave_status]
    · exact (orderPreSave_sameTotals _ _ _).1
  · intro ho
    have h1 : isAdmin caller = true := by simp [isAdmin, hadmin]
    have heq : schedule env db caller req = (db, .error .orderNotFound) := by
      unfold schedule
      rw [h1, ho]
      rfl
    rw [heq]
    exact ⟨rfl, rfl, rfl⟩

/-- C15 on the worked scenario: the installation scheduled for order 0 lists A (quantity 2)
and B (quantity 1), both pending, for customer 7; a request for order 5, which does not
exist, is answered 404. -/
theorem schedule_creates_installation_witness :
    ((∀ order, dbPlaced.orders[scheduleAB.orderId]? = some order →
        ∃ inst, (schedule env1 dbPlaced adminUser scheduleAB).2 = .ok inst ∧
          (schedule env1 dbPlaced adminUser scheduleAB).1.installations =
            dbPlaced.installations ++ [inst] ∧
          inst.order = scheduleAB.orderId ∧ inst.status = .scheduled ∧
          inst.customer = order.user ∧ inst.team = 20 ∧
          inst.equipmentList = order.items.map (fun item =>
            { equipment := item.equipment, name := item.name, quantity := item.quantity,
              installationStatus := .pending }) ∧
          (∃ o', (schedule env1 dbPlaced adminUser scheduleAB).1.orders[scheduleAB.orderId]? =
              some o' ∧
            o'.status = .installation_scheduled ∧ o'.items = order.items) ∧
          (schedule env1 dbPlaced adminUser scheduleAB).1.equipment = dbPlaced.equipment) ∧
      (dbPlaced.orders[scheduleAB.orderId]? = none →
        (schedule env1 dbPlaced adminUser scheduleAB).2 = .error .orderNotFound ∧
        Failure.httpStatus .orderNotFound = 404 ∧
        (schedule env1 dbPlaced adminUser scheduleAB).1 = dbPlaced)) ∧
    (schedule env1 dbPlaced adminUser scheduleAB).2 = .ok installationAB ∧
    dbScheduled.orders[0]? = some orderABScheduled ∧
    (schedule env1 dbPlaced adminUser { scheduleAB with orderId := 5 }).2 =
      .error .orderNotFound :=
  ⟨schedule_creates_installation env1 dbPlaced adminUser scheduleAB 20 500 rfl rfl rfl,
    by with_unfolding_all rfl, by with_unfolding_all rfl, by with_unfolding_all rfl⟩

/-- C16 as stated fails: order 0 already has one installation; the administrator schedules
it again, the call succeeds, and two installations reference order 0. -/
theorem schedule_twice_two_installations :
    run dbAB [(env0, .createOrder requestAB), (env1, .schedule adminUser scheduleAB)] =
      dbScheduled ∧
    installationsOf dbScheduled 0 = 1 ∧
    (schedule env2 dbScheduled adminUser scheduleAB).2.toOption.map (·.order) = some 0 ∧
    installationsOf (schedule env2 dbScheduled adminUser scheduleAB).1 0 = 2 := by
  refine ⟨rfl, ?_, ?_, ?_⟩ <;> with_unfolding_all rfl

/-- C16, amended.  Schedule does not look for an existing Installation of the order: every
schedule call by an administrator for an existing order, with `teamId` and `scheduledDate`,
succeeds and leaves one more Installation referencing that order than before, also when the
order already had one. -/
theorem schedule_adds_installation (env : Env) (db : Db) (caller : User)
    (req : ScheduleRequest) (order : Order) (team : UserId) (date : Timestamp)
    (hadmin : caller.role = .admin) (ho : db.orders[req.orderId]? = some order)
    (hteam : req.teamId = some team) (hdate : req.scheduledDate = some date) :
    (∃ inst, (schedule env db caller req).2 = .ok inst ∧ inst.order = req.orderId) ∧
    installationsOf (schedule env db caller req).1 req.orderId =
      installationsOf db req.orderId + 1 := by
  obtain ⟨inst, heq, h1, _⟩ :=
    schedule_ok env db caller req order team date hadmin ho hteam hdate
  rw [heq]
  refine ⟨⟨inst, rfl, h1⟩, ?_⟩
  simp [installationsOf, List.filter_append, h1]

/-- C16 on the worked scenario: scheduling order 0 a second time takes the number of its
installations from 1 to 2. -/
theorem schedule_adds_installation_witness :
    installationsOf dbScheduled 0 = 1 ∧
    ((∃ inst, (schedule env2 dbScheduled adminUser scheduleAB).2 = .ok inst ∧
        inst.order = scheduleAB.orderId) ∧
      installationsOf (schedule env2 dbScheduled adminUser scheduleAB).1 scheduleAB.orderId =
        installationsOf dbScheduled scheduleAB.orderId + 1) :=
  ⟨by with_unfolding_all rfl,
    schedule_adds_installation env2 dbScheduled adminUser scheduleAB orderABScheduled 20 500
      rfl (by with_unfolding_all rfl) rfl rfl⟩

/-! ## Installation status writes -/

theorem mirrorOrderStatus_self (orders : List Order) (id : OrderId) (st : OrderStatus) :
    (mirrorOrderStatus orders id st)[id]? = (orders[id]?).map (fun o => { o with status := st }) := by
  unfold mirrorOrderStatus
  cases ho : orders[id]? with
  | none => simp [ho]
  | some o =>
    have hlt : id < orders.length := (List.getElem?_eq_some.mp ho).1
    simp [List.getElem?_set_self hlt]

theorem mirrorOrderStatus_other (orders : List Order) (id j : OrderId) (st : OrderStatus)
    (h : j ≠ id) : (mirrorOrderStatus orders id st)[j]? = orders[j]? := by
  unfold mirrorOrderStatus
  cases orders[id]? with
  | none => rfl
  | some o => exact List.getElem?_set_ne (Ne.symm h)

theorem installationPreSave_fields (env : Env) (m : Bool) (x : Installation) :
    (installationPreSave env m x).status = x.status ∧
    (installationPreSave env m x).equipmentList = x.equipmentList ∧
    (installationPreSave env m x).order = x.order ∧
    (installationPreSave env m x).team = x.team ∧
    (installationPreSave env m x).customer = x.customer := by
  unfold installationPreSave
  cases m
  · exact ⟨rfl, rfl, rfl, rfl, rfl⟩
  · simp only [if_true]
    split <;> split <;> exact ⟨rfl, rfl, rfl, rfl, rfl⟩

/-- What a 200 answer of `PUT /api/installations/:id/status` implies. -/
theorem setInstallationStatus_ok_inv (env : Env) (db : Db) (caller : User) (id : Nat)
    (status : String) (note : Option String) (x x' : Installation)
    (hx : db.installations[id]? = some x)
    (hok : (setInstallationStatus env db caller id status note).2 = .ok x') :
    ∃ st, parseInstallationStatus status = some st ∧
      x' = installationPreSave env (decide (st ≠ x.status))
        { x with
          status := st
          statusHistory := x.statusHistory ++
            [{ status := st, date := env.now, note := note, updatedBy := some caller.id }] } ∧
      (setInstallationStatus env db caller id status note).1.installations =
        db.installations.set id x' ∧
      (setInstallationStatus env db caller id status note).1.equipment = db.equipment ∧
      (setInstallationStatus env db caller id status note).1.orders =
        (if st = .in_progress then
          mirrorOrderStatus db.orders x.order .installation_in_progress
        else if st = .completed then mirrorOrderStatus db.orders x.order .completed
        else db.orders) := by
  unfold setInstallationStatus at hok ⊢
  rw [hx] at hok ⊢
  split at hok
  · cases hok
  · rename_i hgate
    simp only [hgate] at hok ⊢
    split at hok
    · cases hok
    · rename_i hassigned
      simp only [hassigned, if_false] at hok ⊢
      cases hp : parseInstallationStatus status with
      | none => rw [hp] at hok; cases hok
      | some st =>
        rw [hp] at hok
        simp only [Except.ok.injEq] at hok
        subst hok
        exact ⟨st, rfl, rfl, rfl, rfl, rfl⟩

/-- C17.  For an existing Installation X: a caller with role installation_team whose id is
not X's assigned team gets 403 "Not authorized to update this installation" from Installation
setStatus and the database is unchanged; a caller with role admin never gets that answer. -/
theorem setInstallationStatus_team_gate (env : Env) (db : Db) (id : Nat) (x : Installation)
    (hx : db.installations[id]? = some x) :
    (∀ (caller : User) (status : String) (note : Option String),
      caller.role = .installation_team → caller.id ≠ x.team →
      (setInstallationStatus env db caller id status note).2 = .error .notAssigned ∧
      Failure.httpStatus .notAssigned = 403 ∧
      (setInstallationStatus env db caller id status note).1 = db) ∧
    (∀ (caller : User) (status : String) (note : Option String),
      caller.role = .admin →
      (setInstallationStatus env db caller id status note).2 ≠ .error .notAssigned ∧
      (setInstallationStatus env db caller id status note).2 ≠ .error .teamOnly) := by
  constructor
  · intro caller status note hrole hid
    have hgate : isInstallationTeam caller = true := by simp [isInstallationTeam, hrole]
    have heq : setInstallationStatus env db caller id status note =
        (db, .error .notAssigned) := by
      unfold setInstallationStatus
      rw [hgate, hx]
      have hna : caller.role = .installation_team ∧ x.team ≠ caller.id :=
        ⟨hrole, fun h => hid h.symm⟩
      exact if_pos hna
    rw [heq]
    exact ⟨rfl, rfl, rfl⟩
  · intro caller status note hrole
    have hgate : isInstallationTeam caller = true := by simp [isInstallationTeam, hrole]
    have hna : ¬ (caller.role = .installation_team ∧ x.team ≠ caller.id) := by
      rintro ⟨h, _⟩
      rw [hrole] at h
      cases h
    unfold setInstallationStatus
    rw [hgate, hx]
    simp only [Bool.not_true, Bool.false_eq_true, if_false, hna]
    cases parseInstallationStatus status with
    | none => exact ⟨fun h => (by cases h), fun h => (by cases h)⟩
    | some st => exact ⟨fun h => (by cases h), fun h => (by cases h)⟩

/-- C17 on the worked scenario: team member 21 is refused on the installation assigned to
team member 20, and the installation and its order stay as they were. -/
theorem setInstallationStatus_team_gate_witness :
    ((∀ (caller : User) (status : String) (note : Option String),
        caller.role = .installation_team → caller.id ≠ installationAB.team →
        (setInstallationStatus env2 dbScheduled caller 0 status note).2 = .error .notAssigned ∧
        Failure.httpStatus .notAssigned = 403 ∧
        (setInstallationStatus env2 dbScheduled caller 0 status note).1 = dbScheduled) ∧
      (∀ (caller : User) (status : String) (note : Option String),
        caller.role = .admin →
        (setInstallationStatus env2 dbScheduled caller 0 status note).2 ≠ .error .notAssigned ∧
        (setInstallationStatus env2 dbScheduled caller 0 status note).2 ≠ .error .teamOnly)) ∧
    (setInstallationStatus env2 dbScheduled otherTeamUser 0 "in_progress" none).2 =
      .error .notAssigned ∧
    (setInstallationStatus env2 dbScheduled teamUser 0 "in_progress" none).2.toOption.map
      (·.status) = some .in_progress :=
  ⟨setInstallationStatus_team_gate env2 dbScheduled 0 installationAB
      (by with_unfolding_all rfl),
    by with_unfolding_all rfl, by with_unfolding_all rfl⟩

/-- C20.  After a successful Installation setStatus on installation X, the order that X
references is stored with status installation_in_progress when the new status is
in_progress and with status completed when it is completed, every other field of it and
every other order being as before; for scheduled, on_hold and cancelled the orders are
unchanged. -/
theorem setInstallationStatus_mirrors_order (env : Env) (db : Db) (caller : User) (id : Nat)
    (status : String) (note : Option String) (x x' : Installation)
    (hx : db.installations[id]? = some x)
    (hok : (setInstallationStatus env db caller id status note).2 = .ok x') :
    parseInstallationStatus status = some x'.status ∧
    (x'.status = .in_progress →
      (setInstallationStatus env db caller id status note).1.orders[x.order]? =
        (db.orders[x.order]?).map (fun o => { o with status := .installation_in_progress })) ∧
    (x'.status = .completed →
      (setInstallationStatus env db caller id status note).1.orders[x.order]? =
        (db.orders[x.order]?).map (fun o => { o with status := .completed })) ∧
    (x'.status ≠ .in_progress → x'.status ≠ .completed →
      (setInstallationStatus env db caller id status note).1.orders = db.orders) ∧
    (∀ j, j ≠ x.order →
      (setInstallationStatus env db caller id status note).1.orders[j]? = db.orders[j]?) := by
  obtain ⟨st, hp, hx', _, _, horders⟩ :=
    setInstallationStatus_ok_inv env db caller id status note x x' hx hok
  have hst : x'.status = st := by
    rw [hx']
    exact (installationPreSave_fields _ _ _).1
  rw [horders, hst]
  refine ⟨hp, ?_, ?_, ?_, ?_⟩
  · intro h
    rw [if_pos h]
    exact mirrorOrderStatus_self _ _ _
  · intro h
    rw [if_neg (by rw [h]; decide), if_pos h]
    exact mirrorOrderStatus_self _ _ _
  · intro h1 h2
    rw [if_neg h1, if_neg h2]
  · intro j hj
    split
    · exact mirrorOrderStatus_other _ _ _ _ hj
    · split
      · exact mirrorOrderStatus_other _ _ _ _ hj
      · rfl

/-- C20 on the worked scenario: the assigned team member sets the installation of order 0 to
in_progress and order 0 is stored with status installation_in_progress. -/
theorem setInstallationStatus_mirrors_order_witness :
    (parseInstallationStatus "in_progress" = some InstallationStatus.in_progress ∧
      (InstallationStatus.in_progress = .in_progress →
        (setInstallationStatus env2 dbScheduled teamUser 0 "in_progress" none).1.orders[
            installationAB.order]? =
          (dbScheduled.orders[installationAB.order]?).map
            (fun o => { o with status := .installation_in_progress })) ∧
      (InstallationStatus.in_progress = .completed →
        (setInstallationStatus env2 dbScheduled teamUser 0 "in_progress" none).1.orders[
            installationAB.order]? =
          (dbScheduled.orders[installationAB.order]?).map
            (fun o => { o with status := .completed })) ∧
      (InstallationStatus.in_progress ≠ .in_progress →
        InstallationStatus.in_progress ≠ .completed →
        (setInstallationStatus env2 dbScheduled teamUser 0 "in_progress" none).1.orders =
          dbScheduled.orders) ∧
      (∀ j, j ≠ installationAB.order →
        (setInstallationStatus env2 dbScheduled teamUser 0 "in_progress" none).1.orders[j]? =
          dbScheduled.orders[j]?)) ∧
    ((setInstallationStatus env2 dbScheduled teamUser 0 "in_progress" none).1.orders[0]?).map
      (·.status) = some .installation_in_progress ∧
    ((setInstallationStatus env2 dbScheduled teamUser 0 "on_hold" none).1.orders[0]?).map
      (·.status) = some .installation_scheduled :=
  ⟨setInstallationStatus_mirrors_order env2 dbScheduled teamUser 0 "in_progress" none
      installationAB
      { installationAB with
        status := .in_progress
        statusHistory :=
          [{ status := .scheduled, date := 200, note := none, updatedBy := none },
           { status := .in_progress, date := 300, note := none, updatedBy := some 20 },
           { status := .in_progress, date := 300, note := none, updatedBy := none }]
        startTime := some 300
        updatedAt := 300 }
      (by with_unfolding_all rfl) (by with_unfolding_all rfl),
    by with_unfolding_all rfl, by with_unfolding_all rfl⟩

/-! ## Per-item installation status -/

/-- What a 200 answer of `PUT /api/installations/:id/equipment-status` implies: the status
parsed, some entry matched, and either every entry is now completed and the installation was
saved a second time as completed with the order mirrored, or not and only the first save
happened. -/
theorem setEquipmentItemStatus_ok_inv (env : Env) (db : Db) (caller : User) (id : Nat)
    (equipmentId : EquipId) (status : String) (x x' : Installation)
    (hx : db.installations[id]? = some x)
    (hok : (setEquipmentItemStatus env db caller id equipmentId status).2 = .ok x') :
    ∃ st, parseItemStatus status = some st ∧
      equipmentId ∈ x.equipmentList.map (·.equipment) ∧
      (setEquipmentItemStatus env db caller id equipmentId status).1.installations =
        db.installations.set id x' ∧
      (setEquipmentItemStatus env db caller id equipmentId status).1.equipment = db.equipment ∧
      ((allCompleted (setFirstMatching equipmentId st x.equipmentList) = true ∧
          x' = installationPreSave env (decide (x.status ≠ .completed))
            { installationPreSave env false
                { x with equipmentList := setFirstMatching equipmentId st x.equipmentList } with
              status := .completed } ∧
          (setEquipmentItemStatus env db caller id equipmentId status).1.orders =
            mirrorOrderStatus db.orders x.order .completed) ∨
        (allCompleted (setFirstMatching equipmentId st x.equipmentList) = false ∧
          x' = installationPreSave env false
            { x with equipmentList := setFirstMatching equipmentId st x.equipmentList } ∧
          (setEquipmentItemStatus env db caller id equipmentId status).1.orders = db.orders)) := by
  unfold setEquipmentItemStatus at hok ⊢
  rw [hx] at hok ⊢
  split at hok
  · cases hok
  · rename_i hgate
    simp only [hgate] at hok ⊢
    cases hf : x.equipmentList.find? (fun e => decide (e.equipment = equipmentId)) with
    | none => rw [hf] at hok; cases hok
    | some e =>
      have hmem : equipmentId ∈ x.equipmentList.map (·.equipment) := by
        have h1 := List.mem_of_find?_eq_some hf
        have h2 := List.find?_some hf
        exact List.mem_map.mpr ⟨e, h1, of_decide_eq_true h2⟩
      rw [hf] at hok
      cases hp : parseItemStatus status with
      | none => rw [hp] at hok; cases hok
      | some st =>
        rw [hp] at hok
        simp only at hok ⊢
        cases hall : allCompleted (setFirstMatching equipmentId st x.equipmentList) with
        | true =>
          have hall' : (installationPreSave env false
              { x with equipmentList := setFirstMatching equipmentId st x.equipmentList }
              ).equipmentList.all (fun e => decide (e.installationStatus = .completed)) = true :=
            hall
          rw [if_pos hall'] at hok ⊢
          simp only [Except.ok.injEq] at hok
          subst hok
          exact ⟨st, rfl, hmem, rfl, rfl, Or.inl ⟨hall, rfl, rfl⟩⟩
        | false =>
          have hall' : ¬ ((installationPreSave env false
              { x with equipmentList := setFirstMatching equipmentId st x.equipmentList }
              ).equipmentList.all (fun e => decide (e.installationStatus = .completed)) = true) := by
            intro h
            have h' : allCompleted (setFirstMatching equipmentId st x.equipmentList) = true := h
            rw [hall] at h'
            cases h'
          rw [if_neg hall'] at hok ⊢
          simp only [Except.ok.injEq] at hok
          subst hok
          exact ⟨st, rfl, hmem, rfl, rfl, Or.inr ⟨hall, rfl, rfl⟩⟩

theorem installationPreSave_completed (env : Env) (x : Installation)
    (h : x.status = .completed) :
    (installationPreSave env true x).completedDate = some env.now := by
  unfold installationPreSave
  simp [h]

theorem installationPreSave_unmodified (env : Env) (x : Installation) :
    installationPreSave env false x = { x with updatedAt := env.now } := rfl

/-- With pairwise distinct equipment references, every entry is completed after the update
exactly when the new status is completed and every entry other than the addressed one was
completed already. -/
theorem allCompleted_setFirstMatching (equipmentId : EquipId) (st : ItemStatus)
    (l : List EquipmentEntry) (hmem : equipmentId ∈ l.map (·.equipment))
    (hnd : (l.map (·.equipment)).Nodup) :
    allCompleted (setFirstMatching equipmentId st l) = true ↔
      st = .completed ∧
        ∀ e ∈ l, e.equipment ≠ equipmentId → e.installationStatus = .completed := by
  induction l with
  | nil => simp at hmem
  | cons e rest ih =>
    simp only [List.map_cons, List.nodup_cons] at hnd
    by_cases he : e.equipment = equipmentId
    · have hrest : ∀ e' ∈ rest, e'.equipment ≠ equipmentId := by
        intro e' he' heq
        exact hnd.1 (he ▸ heq ▸ List.mem_map_of_mem (·.equipment) he')
      simp only [setFirstMatching, he, if_true, allCompleted, List.all_cons, Bool.and_eq_true,
        decide_eq_true_eq, List.all_eq_true, List.mem_cons, forall_eq_or_imp, ne_eq,
        not_true_eq_false, false_implies, true_and]
      constructor
      · rintro ⟨h1, h2⟩
        exact ⟨h1, fun a ha _ => h2 a ha⟩
      · rintro ⟨h1, h2⟩
        exact ⟨h1, fun a ha => h2 a ha (hrest a ha)⟩
    · have hmem' : equipmentId ∈ rest.map (·.equipment) := by
        simp only [List.map_cons, List.mem_cons] at hmem
        rcases hmem with h | h
        · exact absurd h.symm he
        · exact h
      have ih' := ih hmem' hnd.2
      simp only [allCompleted, List.all_eq_true, decide_eq_true_eq] at ih'
      simp only [setFirstMatching, he, if_false, allCompleted, List.all_cons, Bool.and_eq_true,
        decide_eq_true_eq, List.all_eq_true, List.mem_cons, forall_eq_or_imp, ne_eq,
        not_false_eq_true, true_implies]
      rw [ih']
      constructor
      · rintro ⟨h1, h2, h3⟩
        exact ⟨h2, h1, h3⟩
      · rintro ⟨h1, h2, h3⟩
        exact ⟨h2, h1, h3⟩

/-- C19.  For an Installation X with pairwise distinct equipment references and a status
other than completed, after a successful setEquipmentItemStatus call the stored X has the
first entry naming `equipmentId` set to the requested status, and its status is completed
exactly when every entry is then completed, that is, when the requested status is completed
and every other entry was completed already.  In that case `completedDate` is the clock of
the call and the order that X references is stored with status completed; otherwise X's
status and `completedDate` and all orders are as before. -/
theorem setEquipmentItemStatus_completion (env : Env) (db : Db) (caller : User) (id : Nat)
    (equipmentId : EquipId) (status : String) (x x' : Installation)
    (hx : db.installations[id]? = some x)
    (hdistinct : (x.equipmentList.map (·.equipment)).Nodup)
    (hnc : x.status ≠ .completed)
    (hok : (setEquipmentItemStatus env db caller id equipmentId status).2 = .ok x') :
    (setEquipmentItemStatus env db caller id equipmentId status).1.installations[id]? =
      some x' ∧
    (∃ st, parseItemStatus status = some st ∧
      x'.equipmentList = setFirstMatching equipmentId st x.equipmentList ∧
      (allCompleted x'.equipmentList = true ↔
        st = .completed ∧
          ∀ e ∈ x.equipmentList, e.equipment ≠ equipmentId →
            e.installationStatus = .completed)) ∧
    (x'.status = .completed ↔ allCompleted x'.equipmentList = true) ∧
    (allCompleted x'.equipmentList = true →
      x'.completedDate = some env.now ∧
      (setEquipmentItemStatus env db caller id equipmentId status).1.orders[x.order]? =
        (db.orders[x.order]?).map (fun o => { o with status := .completed }) ∧
      ∀ j, j ≠ x.order →
        (setEquipmentItemStatus env db caller id equipmentId status).1.orders[j]? =
          db.orders[j]?) ∧
    (allCompleted x'.equipmentList = false →
      x'.status = x.status ∧ x'.completedDate = x.completedDate ∧
      (setEquipmentItemStatus env db caller id equipmentId status).1.orders = db.orders) := by
  have hlt : id < db.installations.length := (List.getElem?_eq_some.mp hx).1
  obtain ⟨st, hp, hmem, hinst, _, hcase⟩ :=
    setEquipmentItemStatus_ok_inv env db caller id equipmentId status x x' hx hok
  have hchar := allCompleted_setFirstMatching equipmentId st x.equipmentList hmem hdistinct
  have hmod : decide (x.status ≠ InstallationStatus.completed) = true := decide_eq_true hnc
  rw [hinst]
  rcases hcase with ⟨hall, hx', horders⟩ | ⟨hall, hx', horders⟩
  · rw [hmod] at hx'
    have hlist : x'.equipmentList = setFirstMatching equipmentId st x.equipmentList := by
      rw [hx']; exact (installationPreSave_fields _ _ _).2.1
    have hstatus : x'.status = .completed := by
      rw [hx']; exact (installationPreSave_fields _ _ _).1
    have hdate : x'.completedDate = some env.now := by
      rw [hx']; exact installationPreSave_completed _ _ rfl
    rw [horders, hlist]
    refine ⟨List.getElem?_set_self hlt, ⟨st, hp, rfl, hchar⟩, ?_, ?_, ?_⟩
    · exact ⟨fun _ => hall, fun _ => hstatus⟩
    · intro _
      exact ⟨hdate, mirrorOrderStatus_self _ _ _,
        fun j hj => mirrorOrderStatus_other _ _ _ _ hj⟩
    · intro hf
      rw [hall] at hf
      cases hf
  · have hlist : x'.equipmentList = setFirstMatching equipmentId st x.equipmentList := by
      rw [hx']; rfl
    have hstatus : x'.status = x.status := by rw [hx']; rfl
    have hdate : x'.completedDate = x.completedDate := by rw [hx']; rfl
    rw [horders, hlist]
    refine ⟨List.getElem?_set_self hlt, ⟨st, hp, rfl, hchar⟩, ?_, ?_, ?_⟩
    · constructor
      · intro h
        rw [hstatus] at h
        exact absurd h hnc
      · intro h
        rw [hall] at h
        cases h
    · intro h
      rw [hall] at h
      cases h
    · intro _
      exact ⟨hstatus, hdate, rfl⟩

/-- C19 on the worked scenario: A is already completed; the assigned team member marks B,
the last pending entry, completed at clock 400; the installation becomes completed with
`completedDate = 400` and order 0 is stored with status completed.  Marking A alone, before,
left the installation scheduled. -/
theorem setEquipmentItemStatus_completion_witness :
    ((setEquipmentItemStatus env3 dbOneDone teamUser 0 2 "completed").1.installations[0]? =
        some installationAllDone ∧
      (∃ st, parseItemStatus "completed" = some st ∧
        installationAllDone.equipmentList =
          setFirstMatching 2 st installationOneDone.equipmentList ∧
        (allCompleted installationAllDone.equipmentList = true ↔
          st = .completed ∧
            ∀ e ∈ installationOneDone.equipmentList, e.equipment ≠ 2 →
              e.installationStatus = .completed)) ∧
      (installationAllDone.status = .completed ↔
        allCompleted installationAllDone.equipmentList = true) ∧
      (allCompleted installationAllDone.equipmentList = true →
        installationAllDone.completedDate = some env3.now ∧
        (setEquipmentItemStatus env3 dbOneDone teamUser 0 2 "completed").1.orders[
            installationOneDone.order]? =
          (dbOneDone.orders[installationOneDone.order]?).map
            (fun o => { o with status := .completed }) ∧
        ∀ j, j ≠ installationOneDone.order →
          (setEquipmentItemStatus env3 dbOneDone teamUser 0 2 "completed").1.orders[j]? =
            dbOneDone.orders[j]?) ∧
      (allCompleted installationAllDone.equipmentList = false →
        installationAllDone.status = installationOneDone.status ∧
        installationAllDone.completedDate = installationOneDone.completedDate ∧
        (setEquipmentItemStatus env3 dbOneDone teamUser 0 2 "completed").1.orders =
          dbOneDone.orders)) ∧
    dbOneDone.installations[0]? = some installationOneDone ∧
    dbOneDone.orders[0]? = some orderABScheduled ∧
    ((setEquipmentItemStatus env3 dbOneDone teamUser 0 2 "completed").1.orders[0]?).map
      (·.status) = some .completed :=
  ⟨setEquipmentItemStatus_completion env3 dbOneDone teamUser 0 2 "completed"
      installationOneDone installationAllDone (by with_unfolding_all rfl) (by decide)
      (by decide) (by with_unfolding_all rfl),
    by with_unfolding_all rfl, by with_unfolding_all rfl, by with_unfolding_all rfl⟩

/-! ## Installation status against the equipment list -/

theorem parseInstallationStatus_name (st : InstallationStatus) :
    parseInstallationStatus st.name = some st := by
  cases st <;> decide

/-- C18 as stated fails.  After "create the worked order, schedule its installation, the
administrator sets the installation to completed", the installation has status completed
while both of its entries are still pending. -/
theorem setInstallationStatus_completed_with_pending_entries :
    ((run dbAB
        [(env0, .createOrder requestAB), (env1, .schedule adminUser scheduleAB),
         (env2, .setInstallationStatus adminUser 0 "completed" none)]).installations[0]?).map
      (fun x => (x.status, x.equipmentList.map (·.installationStatus))) =
      some (.completed, [.pending, .pending]) ∧
    ((run dbAB
        [(env0, .createOrder requestAB), (env1, .schedule adminUser scheduleAB),
         (env2, .setInstallationStatus adminUser 0 "completed" none)]).installations[0]?).map
      (fun x => allCompleted x.equipmentList) = some false := by
  constructor <;> with_unfolding_all rfl

/-- C18, amended.  For an existing Installation X: immediately after a successful
setEquipmentItemStatus call the stored X has status completed whenever every entry of its
equipmentList is completed.  Installation setStatus does not look at the equipmentList: for
every status of the enumeration an administrator's call succeeds and stores X with that
status and with the entries as they were, and every successful call stores the requested
status; so the status can be completed while entries are pending or in progress. -/
theorem installation_status_rule (env : Env) (db : Db) (id : Nat) (x : Installation)
    (hx : db.installations[id]? = some x) :
    (∀ (caller : User) (equipmentId : EquipId) (status : String) (x' : Installation),
      (setEquipmentItemStatus env db caller id equipmentId status).2 = .ok x' →
      (setEquipmentItemStatus env db caller id equipmentId status).1.installations[id]? =
        some x' ∧
      (allCompleted x'.equipmentList = true → x'.status = .completed)) ∧
    (∀ (caller : User) (status : String) (note : Option String) (x' : Installation),
      (setInstallationStatus env db caller id status note).2 = .ok x' →
      (setInstallationStatus env db caller id status note).1.installations[id]? = some x' ∧
      parseInstallationStatus status = some x'.status ∧
      x'.equipmentList = x.equipmentList) ∧
    (∀ (caller : User) (st : InstallationStatus) (note : Option String),
      caller.role = .admin →
      ∃ x', (setInstallationStatus env db caller id st.name note).2 = .ok x' ∧
        x'.status = st ∧ x'.equipmentList = x.equipmentList) := by
  have hlt : id < db.installations.length := (List.getElem?_eq_some.mp hx).1
  refine ⟨?_, ?_, ?_⟩
  · intro caller equipmentId status x' hok
    obtain ⟨st, _, _, hinst, _, hcase⟩ :=
      setEquipmentItemStatus_ok_inv env db caller id equipmentId status x x' hx hok
    rw [hinst]
    refine ⟨List.getElem?_set_self hlt, ?_⟩
    rcases hcase with ⟨_, hx', _⟩ | ⟨hall, hx', _⟩
    · intro _
      rw [hx']
      exact (installationPreSave_fields _ _ _).1
    · intro h
      have hlist : x'.equipmentList = setFirstMatching equipmentId st x.equipmentList := by
        rw [hx']; rfl
      rw [hlist, hall] at h
      cases h
  · intro caller status note x' hok
    obtain ⟨st, hp, hx', hinst, _, _⟩ :=
      setInstallationStatus_ok_inv env db caller id status note x x' hx hok
    rw [hinst]
    refine ⟨List.getElem?_set_self hlt, ?_, ?_⟩
    · rw [hp, hx', (installationPreSave_fields _ _ _).1]
    · rw [hx', (installationPreSave_fields _ _ _).2.1]
  · intro caller st note hrole
    have hgate : isInstallationTeam caller = true := by simp [isInstallationTeam, hrole]
    have hna : ¬ (caller.role = .installation_team ∧ x.team ≠ caller.id) := by
      rintro ⟨h, _⟩
      rw [hrole] at h
      cases h
    have heq : (setInstallationStatus env db caller id st.name note).2 =
        .ok (installationPreSave env (decide (st ≠ x.status))
          { x with
            status := st
            statusHistory := x.statusHistory ++
              [{ status := st, date := env.now, note := note, updatedBy := some caller.id }] }) := by
      unfold setInstallationStatus
      rw [hgate, hx, parseInstallationStatus_name]
      simp only [Bool.not_true, Bool.false_eq_true, if_false, hna]
    exact ⟨_, heq, (installationPreSave_fields _ _ _).1, (installationPreSave_fields _ _ _).2.1⟩

/-- C18 on the worked scenario: on the freshly scheduled installation of order 0, the
administrator's setStatus "completed" is stored although A and B are pending, while the item
route reaches completed only once B, the last entry, is marked completed. -/
theorem installation_status_rule_witness :
    ((∀ (caller : User) (equipmentId : EquipId) (status : String) (x' : Installation),
        (setEquipmentItemStatus env2 dbScheduled caller 0 equipmentId status).2 = .ok x' →
        (setEquipmentItemStatus env2 dbScheduled caller 0 equipmentId status).1.installations[0]? =
          some x' ∧
        (allCompleted x'.equipmentList = true → x'.status = .completed)) ∧
      (∀ (caller : User) (status : String) (note : Option String) (x' : Installation),
        (setInstallationStatus env2 dbScheduled caller 0 status note).2 = .ok x' →
        (setInstallationStatus env2 dbScheduled caller 0 status note).1.installations[0]? =
          some x' ∧
        parseInstallationStatus status = some x'.status ∧
        x'.equipmentList = installationAB.equipmentList) ∧
      (∀ (caller : User) (st : InstallationStatus) (note : Option String),
        caller.role = .admin →
        ∃ x', (setInstallationStatus env2 dbScheduled caller 0 st.name note).2 = .ok x' ∧
          x'.status = st ∧ x'.equipmentList = installationAB.equipmentList)) ∧
    (setInstallationStatus env2 dbScheduled adminUser 0 "completed" none).2.toOption.map
      (fun x => (x.status, allCompleted x.equipmentList)) = some (.completed, false) ∧
    (setEquipmentItemStatus env3 dbOneDone teamUser 0 2 "completed").2.toOption.map
      (fun x => (x.status, allCompleted x.equipmentList)) = some (.completed, true) :=
  ⟨installation_status_rule env2 dbScheduled 0 installationAB (by with_unfolding_all rfl),
    by with_unfolding_all rfl, by with_unfolding_all rfl⟩

/-! ## The time stamps of an installation -/

theorem installationMoves_refl (l : List Installation)
    (rel : Installation → Installation → Prop) : InstallationMoves l l rel := by
  intro i x x' h h'
  rw [h] at h'
  cases h'
  exact Or.inl rfl

theorem installationMoves_set {l : List Installation} {id : Nat} {x y : Installation}
    {rel : Installation → Installation → Prop}
    (h : l[id]? = some x) (hy : rel x y) : InstallationMoves l (l.set id y) rel := by
  intro i a a' ha ha'
  by_cases hi : id = i
  · subst hi
    have hlt : id < l.length := (List.getElem?_eq_some.mp h).1
    rw [List.getElem?_set_self hlt] at ha'
    rw [h] at ha
    cases ha
    cases ha'
    exact Or.inr hy
  · rw [List.getElem?_set_ne hi, ha] at ha'
    cases ha'
    exact Or.inl rfl

theorem installationMoves_append (l extra : List Installation)
    (rel : Installation → Installation → Prop) : InstallationMoves l (l ++ extra) rel := by
  intro i x x' h h'
  have hlt : i < l.length := (List.getElem?_eq_some.mp h).1
  rw [List.getElem?_append_left hlt, h] at h'
  cases h'
  exact Or.inl rfl

theorem stampRule_same (now : Timestamp) (x : Installation) : stampRule now x x :=
  ⟨fun _ h => h, fun _ h1 h2 => absurd h2 h1, fun h _ => h, fun h1 h2 => absurd h2 h1⟩

theorem installationPreSave_startTime (env : Env) (y : Installation) :
    (installationPreSave env true y).startTime =
      if y.status = .in_progress ∧ y.startTime = none then some env.now else y.startTime := by
  unfold installationPreSave
  by_cases hc : y.status = .completed
  · have hip : ¬ (y.status = .in_progress) := by rw [hc]; decide
    simp [hc, hip]
  · by_cases hip : y.status = .in_progress ∧ y.startTime = none
    · simp [hc, hip]
    · simp only [if_true, hc, if_false, hip]

theorem installationPreSave_completedDate (env : Env) (y : Installation) :
    (installationPreSave env true y).completedDate =
      if y.status = .completed then some env.now else y.completedDate := by
  unfold installationPreSave
  by_cases hc : y.status = .completed
  · have hip : ¬ (y.status = .in_progress) := by rw [hc]; decide
    simp [hc, hip]
  · by_cases hip : y.status = .in_progress ∧ y.startTime = none
    · simp [hc, hip]
    · simp only [if_true, hc, if_false, hip]

/-- The `pre('save')` hook obeys the stamping rule whenever `statusModified` is true exactly
when the status differs from the loaded one and the route itself left `startTime` alone. -/
theorem stampRule_preSave (env : Env) (m : Bool) (x y : Installation)
    (hm : m = true ↔ y.status ≠ x.status) (hs : y.startTime = x.startTime) :
    stampRule env.now x (installationPreSave env m y) := by
  have hstatus : (installationPreSave env m y).status = y.status :=
    (installationPreSave_fields env m y).1
  cases m with
  | false =>
    have heq : y.status = x.status := by
      by_contra h
      exact Bool.false_ne_true (hm.mpr h)
    refine ⟨?_, ?_, ?_, ?_⟩
    · intro t ht
      show y.startTime = some t
      rw [hs, ht]
    · intro _ h1 h2
      rw [hstatus, heq] at h2
      exact absurd h2 h1
    · intro h _
      show y.startTime = none
      rw [hs, h]
    · intro h1 h2
      rw [hstatus, heq] at h2
      exact absurd h2 h1
  | true =>
    have hne : y.status ≠ x.status := hm.mp rfl
    refine ⟨?_, ?_, ?_, ?_⟩
    · intro t ht
      have hy : y.startTime = some t := by rw [hs, ht]
      rw [installationPreSave_startTime, if_neg, hy]
      rintro ⟨_, h⟩
      rw [hy] at h
      cases h
    · intro h0 _ h2
      rw [hstatus] at h2
      have hy : y.startTime = none := by rw [hs, h0]
      rw [installationPreSave_startTime, if_pos ⟨h2, hy⟩]
    · intro h0 hn
      rw [hstatus] at hn
      have hy : y.startTime = none := by rw [hs, h0]
      rw [installationPreSave_startTime, if_neg, hy]
      rintro ⟨hip, _⟩
      exact hn ⟨fun hx => hne (by rw [hip, hx]), hip⟩
    · intro _ h2
      rw [hstatus] at h2
      rw [installationPreSave_completedDate, if_pos h2]

theorem stampRule_of_untouched (now : Timestamp) (x x' : Installation)
    (h1 : x'.status = x.status) (h2 : x'.startTime = x.startTime) : stampRule now x x' := by
  refine ⟨?_, ?_, ?_, ?_⟩
  · intro t ht
    rw [h2, ht]
  · intro _ ha hb
    rw [h1] at hb
    exact absurd hb ha
  · intro h _
    rw [h2, h]
  · intro ha hb
    rw [h1] at hb
    exact absurd hb ha

theorem createOrder_installations (env : Env) (db : Db) (req : OrderRequest) :
    (createOrder env db req).1.installations = db.installations := by
  by_cases hne : req.items = []
  · rw [createOrder_nil env db req hne]
  · rcases hp : processItems db.equipment 0 [] req.items with ⟨s, f | ⟨total, lines⟩⟩
    · rw [createOrder_of_loop_error env db req s f hne hp]
    · rw [createOrder_of_loop_ok env db req s total lines hne hp]
      cases Order.create env db.orders (draftOf req total lines) <;> rfl

theorem setOrderStatus_installations (env : Env) (db : Db) (caller : User) (id : OrderId)
    (status : String) (note : Option String) :
    (setOrderStatus env db caller id status note).1.installations = db.installations := by
  unfold setOrderStatus
  split
  · rfl
  · split
    · rfl
    · split <;> rfl

theorem setPaymentStatus_installations (db : Db) (caller : User) (id : OrderId)
    (p : Option PaymentStatus) :
    (setPaymentStatus db caller id p).1.installations = db.installations := by
  unfold setPaymentStatus
  split
  · rfl
  · split <;> rfl

theorem cancelOrder_installations (env : Env) (db : Db) (caller : User) (id : OrderId) :
    (cancelOrder env db caller id).1.installations = db.installations := by
  unfold cancelOrder
  split
  · rfl
  · split
    · rfl
    · split <;> rfl

theorem updateStock_installations (db : Db) (caller : User) (id : EquipId) (stock : Option ℤ) :
    (updateStock db caller id stock).1.installations = db.installations := by
  unfold updateStock
  split
  · rfl
  · split
    · rfl
    · split
      · rfl
      · split <;> rfl

theorem schedule_installationMoves (env : Env) (db : Db) (caller : User)
    (req : ScheduleRequest) (rel : Installation → Installation → Prop) :
    InstallationMoves db.installations (schedule env db caller req).1.installations rel := by
  unfold schedule
  split
  · exact installationMoves_refl _ _
  · split
    · exact installationMoves_refl _ _
    · split
      · exact installationMoves_append _ _ _
      · exact installationMoves_refl _ _

theorem setInstallationStatus_installationMoves (env : Env) (db : Db) (caller : User)
    (id : Nat) (status : String) (note : Option String) :
    InstallationMoves db.installations
      (setInstallationStatus env db caller id status note).1.installations
      (stampRule env.now) := by
  unfold setInstallationStatus
  split
  · exact installationMoves_refl _ _
  · split
    · exact installationMoves_refl _ _
    · rename_i x hx
      split
      · exact installationMoves_refl _ _
      · split
        · exact installationMoves_refl _ _
        · rename_i st _
          refine installationMoves_set hx (stampRule_preSave env _ x _ ?_ rfl)
          simp

theorem setEquipmentItemStatus_installationMoves (env : Env) (db : Db) (caller : User)
    (id : Nat) (equipmentId : EquipId) (status : String) :
    InstallationMoves db.installations
      (setEquipmentItemStatus env db caller id equipmentId status).1.installations
      (stampRule env.now) := by
  unfold setEquipmentItemStatus
  split
  · exact installationMoves_refl _ _
  · split
    · exact installationMoves_refl _ _
    · rename_i x hx
      split
      · exact installationMoves_refl _ _
      · split
        · exact installationMoves_refl _ _
        · simp only
          split
          · refine installationMoves_set hx (stampRule_preSave env _ x _ ?_ rfl)
            simp only [decide_eq_true_eq]
            exact ⟨fun h hc => h hc.symm, fun h hc => h hc.symm⟩
          · exact installationMoves_set hx (stampRule_of_untouched _ _ _ rfl rfl)

theorem setTeamNotes_installationMoves (db : Db) (caller : User) (id : Nat)
    (notes : Option String) (now : Timestamp) :
    InstallationMoves db.installations (setTeamNotes db caller id notes).1.installations
      (stampRule now) := by
  unfold setTeamNotes
  split
  · exact installationMoves_refl _ _
  · split
    · exact installationMoves_refl _ _
    · rename_i x hx
      refine installationMoves_set hx (stampRule_of_untouched _ _ _ ?_ ?_) <;>
        cases notes <;> rfl

theorem setCustomerFeedback_installationMoves (env : Env) (db : Db) (caller : User) (id : Nat)
    (rating : Option ℤ) (comment : Option String) :
    InstallationMoves db.installations
      (setCustomerFeedback env db caller id rating comment).1.installations
      (stampRule env.now) := by
  unfold setCustomerFeedback
  split
  · exact installationMoves_refl _ _
  · rename_i x hx
    split
    · exact installationMoves_refl _ _
    · split
      · exact installationMoves_refl _ _
      · split
        · split
          · exact installationMoves_refl _ _
          · exact installationMoves_set hx (stampRule_of_untouched _ _ _ rfl rfl)
        · exact installationMoves_set hx (stampRule_of_untouched _ _ _ rfl rfl)

/-- Every request treats the installations it leaves stored by the stamping rule, at the
clock of the request. -/
theorem step_installationMoves (db : Db) (r : Env × Op) :
    InstallationMoves db.installations (step db r).installations (stampRule r.1.now) := by
  obtain ⟨env, op⟩ := r
  cases op with
  | createOrder req =>
    show InstallationMoves _ (createOrder env db req).1.installations _
    rw [createOrder_installations]
    exact installationMoves_refl _ _
  | setOrderStatus caller id status note =>
    show InstallationMoves _ (setOrderStatus env db caller id status note).1.installations _
    rw [setOrderStatus_installations]
    exact installationMoves_refl _ _
  | setPaymentStatus caller id p =>
    show InstallationMoves _ (setPaymentStatus db caller id p).1.installations _
    rw [setPaymentStatus_installations]
    exact installationMoves_refl _ _
  | cancel caller id =>
    show InstallationMoves _ (cancelOrder env db caller id).1.installations _
    rw [cancelOrder_installations]
    exact installationMoves_refl _ _
  | updateStock caller id stock =>
    show InstallationMoves _ (updateStock db caller id stock).1.installations _
    rw [updateStock_installations]
    exact installationMoves_refl _ _
  | schedule caller req => exact schedule_installationMoves env db caller req _
  | setInstallationStatus caller id status note =>
    exact setInstallationStatus_installationMoves env db caller id status note
  | setEquipmentItemStatus caller id equipmentId status =>
    exact setEquipmentItemStatus_installationMoves env db caller id equipmentId status
  | setTeamNotes caller id notes => exact setTeamNotes_installationMoves db caller id notes _
  | setCustomerFeedback caller id rating comment =>
    exact setCustomerFeedback_installationMoves env db caller id rating comment

theorem schedule_ok_unset (env : Env) (db : Db) (caller : User) (req : ScheduleRequest)
    (inst : Installation) (h : (schedule env db caller req).2 = .ok inst) :
    inst.startTime = none ∧ inst.completedDate = none := by
  unfold schedule at h
  split at h
  · cases h
  · split at h
    · cases h
    · split at h
      · simp only [Except.ok.injEq] at h
        subst h
        exact ⟨rfl, rfl⟩
      · cases h

/-- C21.  A scheduled installation is created with `startTime` and `completedDate` unset.
In every sequence of requests, each with its own clock, and for every step and every
installation stored before and after it: a `startTime` that is set stays as it is; an unset
`startTime` becomes the clock of the step when the step changes the status to in_progress
and stays unset otherwise; and `completedDate` is the clock of the step whenever the step
changes the status to completed. -/
theorem installation_stamps (db : Db) (rs : List (Env × Op)) (r : Env × Op) (id : Nat)
    (x x' : Installation)
    (hbefore : (run db rs).installations[id]? = some x)
    (hafter : (step (run db rs) r).installations[id]? = some x') :
    (∀ env d caller req inst, (schedule env d caller req).2 = .ok inst →
      inst.startTime = none ∧ inst.completedDate = none) ∧
    (∀ t, x.startTime = some t → x'.startTime = some t) ∧
    (x.startTime = none → x.status ≠ .in_progress → x'.status = .in_progress →
      x'.startTime = some r.1.now) ∧
    (x.startTime = none → ¬ (x.status ≠ .in_progress ∧ x'.status = .in_progress) →
      x'.startTime = none) ∧
    (x.status ≠ .completed → x'.status = .completed → x'.completedDate = some r.1.now) := by
  refine ⟨schedule_ok_unset, ?_⟩
  rcases step_installationMoves (run db rs) r id x x' hbefore hafter with h | h
  · rw [h]
    exact stampRule_same _ _
  · exact h

/-- C21 on the worked scenario: the installation is scheduled with `startTime` unset; the
write to in_progress at clock 300 stamps `startTime = 300`; after on_hold at clock 400 and
in_progress again at clock 500 it is still 300. -/
theorem installation_stamps_witness :
    ((∀ env d caller req inst, (schedule env d caller req).2 = .ok inst →
        inst.startTime = none ∧ inst.completedDate = none) ∧
      (∀ t, installationAB.startTime = some t → installationInProgress.startTime = some t) ∧
      (installationAB.startTime = none → installationAB.status ≠ .in_progress →
        installationInProgress.status = .in_progress →
        installationInProgress.startTime = some env2.now) ∧
      (installationAB.startTime = none →
        ¬ (installationAB.status ≠ .in_progress ∧
            installationInProgress.status = .in_progress) →
        installationInProgress.startTime = none) ∧
      (installationAB.status ≠ .completed → installationInProgress.status = .completed →
        installationInProgress.completedDate = some env2.now)) ∧
    installationAB.startTime = none ∧ installationInProgress.startTime = some 300 ∧
    ((run dbAB
        [(env0, .createOrder requestAB), (env1, .schedule adminUser scheduleAB),
         (env2, .setInstallationStatus teamUser 0 "in_progress" none),
         (env3, .setInstallationStatus teamUser 0 "on_hold" none),
         ({ env3 with now := 500 },
           .setInstallationStatus teamUser 0 "in_progress" none)]).installations[0]?).map
      (fun i => (i.status, i.startTime)) = some (.in_progress, some 300) :=
  ⟨installation_stamps dbAB
      [(env0, .createOrder requestAB), (env1, .schedule adminUser scheduleAB)]
      (env2, .setInstallationStatus teamUser 0 "in_progress" none) 0
      installationAB installationInProgress
      (by with_unfolding_all rfl) (by with_unfolding_all rfl),
    rfl, rfl, by with_unfolding_all rfl⟩

/-! ## Status history of an installation -/

theorem installationPreSave_history (env : Env) (m : Bool) (y : Installation) :
    (installationPreSave env m y).statusHistory =
      if m then
        y.statusHistory ++ [{ status := y.status, date := env.now, note := none, updatedBy := none }]
      else y.statusHistory := by
  cases m
  · rfl
  · unfold installationPreSave
    by_cases hc : y.status = .completed
    · have hip : ¬ (y.status = .in_progress) := by rw [hc]; decide
      simp [hc, hip]
    · by_cases hip : y.status = .in_progress ∧ y.startTime = none
      · simp [hc, hip]
      · simp only [if_true, hc, if_false, hip]

/-- C22 as stated fails.  When the assigned team member repeats the current status
in_progress with a note, one entry is appended, and it is the handler's own push (it carries
the note and the caller), the hook staying silent; when the call changes the status from
scheduled to in_progress, two entries are appended, the handler's and the hook's. -/
theorem setInstallationStatus_history_entries :
    dbInProgress.installations[0]? = some installationInProgress ∧
    (setInstallationStatus env3 dbInProgress teamUser 0 "in_progress" (some "n")).2.toOption.map
        (·.statusHistory) =
      some (installationInProgress.statusHistory ++
        [{ status := .in_progress, date := 400, note := some "n", updatedBy := some 20 }]) ∧
    dbScheduled.installations[0]? = some installationAB ∧
    (setInstallationStatus env2 dbScheduled teamUser 0 "in_progress" none).2.toOption.map
        (·.statusHistory) =
      some (installationAB.statusHistory ++
        [{ status := .in_progress, date := 300, note := none, updatedBy := some 20 },
         { status := .in_progress, date := 300, note := none, updatedBy := none }]) := by
  refine ⟨?_, ?_, ?_, ?_⟩ <;> with_unfolding_all rfl

/-- C22, amended.  Every successful Installation setStatus call stores the requested status,
keeps all earlier statusHistory entries in place and appends right after them, by the
handler's own push, an entry carrying the new status, the clock, the note and the caller;
when the requested status is the current one, that entry is the only one appended. -/
theorem setInstallationStatus_history (env : Env) (db : Db) (caller : User) (id : Nat)
    (status : String) (note : Option String) (x x' : Installation)
    (hx : db.installations[id]? = some x)
    (hok : (setInstallationStatus env db caller id status note).2 = .ok x') :
    parseInstallationStatus status = some x'.status ∧
    (setInstallationStatus env db caller id status note).1.installations[id]? = some x' ∧
    (∃ more, x'.statusHistory = x.statusHistory ++
      ({ status := x'.status, date := env.now, note := note, updatedBy := some caller.id } ::
        more)) ∧
    (x'.status = x.status →
      x'.statusHistory = x.statusHistory ++
        [{ status := x'.status, date := env.now, note := note, updatedBy := some caller.id }]) := by
  have hlt : id < db.installations.length := (List.getElem?_eq_some.mp hx).1
  obtain ⟨st, hp, hx', hinst, _, _⟩ :=
    setInstallationStatus_ok_inv env db caller id status note x x' hx hok
  have hst : x'.status = st := by
    rw [hx']
    exact (installationPreSave_fields _ _ _).1
  have hhist := installationPreSave_history env (decide (st ≠ x.status))
    { x with
      status := st
      statusHistory := x.statusHistory ++
        [{ status := st, date := env.now, note := note, updatedBy := some caller.id }] }
  rw [← hx'] at hhist
  rw [hinst, hst]
  refine ⟨hp, List.getElem?_set_self hlt, ?_, ?_⟩
  · by_cases hc : st = x.status
    · refine ⟨[], ?_⟩
      rw [hhist]
      simp [hc]
    · refine ⟨[{ status := st, date := env.now, note := none, updatedBy := none }], ?_⟩
      rw [hhist]
      simp [hc]
  · intro hc
    rw [hhist]
    simp [hc]

/-- C22 on the worked scenario: repeating in_progress with the note "n" at clock 400 appends
the single entry "in_progress, 400, n, by 20" to the three entries already there. -/
theorem setInstallationStatus_history_witness :
    (parseInstallationStatus "in_progress" =
        some ({ installationInProgress with
          statusHistory := installationInProgress.statusHistory ++
            [{ status := .in_progress, date := 400, note := some "n", updatedBy := some 20 }]
          updatedAt := 400 } : Installation).status ∧
      (setInstallationStatus env3 dbInProgress teamUser 0 "in_progress"
          (some "n")).1.installations[0]? =
        some { installationInProgress with
          statusHistory := installationInProgress.statusHistory ++
            [{ status := .in_progress, date := 400, note := some "n", updatedBy := some 20 }]
          updatedAt := 400 } ∧
      (∃ more,
        ({ installationInProgress with
          statusHistory := installationInProgress.statusHistory ++
            [{ status := .in_progress, date := 400, note := some "n", updatedBy := some 20 }]
          updatedAt := 400 } : Installation).statusHistory =
        installationInProgress.statusHistory ++
          ({ status := .in_progress, date := env3.now, note := some "n",
             updatedBy := some teamUser.id } :: more)) ∧
      (InstallationStatus.in_progress = installationInProgress.status →
        ({ installationInProgress with
          statusHistory := installationInProgress.statusHistory ++
            [{ status := .in_progress, date := 400, note := some "n", updatedBy := some 20 }]
          updatedAt := 400 } : Installation).statusHistory =
        installationInProgress.statusHistory ++
          [{ status := .in_progress, date := env3.now, note := some "n",
             updatedBy := some teamUser.id }])) :=
  setInstallationStatus_history env3 dbInProgress teamUser 0 "in_progress" (some "n")
    installationInProgress
    { installationInProgress with
      statusHistory := installationInProgress.statusHistory ++
        [{ status := .in_progress, date := 400, note := some "n", updatedBy := some 20 }]
      updatedAt := 400 }
    (by with_unfolding_all rfl) (by with_unfolding_all rfl)

/-- When the call changes the status, the hook's entry follows the handler's: two entries
are appended. -/
theorem setInstallationStatus_change_appends_two (env : Env) (db : Db) (caller : User)
    (id : Nat) (status : String) (note : Option String) (x x' : Installation)
    (hx : db.installations[id]? = some x)
    (hok : (setInstallationStatus env db caller id status note).2 = .ok x')
    (hc : x'.status ≠ x.status) :
    x'.statusHistory = x.statusHistory ++
      [{ status := x'.status, date := env.now, note := note, updatedBy := some caller.id },
       { status := x'.status, date := env.now, note := none, updatedBy := none }] := by
  obtain ⟨st, _, hx', _, _, _⟩ :=
    setInstallationStatus_ok_inv env db caller id status note x x' hx hok
  have hst : x'.status = st := by
    rw [hx']
    exact (installationPreSave_fields _ _ _).1
  have hhist := installationPreSave_history env (decide (st ≠ x.status))
    { x with
      status := st
      statusHistory := x.statusHistory ++
        [{ status := st, date := env.now, note := note, updatedBy := some caller.id }] }
  rw [← hx'] at hhist
  rw [hst] at hc ⊢
  rw [hhist]
  simp [hc]

/-! ## Unknown equipment, and which entry an item update touches -/

/-- C23.  For an existing Installation, a caller that passes the installation-team gate and
an `equipmentId` that no entry of the equipmentList references, setEquipmentItemStatus
answers 404 "Equipment not found in installation" and the database, hence the Installation
and its order, is unchanged. -/
theorem setEquipmentItemStatus_unknown_equipment (env : Env) (db : Db) (caller : User)
    (id : Nat) (equipmentId : EquipId) (status : String) (x : Installation)
    (hx : db.installations[id]? = some x)
    (hgate : caller.role = .installation_team ∨ caller.role = .admin)
    (hno : ∀ e ∈ x.equipmentList, e.equipment ≠ equipmentId) :
    (setEquipmentItemStatus env db caller id equipmentId status).2 =
      .error .equipmentNotInInstallation ∧
    Failure.httpStatus .equipmentNotInInstallation = 404 ∧
    (setEquipmentItemStatus env db caller id equipmentId status).1 = db := by
  have h1 : isInstallationTeam caller = true := by simpa [isInstallationTeam] using hgate
  have hfind : x.equipmentList.find? (fun e => decide (e.equipment = equipmentId)) = none := by
    rw [List.find?_eq_none]
    intro e he hd
    exact hno e he (of_decide_eq_true hd)
  have heq : setEquipmentItemStatus env db caller id equipmentId status =
      (db, .error .equipmentNotInInstallation) := by
    unfold setEquipmentItemStatus
    rw [h1, hx]
    simp only [Bool.not_true, Bool.false_eq_true, if_false, hfind]
  rw [heq]
  exact ⟨rfl, rfl, rfl⟩

/-- C23 on the worked scenario: the installation of order 0 lists equipment 1 and 2; an
update for equipment 9 is answered 404 and nothing is written. -/
theorem setEquipmentItemStatus_unknown_equipment_witness :
    (setEquipmentItemStatus env2 dbScheduled teamUser 0 9 "completed").2 =
      .error .equipmentNotInInstallation ∧
    Failure.httpStatus .equipmentNotInInstallation = 404 ∧
    (setEquipmentItemStatus env2 dbScheduled teamUser 0 9 "completed").1 = dbScheduled :=
  setEquipmentItemStatus_unknown_equipment env2 dbScheduled teamUser 0 9 "completed"
    installationAB (by with_unfolding_all rfl) (Or.inl rfl) (by decide)

/-- The assignment of the item route rewrites the first entry that references the equipment
and no other. -/
theorem setFirstMatching_eq_set (equipmentId : EquipId) (st : ItemStatus)
    (l : List EquipmentEntry) (hmem : equipmentId ∈ l.map (·.equipment)) :
    ∃ k e, l[k]? = some e ∧ e.equipment = equipmentId ∧
      (∀ j e', j < k → l[j]? = some e' → e'.equipment ≠ equipmentId) ∧
      setFirstMatching equipmentId st l = l.set k { e with installationStatus := st } := by
  induction l with
  | nil => simp at hmem
  | cons a rest ih =>
    by_cases ha : a.equipment = equipmentId
    · refine ⟨0, a, by simp, ha, ?_, ?_⟩
      · intro j e' hj
        exact absurd hj (Nat.not_lt_zero j)
      · simp [setFirstMatching, ha]
    · have hmem' : equipmentId ∈ rest.map (·.equipment) := by
        simp only [List.map_cons, List.mem_cons] at hmem
        rcases hmem with h | h
        · exact absurd h.symm ha
        · exact h
      obtain ⟨k, e, hk, he, hfirst, hset⟩ := ih hmem'
      refine ⟨k + 1, e, by simpa using hk, he, ?_, ?_⟩
      · intro j e' hj hj'
        cases j with
        | zero =>
          simp only [List.getElem?_cons_zero, Option.some.injEq] at hj'
          subst hj'
          exact ha
        | succ j =>
          simp only [List.getElem?_cons_succ] at hj'
          exact hfirst j e' (by omega) hj'
      · simp [setFirstMatching, ha, hset]

/-- C30.  After a successful setEquipmentItemStatus call the stored equipmentList is the old
one with the requested status written to one entry, the first in list order whose equipment
reference is `equipmentId`: the list has the same length, every other position holds the
entry it held (also later entries with the same reference), and the equipment, name and
quantity of every entry are as before. -/
theorem setEquipmentItemStatus_touches_first (env : Env) (db : Db) (caller : User) (id : Nat)
    (equipmentId : EquipId) (status : String) (x x' : Installation)
    (hx : db.installations[id]? = some x)
    (hok : (setEquipmentItemStatus env db caller id equipmentId status).2 = .ok x') :
    ∃ st k e, parseItemStatus status = some st ∧
      x.equipmentList[k]? = some e ∧ e.equipment = equipmentId ∧
      (∀ j e', j < k → x.equipmentList[j]? = some e' → e'.equipment ≠ equipmentId) ∧
      x'.equipmentList = x.equipmentList.set k { e with installationStatus := st } ∧
      x'.equipmentList.length = x.equipmentList.length ∧
      (∀ j, j ≠ k → x'.equipmentList[j]? = x.equipmentList[j]?) ∧
      x'.equipmentList.map (fun a => (a.equipment, a.name, a.quantity)) =
        x.equipmentList.map (fun a => (a.equipment, a.name, a.quantity)) := by
  obtain ⟨st, hp, hmem, _, _, hcase⟩ :=
    setEquipmentItemStatus_ok_inv env db caller id equipmentId status x x' hx hok
  have hlist : x'.equipmentList = setFirstMatching equipmentId st x.equipmentList := by
    rcases hcase with ⟨_, hx', _⟩ | ⟨_, hx', _⟩
    · rw [hx']; exact (installationPreSave_fields _ _ _).2.1
    · rw [hx']; rfl
  obtain ⟨k, e, hk, he, hfirst, hset⟩ :=
    setFirstMatching_eq_set equipmentId st x.equipmentList hmem
  rw [hlist, hset]
  refine ⟨st, k, e, hp, hk, he, hfirst, rfl, List.length_set _ _ _, ?_, ?_⟩
  · intro j hj
    exact List.getElem?_set_ne (Ne.symm hj)
  · rw [List.map_set]
    apply List.ext_getElem?
    intro j
    by_cases hj : k = j
    · subst hj
      have hlt : k < x.equipmentList.length := (List.getElem?_eq_some.mp hk).1
      have hlt' : k < (x.equipmentList.map (fun a => (a.equipment, a.name, a.quantity))).length := by
        rw [List.length_map]
        exact hlt
      rw [List.getElem?_set_self hlt', List.getElem?_map, hk]
      rfl
    · rw [List.getElem?_set_ne hj]

/-- C30 on an installation whose two entries both reference equipment 1: marking equipment 1
completed rewrites the first entry only. -/
theorem setEquipmentItemStatus_touches_first_witness :
    (∃ st k e, parseItemStatus "completed" = some st ∧
      installationDup.equipmentList[k]? = some e ∧ e.equipment = 1 ∧
      (∀ j e', j < k → installationDup.equipmentList[j]? = some e' → e'.equipment ≠ 1) ∧
      ({ installationDup with
          equipmentList :=
            [{ equipment := 1, name := "A", quantity := 1, installationStatus := .completed },
             { equipment := 1, name := "A", quantity := 2, installationStatus := .pending }]
          updatedAt := 300 } : Installation).equipmentList =
        installationDup.equipmentList.set k { e with installationStatus := st } ∧
      ({ installationDup with
          equipmentList :=
            [{ equipment := 1, name := "A", quantity := 1, installationStatus := .completed },
             { equipment := 1, name := "A", quantity := 2, installationStatus := .pending }]
          updatedAt := 300 } : Installation).equipmentList.length =
        installationDup.equipmentList.length ∧
      (∀ j, j ≠ k →
        ({ installationDup with
          equipmentList :=
            [{ equipment := 1, name := "A", quantity := 1, installationStatus := .completed },
             { equipment := 1, name := "A", quantity := 2, installationStatus := .pending }]
          updatedAt := 300 } : Installation).equipmentList[j]? =
          installationDup.equipmentList[j]?) ∧
      ({ installationDup with
          equipmentList :=
            [{ equipment := 1, name := "A", quantity := 1, installationStatus := .completed },
             { equipment := 1, name := "A", quantity := 2, installationStatus := .pending }]
          updatedAt := 300 } : Installation).equipmentList.map
          (fun a => (a.equipment, a.name, a.quantity)) =
        installationDup.equipmentList.map (fun a => (a.equipment, a.name, a.quantity))) ∧
    dbDup.installations[0]? = some installationDup :=
  ⟨setEquipmentItemStatus_touches_first env2 dbDup teamUser 0 1 "completed" installationDup
      { installationDup with
        equipmentList :=
          [{ equipment := 1, name := "A", quantity := 1, installationStatus := .completed },
           { equipment := 1, name := "A", quantity := 2, installationStatus := .pending }]
        updatedAt := 300 }
      (by with_unfolding_all rfl) (by with_unfolding_all rfl),
    by with_unfolding_all rfl⟩

/-! ## Customer feedback -/

/-- C24.  For an existing Installation X: a caller who is not X's customer gets 403 "Not
authorized to add feedback", whatever the caller's role and X's status; X's customer gets 400
"Can only add feedback for completed installations" while X's status is not completed; in
both cases nothing is written.  When the caller is X's customer and X is completed, a rating
between 1 and 5 is accepted and the stored X carries that rating, the comment and the
clock, everything else but `updatedAt` being as before. -/
theorem setCustomerFeedback_rules (env : Env) (db : Db) (caller : User) (id : Nat)
    (rating : Option ℤ) (comment : Option String) (x : Installation)
    (hx : db.installations[id]? = some x) :
    (caller.id ≠ x.customer →
      (setCustomerFeedback env db caller id rating comment).2 = .error .feedbackNotAuthorized ∧
      Failure.httpStatus .feedbackNotAuthorized = 403 ∧
      (setCustomerFeedback env db caller id rating comment).1 = db) ∧
    (caller.id = x.customer → x.status ≠ .completed →
      (setCustomerFeedback env db caller id rating comment).2 = .error .feedbackNotCompleted ∧
      Failure.httpStatus .feedbackNotCompleted = 400 ∧
      (setCustomerFeedback env db caller id rating comment).1 = db) ∧
    (caller.id = x.customer → x.status = .completed →
      ∀ r, rating = some r → 1 ≤ r → r ≤ 5 →
        (setCustomerFeedback env db caller id rating comment).2 =
          .ok { x with
                customerFeedback := some { rating := some r, comment := comment, date := env.now }
                updatedAt := env.now } ∧
        (setCustomerFeedback env db caller id rating comment).1.installations[id]? =
          some { x with
                 customerFeedback := some { rating := some r, comment := comment, date := env.now }
                 updatedAt := env.now } ∧
        (setCustomerFeedback env db caller id rating comment).1.orders = db.orders ∧
        (setCustomerFeedback env db caller id rating comment).1.equipment = db.equipment) := by
  have hlt : id < db.installations.length := (List.getElem?_eq_some.mp hx).1
  refine ⟨?_, ?_, ?_⟩
  · intro hne
    have hne' : x.customer ≠ caller.id := fun h => hne h.symm
    have heq : setCustomerFeedback env db caller id rating comment =
        (db, .error .feedbackNotAuthorized) := by
      unfold setCustomerFeedback
      rw [hx]
      exact if_pos hne'
    rw [heq]
    exact ⟨rfl, rfl, rfl⟩
  · intro hcust hst
    have hcust' : ¬ (x.customer ≠ caller.id) := fun h => h hcust.symm
    have heq : setCustomerFeedback env db caller id rating comment =
        (db, .error .feedbackNotCompleted) := by
      unfold setCustomerFeedback
      rw [hx]
      simp only [hcust', if_false]
      exact if_pos hst
    rw [heq]
    exact ⟨rfl, rfl, rfl⟩
  · intro hcust hst r hr h1 h5
    have hcust' : ¬ (x.customer ≠ caller.id) := fun h => h hcust.symm
    have hst' : ¬ (x.status ≠ .completed) := fun h => h hst
    have hrange : ¬ (r < 1 ∨ 5 < r) := by omega
    have heq : setCustomerFeedback env db caller id rating comment =
        (Db.mk db.equipment db.orders (db.installations.set id
            { x with
              customerFeedback := some { rating := some r, comment := comment, date := env.now }
              updatedAt := env.now }),
          .ok { x with
                customerFeedback := some { rating := some r, comment := comment, date := env.now }
                updatedAt := env.now }) := by
      unfold setCustomerFeedback
      rw [hx, hr]
      simp only [hcust', hst', hrange, if_false]
      rfl
    rw [heq]
    exact ⟨rfl, List.getElem?_set_self hlt, rfl, rfl⟩

/-- C24 on the worked scenario: customer 7 is refused with 400 while the installation is
in_progress and accepted with rating 5 once both entries have been marked completed; team
member 20, who is not the customer, is refused with 403. -/
theorem setCustomerFeedback_rules_witness :
    ((owner.id ≠ installationAllDone.customer →
        (setCustomerFeedback env3 dbAllDone owner 0 (some 5) (some "good")).2 =
          .error .feedbackNotAuthorized ∧
        Failure.httpStatus .feedbackNotAuthorized = 403 ∧
        (setCustomerFeedback env3 dbAllDone owner 0 (some 5) (some "good")).1 = dbAllDone) ∧
      (owner.id = installationAllDone.customer → installationAllDone.status ≠ .completed →
        (setCustomerFeedback env3 dbAllDone owner 0 (some 5) (some "good")).2 =
          .error .feedbackNotCompleted ∧
        Failure.httpStatus .feedbackNotCompleted = 400 ∧
        (setCustomerFeedback env3 dbAllDone owner 0 (some 5) (some "good")).1 = dbAllDone) ∧
      (owner.id = installationAllDone.customer → installationAllDone.status = .completed →
        ∀ r, some (5 : ℤ) = some r → 1 ≤ r → r ≤ 5 →
          (setCustomerFeedback env3 dbAllDone owner 0 (some 5) (some "good")).2 =
            .ok { installationAllDone with
                  customerFeedback :=
                    some { rating := some r, comment := some "good", date := env3.now }
                  updatedAt := env3.now } ∧
          (setCustomerFeedback env3 dbAllDone owner 0 (some 5) (some "good")).1.installations[
              0]? =
            some { installationAllDone with
                   customerFeedback :=
                     some { rating := some r, comment := some "good", date := env3.now }
                   updatedAt := env3.now } ∧
          (setCustomerFeedback env3 dbAllDone owner 0 (some 5) (some "good")).1.orders =
            dbAllDone.orders ∧
          (setCustomerFeedback env3 dbAllDone owner 0 (some 5) (some "good")).1.equipment =
            dbAllDone.equipment)) ∧
    dbInProgress.installations[0]? = some installationInProgress ∧
    (setCustomerFeedback env3 dbInProgress owner 0 (some 5) (some "good")).2 =
      .error .feedbackNotCompleted ∧
    ((setCustomerFeedback env3 dbAllDone owner 0 (some 5) (some "good")).2.toOption.map
      (·.customerFeedback)) =
      some (some { rating := some 5, comment := some "good", date := 400 }) ∧
    (setCustomerFeedback env3 dbAllDone teamUser 0 (some 5) (some "good")).2 =
      .error .feedbackNotAuthorized :=
  ⟨setCustomerFeedback_rules env3 dbAllDone owner 0 (some 5) (some "good") installationAllDone
      (by with_unfolding_all rfl),
    by with_unfolding_all rfl, by with_unfolding_all rfl, by with_unfolding_all rfl,
    by with_unfolding_all rfl⟩

/-! ## Role gates -/

theorem isAdminGate_some (u : User) : isAdminGate (some u) = .next ↔ isAdmin u = true := by
  unfold isAdminGate isAdmin
  by_cases h : u.role = .admin <;> simp [h]

theorem isInstallationTeamGate_some (u : User) :
    isInstallationTeamGate (some u) = .next ↔ isInstallationTeam u = true := by
  unfold isInstallationTeamGate isInstallationTeam
  by_cases h : u.role = .installation_team ∨ u.role = .admin <;> simp [h]

/-- C25.  The role gates look at nothing but the attached user's role: `isAdmin` calls
`next()` exactly when a user is attached and its role is admin, `isInstallationTeam` exactly
when the role is installation_team or admin, and `authorize(roles)` exactly when the role is
among `roles`, answering 401 when no user is attached and 403 for any other role.  The
handlers behind `isAdmin` and `isInstallationTeam` are not run for a rejected request: for a
caller with role customer, Order setStatus, setPaymentStatus, schedule, Installation
setStatus, setEquipmentItemStatus and setTeamNotes all answer 403 and leave the database
unchanged. -/
theorem role_gates (user : Option User) (roles : List Role) :
    (isAdminGate user = .next ↔ ∃ u, user = some u ∧ u.role = .admin) ∧
    (isInstallationTeamGate user = .next ↔
      ∃ u, user = some u ∧ (u.role = .installation_team ∨ u.role = .admin)) ∧
    (authorize roles user = .next ↔ ∃ u, user = some u ∧ u.role ∈ roles) ∧
    (user = none → authorize roles user = .rejected 401) ∧
    (∀ u, user = some u → u.role ∉ roles → authorize roles user = .rejected 403) ∧
    (∀ u, user = some u →
      (isAdminGate user = .next ↔ isAdmin u = true) ∧
      (isInstallationTeamGate user = .next ↔ isInstallationTeam u = true)) ∧
    (∀ (caller : User) (env : Env) (db : Db), caller.role = .customer →
      (∀ id status note,
        (setOrderStatus env db caller id status note).2 = .error .adminOnly ∧
        (setOrderStatus env db caller id status note).1 = db) ∧
      (∀ id p,
        (setPaymentStatus db caller id p).2 = .error .adminOnly ∧
        (setPaymentStatus db caller id p).1 = db) ∧
      (∀ req,
        (schedule env db caller req).2 = .error .adminOnly ∧
        (schedule env db caller req).1 = db) ∧
      (∀ id status note,
        (setInstallationStatus env db caller id status note).2 = .error .teamOnly ∧
        (setInstallationStatus env db caller id status note).1 = db) ∧
      (∀ id equipmentId status,
        (setEquipmentItemStatus env db caller id equipmentId status).2 = .error .teamOnly ∧
        (setEquipmentItemStatus env db caller id equipmentId status).1 = db) ∧
      (∀ id notes,
        (setTeamNotes db caller id notes).2 = .error .teamOnly ∧
        (setTeamNotes db caller id notes).1 = db) ∧
      Failure.httpStatus .adminOnly = 403 ∧ Failure.httpStatus .teamOnly = 403) := by
  refine ⟨?_, ?_, ?_, ?_, ?_, ?_, ?_⟩
  · cases user with
    | none => simp [isAdminGate]
    | some u =>
      unfold isAdminGate
      by_cases h : u.role = .admin <;> simp [h]
  · cases user with
    | none => simp [isInstallationTeamGate]
    | some u =>
      unfold isInstallationTeamGate
      by_cases h : u.role = .installation_team ∨ u.role = .admin <;> simp [h]
  · cases user with
    | none => simp [authorize]
    | some u =>
      unfold authorize
      by_cases h : u.role ∈ roles <;> simp [h]
  · intro h
    subst h
    rfl
  · intro u h hno
    subst h
    unfold authorize
    simp [hno]
  · intro u h
    subst h
    exact ⟨isAdminGate_some u, isInstallationTeamGate_some u⟩
  · intro caller env db hrole
    have h1 : isAdmin caller = false := by simp [isAdmin, hrole]
    have h2 : isInstallationTeam caller = false := by simp [isInstallationTeam, hrole]
    refine ⟨?_, ?_, ?_, ?_, ?_, ?_, rfl, rfl⟩
    · intro id status note
      unfold setOrderStatus
      rw [h1]
      exact ⟨rfl, rfl⟩
    · intro id p
      unfold setPaymentStatus
      rw [h1]
      exact ⟨rfl, rfl⟩
    · intro req
      unfold schedule
      rw [h1]
      exact ⟨rfl, rfl⟩
    · intro id status note
      unfold setInstallationStatus
      rw [h2]
      exact ⟨rfl, rfl⟩
    · intro id equipmentId status
      unfold setEquipmentItemStatus
      rw [h2]
      exact ⟨rfl, rfl⟩
    · intro id notes
      unfold setTeamNotes
      rw [h2]
      exact ⟨rfl, rfl⟩

/-! ## Stock never raised by order creation -/

/-- C29, evaluated on the code.  Against the store holding A with stock 5, the request
"-3 of A" passes the loop's only stock test (`5 < -3` is false), A is saved with stock 8, and
only then does `Order.create` reject the quantity with the schema's `min: 1` validator: the
answer is the 500 error, no order is stored, and A's stock has gone up from 5 to 8.  A
quantity of zero leaves the stock as it was and is rejected in the same place. -/
theorem createOrder_negative_quantity_raises_stock :
    (createOrder env0 dbAB (requestOf [⟨1, -3⟩])).2 = .error .serverError ∧
    (createOrder env0 dbAB (requestOf [⟨1, -3⟩])).1.orders = dbAB.orders ∧
    (dbAB.equipment 1).map (·.stock) = some 5 ∧
    ((createOrder env0 dbAB (requestOf [⟨1, -3⟩])).1.equipment 1).map (·.stock) = some 8 ∧
    (createOrder env0 dbAB (requestOf [⟨1, 0⟩])).2 = .error .serverError ∧
    ((createOrder env0 dbAB (requestOf [⟨1, 0⟩])).1.equipment 1).map (·.stock) = some 5 := by
  refine ⟨?_, ?_, ?_, ?_, ?_, ?_⟩ <;> with_unfolding_all rfl

/-! ## Two concurrent order creations -/

/-- One iteration of the item loop is its read followed by its write. -/
theorem processItems_read_write (s : EquipStore) (total : ℚ) (acc : List OrderItem)
    (item : ItemRequest) (rest : List ItemRequest) :
    processItems s total acc (item :: rest) =
      match readItem s item with
      | .error f => (s, .error f)
      | .ok e =>
        match writeItem s item e with
        | none => (s, .error .serverError)
        | some s' =>
          processItems s' (jsAdd total (jsMul (e.price : ℚ) item.quantity))
            (acc ++ [lineOf item e]) rest := by
  rw [processItems]
  unfold readItem writeItem reserved lineOf
  cases hs : s item.equipment with
  | none => rfl
  | some e =>
    by_cases hc : (!e.isAvailable || decide (e.stock < item.quantity)) = true
    · simp only [hc, if_true]
    · simp only [hc, if_false]
      rfl

theorem saveEquipment_stock (s s' : EquipStore) (id : EquipId) (e : Equipment)
    (hs : ∀ i x, s i = some x → 0 ≤ x.stock) (h : saveEquipment s id e = some s') :
    ∀ i x, s' i = some x → 0 ≤ x.stock := by
  unfold saveEquipment at h
  by_cases hneg : e.stock < 0
  · rw [if_pos hneg] at h
    cases h
  · rw [if_neg hneg] at h
    cases h
    intro i x hx
    by_cases hi : i = id
    · subst hi
      rw [Function.update_same] at hx
      cases hx
      omega
    · rw [Function.update_noteq hi] at hx
      exact hs i x hx

theorem raceStep_stock (a b : ItemRequest) (st : RaceState) (ev : Event)
    (hs : ∀ i x, st.store i = some x → 0 ≤ x.stock) :
    ∀ i x, (raceStep a b st ev).store i = some x → 0 ≤ x.stock := by
  cases ev with
  | readA =>
    simp only [raceStep]
    split <;> exact hs
  | readB =>
    simp only [raceStep]
    split <;> exact hs
  | writeA =>
    simp only [raceStep]
    split
    · split
      · next hw => exact saveEquipment_stock st.store _ _ _ hs hw
      · exact hs
    · exact hs
  | writeB =>
    simp only [raceStep]
    split
    · split
      · next hw => exact saveEquipment_stock st.store _ _ _ hs hw
      · exact hs
    · exact hs

/-- The `min: 0` validator on `stock` holds after every interleaving of the two requests'
reads and writes: no stored stock is negative. -/
theorem raceRun_stock_nonneg (a b : ItemRequest) (s : EquipStore) (events : List Event)
    (hs : ∀ i x, s i = some x → 0 ≤ x.stock) :
    ∀ i x, (raceRun a b s events).store i = some x → 0 ≤ x.stock := by
  have key : ∀ (st : RaceState), (∀ i x, st.store i = some x → 0 ≤ x.stock) →
      ∀ i x, (events.foldl (raceStep a b) st).store i = some x → 0 ≤ x.stock := by
    induction events with
    | nil => exact fun st h => h
    | cons ev rest ih =>
      intro st h
      rw [List.foldl_cons]
      exact ih _ (raceStep_stock a b st ev h)
  exact key _ hs

/-- C27, evaluated on the code.  B has stock 1 and two concurrent requests each ask for 1 of
B, so the combined demand 2 exceeds the stock.  In the interleaving where both requests read
B before either saves, both pass the loop's check against the stock they read and both
saves are accepted: both requests succeed and the stock ends at 0, not negative, one unit
having been sold twice.  With requests for 3 and 4 of A (stock 5) in the same interleaving
both succeed and A is left with stock 1.  When the second request reads only after the
first has saved, the second one is refused. -/
theorem createOrder_race_both_succeed :
    ((storeAB 2).map (·.stock) = some 1 ∧ (1 : ℤ) + 1 > 1) ∧
    (raceRun ⟨2, 1⟩ ⟨2, 1⟩ storeAB [.readA, .readB, .writeA, .writeB]).savedA = true ∧
    (raceRun ⟨2, 1⟩ ⟨2, 1⟩ storeAB [.readA, .readB, .writeA, .writeB]).savedB = true ∧
    ((raceRun ⟨2, 1⟩ ⟨2, 1⟩ storeAB [.readA, .readB, .writeA, .writeB]).store 2).map
      (·.stock) = some 0 ∧
    ((storeAB 1).map (·.stock) = some 5 ∧ (3 : ℤ) + 4 > 5) ∧
    (raceRun ⟨1, 3⟩ ⟨1, 4⟩ storeAB [.readA, .readB, .writeA, .writeB]).savedA = true ∧
    (raceRun ⟨1, 3⟩ ⟨1, 4⟩ storeAB [.readA, .readB, .writeA, .writeB]).savedB = true ∧
    ((raceRun ⟨1, 3⟩ ⟨1, 4⟩ storeAB [.readA, .readB, .writeA, .writeB]).store 1).map
      (·.stock) = some 1 ∧
    (raceRun ⟨2, 1⟩ ⟨2, 1⟩ storeAB [.readA, .writeA, .readB, .writeB]).savedA = true ∧
    (raceRun ⟨2, 1⟩ ⟨2, 1⟩ storeAB [.readA, .writeA, .readB, .writeB]).savedB = false ∧
    readItem (raceRun ⟨2, 1⟩ ⟨2, 1⟩ storeAB [.readA, .writeA]).store ⟨2, 1⟩ =
      .error (.notAvailable "B") := by
  refine ⟨⟨?_, by decide⟩, ?_, ?_, ?_, ⟨?_, by decide⟩, ?_, ?_, ?_, ?_, ?_, ?_⟩ <;>
    with_unfolding_all rfl

/-! ## Create, then cancel -/

theorem restoreStock_comm (s : EquipStore) (a b : EquipId) (p q : ℤ) :
    restoreStock (restoreStock s a p) b q = restoreStock (restoreStock s b q) a p := by
  funext eid
  simp only [restoreStock_apply]
  by_cases ha : eid = a
  · by_cases hb : eid = b
    · simp only [if_pos ha, if_pos hb]
      cases s eid with
      | none => rfl
      | some e =>
        simp only [Option.map_some', Option.some.injEq, Equipment.mk.injEq, and_true, true_and]
        ring
    · simp only [if_pos ha, if_neg hb]
  · by_cases hb : eid = b
    · simp only [if_neg ha, if_pos hb]
    · simp only [if_neg ha, if_neg hb]

theorem restoreAll_restoreStock (lines : List OrderItem) :
    ∀ (s : EquipStore) (id : EquipId) (q : ℤ),
      restoreAll (restoreStock s id q) lines = restoreStock (restoreAll s lines) id q := by
  induction lines with
  | nil => intro s id q; rfl
  | cons l rest ih =>
    intro s id q
    show restoreAll (restoreStock (restoreStock s id q) l.equipment l.quantity) rest =
      restoreStock (restoreAll (restoreStock s l.equipment l.quantity) rest) id q
    rw [restoreStock_comm, ih]

theorem restoreStock_reserved (s : EquipStore) (id : EquipId) (e : Equipment) (q : ℤ)
    (he : s id = some e) (ha : e.isAvailable = true) :
    restoreStock (Function.update s id (some (reserved e q))) id q = s := by
  funext eid
  rw [restoreStock_apply]
  by_cases h : eid = id
  · subst h
    rw [if_pos rfl, Function.update_same, he]
    simp only [Option.map_some', reserved, Option.some.injEq]
    cases e with
    | mk name price image stock isAvailable =>
      simp only [Equipment.mk.injEq, true_and]
      exact ⟨by ring, ha.symm⟩
  · rw [if_neg h, Function.update_noteq h]

/-- Restoring the lines pushed by a completed item loop undoes the loop on the store. -/
theorem restoreAll_processItems (items : List ItemRequest) :
    ∀ (s : EquipStore) (total : ℚ) (acc : List OrderItem) (r : ℚ × List OrderItem),
      (processItems s total acc items).2 = .ok r →
      ∃ lines, r.2 = acc ++ lines ∧
        restoreAll (processItems s total acc items).1 lines = s := by
  induction items with
  | nil =>
    intro s total acc r h
    rw [processItems] at h
    cases h
    exact ⟨[], (List.append_nil acc).symm, rfl⟩
  | cons item rest ih =>
    intro s total acc r h
    rcases processItems_cons_cases s total acc item rest with
      ⟨_, heq⟩ | ⟨e, _, _, heq⟩ | ⟨e, he, ha, hq, heq⟩
    · rw [heq] at h
      cases h
    · rw [heq] at h
      cases h
    · rw [heq] at h ⊢
      obtain ⟨lines, hl, hres⟩ := ih _ _ _ r h
      refine ⟨lineOf item e :: lines, ?_, ?_⟩
      · rw [hl, List.append_assoc]
        rfl
      · show restoreAll (restoreStock _ item.equipment item.quantity) lines = s
        rw [restoreAll_restoreStock, hres]
        exact restoreStock_reserved s item.equipment e item.quantity he ha

/-- C28.  Round trip: when `createOrder` succeeds, a cancel of the created order by its
owner, issued right after it, succeeds with status cancelled and leaves the equipment store
exactly as it was before `createOrder`: every record has its earlier stock and
`isAvailable`, also when several line items name the same equipment. -/
theorem create_then_cancel_restores (env env' : Env) (db : Db) (req : OrderRequest)
    (caller : User) (o : Order) (hok : (createOrder env db req).2 = .ok o)
    (hcaller : caller.id = req.user) :
    (createOrder env db req).1.orders[db.orders.length]? = some o ∧
    (∃ o', (cancelOrder env' (createOrder env db req).1 caller db.orders.length).2 = .ok o' ∧
      o'.status = .cancelled) ∧
    (cancelOrder env' (createOrder env db req).1 caller db.orders.length).1.equipment =
      db.equipment := by
  obtain ⟨_, hloop, _, _, _, horders, hequip, _, huser, hstatus, _⟩ :=
    createOrder_ok_inv env db req o hok
  have ho : (createOrder env db req).1.orders[db.orders.length]? = some o := by
    rw [horders]
    exact List.getElem?_concat_length db.orders o
  have hauth' : ¬ (caller.role ≠ .admin ∧ o.user ≠ caller.id) := by
    rintro ⟨_, h2⟩
    exact h2 (huser.trans hcaller.symm)
  have hst' : ¬ ¬ (o.status = .pending ∨ o.status = .confirmed) :=
    not_not.mpr (Or.inl hstatus)
  have hmod : decide (o.status ≠ OrderStatus.cancelled) = true := by
    rw [hstatus]
    rfl
  have heq : cancelOrder env' (createOrder env db req).1 caller db.orders.length =
      ({ (createOrder env db req).1 with
          equipment := restoreAll (createOrder env db req).1.equipment o.items
          orders := (createOrder env db req).1.orders.set db.orders.length
            (orderPreSave env' true { o with status := .cancelled }) },
        .ok (orderPreSave env' true { o with status := .cancelled })) := by
    unfold cancelOrder
    rw [ho]
    simp only [hauth', hst', if_false, hmod]
    rfl
  refine ⟨ho, ?_, ?_⟩
  · rw [heq]
    exact ⟨_, rfl, rfl⟩
  · rw [heq]
    show restoreAll (createOrder env db req).1.equipment o.items = db.equipment
    rw [hequip]
    obtain ⟨lines, hl, hres⟩ := restoreAll_processItems req.items db.equipment 0 [] _ hloop
    rw [List.nil_append] at hl
    have hl' : o.items = lines := hl
    rw [hl']
    exact hres

/-- C28 on the worked scenario: the order "2 of A, 1 of B" takes B's stock to 0 and its
`isAvailable` to false, and the order "1 of A, 2 of A" names A twice; cancelling either
right after it was placed gives back the store holding A with stock 5 and B with stock 1,
both available. -/
theorem create_then_cancel_restores_witness :
    ((createOrder env0 dbAB requestAB).1.orders[dbAB.orders.length]? = some orderAB ∧
      (∃ o', (cancelOrder env1 (createOrder env0 dbAB requestAB).1 owner
          dbAB.orders.length).2 = .ok o' ∧ o'.status = .cancelled) ∧
      (cancelOrder env1 (createOrder env0 dbAB requestAB).1 owner
        dbAB.orders.length).1.equipment = dbAB.equipment) ∧
    ((createOrder env0 dbAB requestAB).1.equipment 2).map (fun e => (e.stock, e.isAvailable)) =
      some (0, false) ∧
    (∃ o, (createOrder env0 dbAB (requestOf [⟨1, 1⟩, ⟨1, 2⟩])).2 = .ok o ∧
      o.items.map (fun i => (i.equipment, i.quantity)) = [(1, 1), (1, 2)]) ∧
    ((createOrder env0 dbAB (requestOf [⟨1, 1⟩, ⟨1, 2⟩])).1.equipment 1).map (·.stock) =
      some 2 ∧
    (cancelOrder env1 (createOrder env0 dbAB (requestOf [⟨1, 1⟩, ⟨1, 2⟩])).1 owner 0).1.equipment 1
      = some equipA :=
  ⟨create_then_cancel_restores env0 env1 dbAB requestAB owner orderAB
      (by with_unfolding_all rfl) (by with_unfolding_all rfl),
    by with_unfolding_all rfl, ⟨_, by with_unfolding_all rfl, by with_unfolding_all rfl⟩,
    by with_unfolding_all rfl, by with_unfolding_all rfl⟩

/-! ## Order numbers: decimal numerals -/

theorem digitChar_isDigit (d : Nat) (h : d < 10) : (Nat.digitChar d).isDigit = true := by
  interval_cases d <;> rfl

theorem digitChar_value (d : Nat) (h : d < 10) : (Nat.digitChar d).toNat - 48 = d := by
  interval_cases d <;> rfl

theorem toDigitsCore_acc (f : Nat) : ∀ (n : Nat) (ds : List Char),
    Nat.toDigitsCore 10 f n ds = Nat.toDigitsCore 10 f n [] ++ ds := by
  induction f with
  | zero => intro n ds; simp [Nat.toDigitsCore]
  | succ f ih =>
    intro n ds
    simp only [Nat.toDigitsCore]
    by_cases h : n / 10 = 0
    · simp [h]
    · simp only [h, if_false]
      rw [ih (n / 10) (_ :: ds), ih (n / 10) [_]]
      simp

theorem toDigitsCore_succ (f n : Nat) :
    Nat.toDigitsCore 10 (f + 1) n [] =
      if n / 10 = 0 then [Nat.digitChar (n % 10)]
      else Nat.toDigitsCore 10 f (n / 10) [] ++ [Nat.digitChar (n % 10)] := by
  simp only [Nat.toDigitsCore]
  by_cases h : n / 10 = 0
  · simp [h]
  · simp only [h, if_false]
    exact toDigitsCore_acc f (n / 10) _

theorem toDigitsCore_isDigit (f : Nat) : ∀ (n : Nat) (c : Char),
    c ∈ Nat.toDigitsCore 10 f n [] → c.isDigit = true := by
  induction f with
  | zero => intro n c hc; simp [Nat.toDigitsCore] at hc
  | succ f ih =>
    intro n c hc
    rw [toDigitsCore_succ] at hc
    have hd : (Nat.digitChar (n % 10)).isDigit = true :=
      digitChar_isDigit _ (Nat.mod_lt n (by decide))
    by_cases h : n / 10 = 0
    · rw [if_pos h, List.mem_singleton] at hc
      rw [hc]
      exact hd
    · rw [if_neg h, List.mem_append, List.mem_singleton] at hc
      rcases hc with hc | hc
      · exact ih _ _ hc
      · rw [hc]
        exact hd

theorem decimalValue_concat (xs : List Char) (c : Char) :
    decimalValue (xs ++ [c]) = 10 * decimalValue xs + (c.toNat - 48) := by
  unfold decimalValue
  rw [List.foldl_append]
  rfl

theorem decimalValue_zeros (k : Nat) (xs : List Char) :
    decimalValue (List.replicate k '0' ++ xs) = decimalValue xs := by
  unfold decimalValue
  rw [List.foldl_append]
  have hz : (List.replicate k '0').foldl (fun acc c => 10 * acc + (c.toNat - 48)) 0 = 0 := by
    induction k with
    | zero => rfl
    | succ k ih =>
      rw [List.replicate_succ, List.foldl_cons]
      exact ih
  rw [hz]

theorem toDigitsCore_value (f : Nat) : ∀ n : Nat, n < f →
    decimalValue (Nat.toDigitsCore 10 f n []) = n := by
  induction f with
  | zero => intro n h; omega
  | succ f ih =>
    intro n h
    rw [toDigitsCore_succ]
    have hd := digitChar_value (n % 10) (Nat.mod_lt n (by decide))
    by_cases h0 : n / 10 = 0
    · rw [if_pos h0]
      show 10 * 0 + ((Nat.digitChar (n % 10)).toNat - 48) = n
      rw [hd]
      omega
    · rw [if_neg h0, decimalValue_concat, ih (n / 10) (by omega), hd]
      omega

/-- The decimal numeral of a number of at least two digits ends in its tens digit and its
units digit. -/
theorem toDigits_last_two (n : Nat) (h : 10 ≤ n) :
    ∃ pre, Nat.toDigits 10 n =
      pre ++ [Nat.digitChar (n / 10 % 10), Nat.digitChar (n % 10)] := by
  unfold Nat.toDigits
  rw [toDigitsCore_succ, if_neg (by omega)]
  obtain ⟨m, hm⟩ : ∃ m, n = m + 1 := ⟨n - 1, by omega⟩
  rw [hm, toDigitsCore_succ]
  by_cases h0 : (m + 1) / 10 / 10 = 0
  · rw [if_pos h0]
    exact ⟨[], rfl⟩
  · rw [if_neg h0]
    exact ⟨_, by rw [List.append_assoc]; rfl⟩

theorem toString_data (n : Nat) : (toString n).data = Nat.toDigits 10 n := rfl

theorem sliceLastTwo_toString (n : Nat) (h : 10 ≤ n) :
    (sliceLastTwo (toString n)).data =
      [Nat.digitChar (n / 10 % 10), Nat.digitChar (n % 10)] := by
  obtain ⟨pre, hp⟩ := toDigits_last_two n h
  unfold sliceLastTwo
  show List.drop ((toString n).data.length - 2) (toString n).data = _
  rw [toString_data, hp]
  simp

theorem padStart_toString (n k : Nat) (hk : 0 < k) (h : n < 10 ^ k) :
    (padStart (toString n) k '0').data.length = k ∧
    (∀ c ∈ (padStart (toString n) k '0').data, c.isDigit = true) ∧
    decimalValue (padStart (toString n) k '0').data = n := by
  have hlen : (toString n).length ≤ k := Nat.repr_length n k hk h
  unfold padStart
  refine ⟨?_, ?_, ?_⟩
  · show (List.replicate (k - (toString n).length) '0' ++ (toString n).data).length = k
    rw [List.length_append, List.length_replicate]
    have : (toString n).data.length = (toString n).length := rfl
    omega
  · intro c hc
    have hc' : c ∈ List.replicate (k - (toString n).length) '0' ++ (toString n).data := hc
    rw [List.mem_append] at hc'
    rcases hc' with hc' | hc'
    · rw [(List.mem_replicate.mp hc').2]
      rfl
    · rw [toString_data] at hc'
      exact toDigitsCore_isDigit _ _ _ hc'
  · show decimalValue (List.replicate (k - (toString n).length) '0' ++ (toString n).data) = n
    rw [decimalValue_zeros, toString_data]
    exact toDigitsCore_value (n + 1) n (Nat.lt_succ_self n)

/-- The shape of a generated order number: "PG", the last two digits of the year, the month
as two digits and the random draw as four digits. -/
theorem genOrderNumber_form (env : Env) (hv : env.valid) :
    ∃ yy mm suffix : List Char,
      (genOrderNumber env).data = 'P' :: 'G' :: (yy ++ mm ++ suffix) ∧
      yy.length = 2 ∧ mm.length = 2 ∧ suffix.length = 4 ∧
      (∀ c ∈ yy ++ mm ++ suffix, c.isDigit = true) ∧
      decimalValue yy = env.fullYear % 100 ∧ decimalValue mm = env.monthIndex + 1 ∧
      decimalValue suffix = env.randomDraw := by
  obtain ⟨hy, hm, hr⟩ := hv
  have hyy := sliceLastTwo_toString env.fullYear hy
  obtain ⟨m1, m2, m3⟩ := padStart_toString (env.monthIndex + 1) 2 (by decide)
    (by norm_num; omega)
  obtain ⟨r1, r2, r3⟩ := padStart_toString env.randomDraw 4 (by decide) (by norm_num; omega)
  refine ⟨(sliceLastTwo (toString env.fullYear)).data,
    (padStart (toString (env.monthIndex + 1)) 2 '0').data,
    (padStart (toString env.randomDraw) 4 '0').data, ?_, ?_, m1, r1, ?_, ?_, m3, r3⟩
  · show ("PG" ++ sliceLastTwo (toString env.fullYear) ++
      padStart (toString (env.monthIndex + 1)) 2 '0' ++
      padStart (toString env.randomDraw) 4 '0').data = _
    simp only [String.data_append]
    rfl
  · rw [hyy]
    rfl
  · intro c hc
    rw [List.mem_append, List.mem_append] at hc
    rcases hc with (hc | hc) | hc
    · rw [hyy] at hc
      simp only [List.mem_cons, List.mem_singleton, List.not_mem_nil, or_false] at hc
      rcases hc with rfl | rfl
      · exact digitChar_isDigit _ (Nat.mod_lt _ (by decide))
      · exact digitChar_isDigit _ (Nat.mod_lt _ (by decide))
    · exact m2 c hc
    · exact r2 c hc
  · rw [hyy]
    show 10 * (10 * 0 + ((Nat.digitChar (env.fullYear / 10 % 10)).toNat - 48)) +
      ((Nat.digitChar (env.fullYear % 10)).toNat - 48) = env.fullYear % 100
    rw [digitChar_value _ (Nat.mod_lt _ (by decide)),
      digitChar_value _ (Nat.mod_lt _ (by decide))]
    omega

theorem genOrderNumber_ne_empty (env : Env) : genOrderNumber env ≠ "" := by
  intro h
  have hd : (genOrderNumber env).data = "".data := by rw [h]
  have hd' : ("PG" ++ sliceLastTwo (toString env.fullYear) ++
      padStart (toString (env.monthIndex + 1)) 2 '0' ++
      padStart (toString env.randomDraw) 4 '0').data = [] := hd
  simp only [String.data_append] at hd'
  have hl := congrArg List.length hd'
  simp only [List.length_append] at hl
  have : "PG".data.length = 2 := rfl
  rw [this] at hl
  simp at hl

/-! ## Order numbers: kept by every later request -/

theorem numbersStep_refl (orders : List Order) : NumbersStep orders orders := Or.inl rfl

theorem numbers_set {orders : List Order} {id : OrderId} {o o' : Order}
    (h : orders[id]? = some o) (hn : o'.orderNumber = o.orderNumber) :
    (orders.set id o').map (·.orderNumber) = orders.map (·.orderNumber) := by
  rw [List.map_set]
  apply List.ext_getElem?
  intro j
  by_cases hj : id = j
  · subst hj
    have hlt : id < (orders.map (·.orderNumber)).length := by
      rw [List.length_map]
      exact (List.getElem?_eq_some.mp h).1
    rw [List.getElem?_set_self hlt, List.getElem?_map, h, hn]
    rfl
  · rw [List.getElem?_set_ne hj]

theorem numbersStep_set {orders : List Order} {id : OrderId} {o o' : Order}
    (h : orders[id]? = some o) (hn : o'.orderNumber = o.orderNumber) :
    NumbersStep orders (orders.set id o') := Or.inl (numbers_set h hn)

/-- A save keeps the order number of a document that has one. -/
theorem orderPreSave_number (env : Env) (m : Bool) (o : Order) (h : o.orderNumber ≠ "") :
    (orderPreSave env m o).orderNumber = o.orderNumber := by
  cases m <;> exact if_neg h

theorem numbersStep_save {orders : List Order} {id : OrderId} {o o1 : Order} (env : Env)
    (m : Bool) (hall : ∀ x ∈ orders, x.orderNumber ≠ "") (h : orders[id]? = some o)
    (h1 : o1.orderNumber = o.orderNumber) :
    NumbersStep orders (orders.set id (orderPreSave env m o1)) := by
  have hne : o.orderNumber ≠ "" := hall o (List.mem_iff_getElem?.mpr ⟨id, h⟩)
  refine numbersStep_set h ?_
  rw [orderPreSave_number env m o1 (by rw [h1]; exact hne), h1]

theorem mirrorOrderStatus_numbersStep (orders : List Order) (id : OrderId) (st : OrderStatus) :
    NumbersStep orders (mirrorOrderStatus orders id st) := by
  unfold mirrorOrderStatus
  cases h : orders[id]? with
  | none => exact numbersStep_refl orders
  | some o => exact numbersStep_set h rfl

theorem createOrder_numbersStep (env : Env) (db : Db) (req : OrderRequest) :
    NumbersStep db.orders (createOrder env db req).1.orders := by
  by_cases hne : req.items = []
  · rw [createOrder_nil env db req hne]
    exact numbersStep_refl _
  · rcases hp : processItems db.equipment 0 [] req.items with ⟨s, f | ⟨total, lines⟩⟩
    · rw [createOrder_of_loop_error env db req s f hne hp]
      exact numbersStep_refl _
    · rw [createOrder_of_loop_ok env db req s total lines hne hp]
      cases hc : Order.create env db.orders (draftOf req total lines) with
      | none => exact numbersStep_refl _
      | some r =>
        have hs := orderCreate_some env db.orders _ r hc
        obtain ⟨h1, _, _, _, _, _, _, _, _, hnum, _, _, hfresh⟩ := hs
        obtain ⟨orders, order⟩ := r
        simp only at h1 hnum ⊢
        refine Or.inr ⟨order.orderNumber, ?_, ?_, ?_⟩
        · rw [hnum]
          exact genOrderNumber_ne_empty env
        · rw [hnum]
          intro hmem
          obtain ⟨x, hx, hxn⟩ := List.mem_map.mp hmem
          exact hfresh x hx hxn
        · rw [h1, List.map_append]
          rfl

theorem setOrderStatus_numbersStep (env : Env) (db : Db) (caller : User) (id : OrderId)
    (status : String) (note : Option String) (hall : ∀ x ∈ db.orders, x.orderNumber ≠ "") :
    NumbersStep db.orders (setOrderStatus env db caller id status note).1.orders := by
  unfold setOrderStatus
  split
  · exact numbersStep_refl _
  · split
    · exact numbersStep_refl _
    · rename_i order ho
      split
      · exact numbersStep_refl _
      · exact numbersStep_save env _ hall ho rfl

theorem setPaymentStatus_numbersStep (db : Db) (caller : User) (id : OrderId)
    (p : Option PaymentStatus) :
    NumbersStep db.orders (setPaymentStatus db caller id p).1.orders := by
  unfold setPaymentStatus
  split
  · exact numbersStep_refl _
  · split
    · exact numbersStep_refl _
    · rename_i order ho
      refine numbersStep_set ho ?_
      cases p <;> rfl

theorem cancelOrder_numbersStep (env : Env) (db : Db) (caller : User) (id : OrderId)
    (hall : ∀ x ∈ db.orders, x.orderNumber ≠ "") :
    NumbersStep db.orders (cancelOrder env db caller id).1.orders := by
  unfold cancelOrder
  split
  · exact numbersStep_refl _
  · rename_i order ho
    split
    · exact numbersStep_refl _
    · split
      · exact numbersStep_refl _
      · exact numbersStep_save env _ hall ho rfl

theorem schedule_numbersStep (env : Env) (db : Db) (caller : User) (req : ScheduleRequest)
    (hall : ∀ x ∈ db.orders, x.orderNumber ≠ "") :
    NumbersStep db.orders (schedule env db caller req).1.orders := by
  unfold schedule
  split
  · exact numbersStep_refl _
  · split
    · exact numbersStep_refl _
    · rename_i order ho
      split
      · exact numbersStep_save env _ hall ho rfl
      · exact numbersStep_refl _

theorem setInstallationStatus_numbersStep (env : Env) (db : Db) (caller : User) (id : Nat)
    (status : String) (note : Option String) :
    NumbersStep db.orders (setInstallationStatus env db caller id status note).1.orders := by
  unfold setInstallationStatus
  split
  · exact numbersStep_refl _
  · split
    · exact numbersStep_refl _
    · split
      · exact numbersStep_refl _
      · split
        · exact numbersStep_refl _
        · simp only
          split
          · exact mirrorOrderStatus_numbersStep _ _ _
          · split
            · exact mirrorOrderStatus_numbersStep _ _ _
            · exact numbersStep_refl _

theorem setEquipmentItemStatus_numbersStep (env : Env) (db : Db) (caller : User) (id : Nat)
    (equipmentId : EquipId) (status : String) :
    NumbersStep db.orders
      (setEquipmentItemStatus env db caller id equipmentId status).1.orders := by
  unfold setEquipmentItemStatus
  split
  · exact numbersStep_refl _
  · split
    · exact numbersStep_refl _
    · split
      · exact numbersStep_refl _
      · split
        · exact numbersStep_refl _
        · simp only
          split
          · exact mirrorOrderStatus_numbersStep _ _ _
          · exact numbersStep_refl _

/-- Every request keeps the order numbers of the stored orders and adds at most one, which
is set and new. -/
theorem step_numbersStep (db : Db) (r : Env × Op) (hall : ∀ x ∈ db.orders, x.orderNumber ≠ "") :
    NumbersStep db.orders (step db r).orders := by
  obtain ⟨env, op⟩ := r
  cases op with
  | createOrder req => exact createOrder_numbersStep env db req
  | setOrderStatus caller id status note =>
    exact setOrderStatus_numbersStep env db caller id status note hall
  | setPaymentStatus caller id p => exact setPaymentStatus_numbersStep db caller id p
  | cancel caller id => exact cancelOrder_numbersStep env db caller id hall
  | updateStock caller id stock =>
    show NumbersStep db.orders (updateStock db caller id stock).1.orders
    rw [updateStock_orders]
    exact numbersStep_refl _
  | schedule caller req => exact schedule_numbersStep env db caller req hall
  | setInstallationStatus caller id status note =>
    exact setInstallationStatus_numbersStep env db caller id status note
  | setEquipmentItemStatus caller id equipmentId status =>
    exact setEquipmentItemStatus_numbersStep env db caller id equipmentId status
  | setTeamNotes caller id notes =>
    show NumbersStep db.orders (setTeamNotes db caller id notes).1.orders
    rw [setTeamNotes_orders]
    exact numbersStep_refl _
  | setCustomerFeedback caller id rating comment =>
    show NumbersStep db.orders (setCustomerFeedback env db caller id rating comment).1.orders
    rw [setCustomerFeedback_orders]
    exact numbersStep_refl _

theorem numbersOk_of_map {before after : List Order} (h : NumbersOk before)
    (hm : after.map (·.orderNumber) = before.map (·.orderNumber)) : NumbersOk after := by
  refine ⟨?_, ?_⟩
  · intro o ho hempty
    have hmem : o.orderNumber ∈ before.map (·.orderNumber) := by
      rw [← hm]
      exact List.mem_map.mpr ⟨o, ho, rfl⟩
    obtain ⟨x, hx, hxn⟩ := List.mem_map.mp hmem
    exact h.1 x hx (hxn.trans hempty)
  · rw [hm]
    exact h.2

theorem numbersOk_step {before after : List Order} (h : NumbersOk before)
    (hs : NumbersStep before after) : NumbersOk after := by
  rcases hs with hm | ⟨n, hne, hfresh, hm⟩
  · exact numbersOk_of_map h hm
  · refine ⟨?_, ?_⟩
    · intro o ho hempty
      have hmem : o.orderNumber ∈ before.map (·.orderNumber) ++ [n] := by
        rw [← hm]
        exact List.mem_map.mpr ⟨o, ho, rfl⟩
      rw [List.mem_append, List.mem_singleton] at hmem
      rcases hmem with hmem | hmem
      · obtain ⟨x, hx, hxn⟩ := List.mem_map.mp hmem
        exact h.1 x hx (hxn.trans hempty)
      · exact hne (hmem.symm.trans hempty)
    · rw [hm]
      refine List.Nodup.append h.2 (List.nodup_singleton n) ?_
      intro a ha hb
      rw [List.mem_singleton] at hb
      exact hfresh (hb ▸ ha)

/-- Along any sequence of requests the stored orders keep their order numbers, position by
position, and all stored order numbers stay set and pairwise different. -/
theorem run_numbers (rs : List (Env × Op)) :
    ∀ db : Db, NumbersOk db.orders →
      NumbersOk (run db rs).orders ∧
      ∃ extra, (run db rs).orders.map (·.orderNumber) =
        db.orders.map (·.orderNumber) ++ extra := by
  induction rs with
  | nil =>
    intro db h
    exact ⟨h, [], (List.append_nil _).symm⟩
  | cons r rest ih =>
    intro db h
    have hs := step_numbersStep db r h.1
    obtain ⟨hok, extra, he⟩ := ih (step db r) (numbersOk_step h hs)
    refine ⟨hok, ?_⟩
    show ∃ extra, (run (step db r) rest).orders.map (·.orderNumber) = _
    rcases hs with hm | ⟨n, _, _, hm⟩
    · exact ⟨extra, by rw [he, hm]⟩
    · exact ⟨n :: extra, by rw [he, hm, List.append_assoc]; rfl⟩

/-- C26.  When `createOrder` succeeds under a clock whose year has at least two digits, the
created order carries a number made of "PG", two digits that write the year modulo 100, two
digits that write the month (1 to 12) and four digits that write the random draw,
zero-padded.  Starting from stored orders whose numbers are set and pairwise different,
no later sequence of requests changes the number of the created order, and after any such
sequence the stored orders still have set and pairwise different numbers. -/
theorem orderNumber_assigned_kept_unique (env : Env) (db : Db) (req : OrderRequest) (o : Order)
    (hv : env.valid) (hn : NumbersOk db.orders) (hok : (createOrder env db req).2 = .ok o) :
    (∃ yy mm suffix : List Char,
      o.orderNumber.data = 'P' :: 'G' :: (yy ++ mm ++ suffix) ∧
      yy.length = 2 ∧ mm.length = 2 ∧ suffix.length = 4 ∧
      (∀ c ∈ yy ++ mm ++ suffix, c.isDigit = true) ∧
      decimalValue yy = env.fullYear % 100 ∧ decimalValue mm = env.monthIndex + 1 ∧
      decimalValue suffix = env.randomDraw) ∧
    (createOrder env db req).1.orders[db.orders.length]? = some o ∧
    (∀ rs : List (Env × Op),
      ((run (createOrder env db req).1 rs).orders[db.orders.length]?).map (·.orderNumber) =
        some o.orderNumber) ∧
    (∀ rs : List (Env × Op), NumbersOk (run (createOrder env db req).1 rs).orders) ∧
    (∀ (rs : List (Env × Op)) (i j : Nat) (a b : Order),
      (run (createOrder env db req).1 rs).orders[i]? = some a →
      (run (createOrder env db req).1 rs).orders[j]? = some b →
      i ≠ j → a.orderNumber ≠ b.orderNumber) := by
  obtain ⟨_, _, _, _, _, horders, _, _, _, _, _, hnum, _⟩ := createOrder_ok_inv env db req o hok
  have ho : (createOrder env db req).1.orders[db.orders.length]? = some o := by
    rw [horders]
    exact List.getElem?_concat_length db.orders o
  have hn1 : NumbersOk (createOrder env db req).1.orders :=
    numbersOk_step hn (createOrder_numbersStep env db req)
  refine ⟨?_, ho, ?_, fun rs => (run_numbers rs _ hn1).1, ?_⟩
  · rw [hnum]
    exact genOrderNumber_form env hv
  · intro rs
    obtain ⟨_, extra, he⟩ := run_numbers rs _ hn1
    have h1 : ((run (createOrder env db req).1 rs).orders.map (·.orderNumber))[
        db.orders.length]? = some o.orderNumber := by
      rw [he, List.getElem?_append_left, List.getElem?_map, ho]
      · rfl
      · rw [List.length_map, horders, List.length_append]
        exact Nat.lt_succ_self _
    rw [List.getElem?_map] at h1
    exact h1
  · intro rs i j a b ha hb hij heq
    have hnd := (run_numbers rs _ hn1).1.2
    have hai : ((run (createOrder env db req).1 rs).orders.map (·.orderNumber))[i]? =
        some a.orderNumber := by
      rw [List.getElem?_map, ha]
      rfl
    have hbj : ((run (createOrder env db req).1 rs).orders.map (·.orderNumber))[j]? =
        some b.orderNumber := by
      rw [List.getElem?_map, hb]
      rfl
    have hi : i < ((run (createOrder env db req).1 rs).orders.map (·.orderNumber)).length :=
      (List.getElem?_eq_some.mp hai).1
    have hj : j < ((run (createOrder env db req).1 rs).orders.map (·.orderNumber)).length :=
      (List.getElem?_eq_some.mp hbj).1
    have hget : ((run (createOrder env db req).1 rs).orders.map (·.orderNumber))[i] =
        ((run (createOrder env db req).1 rs).orders.map (·.orderNumber))[j] := by
      have e1 := (List.getElem?_eq_some.mp hai).2
      have e2 := (List.getElem?_eq_some.mp hbj).2
      rw [e1, e2, heq]
    exact hij ((List.Nodup.getElem_inj_iff hnd).mp hget)

/-- C26 on the worked scenario: in November 2026 with random draw 42 the created order is
numbered "PG26110042". -/
theorem orderNumber_assigned_kept_unique_witness :
    (env0.valid ∧ NumbersOk dbAB.orders ∧ (createOrder env0 dbAB requestAB).2 = .ok orderAB) ∧
    orderAB.orderNumber = "PG26110042" ∧
    ((∃ yy mm suffix : List Char,
      orderAB.orderNumber.data = 'P' :: 'G' :: (yy ++ mm ++ suffix) ∧
      yy.length = 2 ∧ mm.length = 2 ∧ suffix.length = 4 ∧
      (∀ c ∈ yy ++ mm ++ suffix, c.isDigit = true) ∧
      decimalValue yy = env0.fullYear % 100 ∧ decimalValue mm = env0.monthIndex + 1 ∧
      decimalValue suffix = env0.randomDraw) ∧
    (createOrder env0 dbAB requestAB).1.orders[dbAB.orders.length]? = some orderAB ∧
    (∀ rs : List (Env × Op),
      ((run (createOrder env0 dbAB requestAB).1 rs).orders[dbAB.orders.length]?).map
        (·.orderNumber) = some orderAB.orderNumber) ∧
    (∀ rs : List (Env × Op), NumbersOk (run (createOrder env0 dbAB requestAB).1 rs).orders) ∧
    (∀ (rs : List (Env × Op)) (i j : Nat) (a b : Order),
      (run (createOrder env0 dbAB requestAB).1 rs).orders[i]? = some a →
      (run (createOrder env0 dbAB requestAB).1 rs).orders[j]? = some b →
      i ≠ j → a.orderNumber ≠ b.orderNumber)) :=
  ⟨⟨⟨by decide, by decide, by decide⟩,
      ⟨fun o h => (List.not_mem_nil o h).elim, List.nodup_nil⟩, by with_unfolding_all rfl⟩,
    rfl,
    orderNumber_assigned_kept_unique env0 dbAB requestAB orderAB
      ⟨by decide, by decide, by decide⟩
      ⟨fun o h => (List.not_mem_nil o h).elim, List.nodup_nil⟩ (by with_unfolding_all rfl)⟩

/-- C25 on the worked users: the administrator passes `isAdmin`, the team member passes
`isInstallationTeam` but not `isAdmin`, the customer passes neither, and a request without a
user is answered 401 by `authorize` and 403 by `isAdmin`. -/
theorem role_gates_witness :
    ((isAdminGate (some owner) = .next ↔ ∃ u, some owner = some u ∧ u.role = .admin) ∧
      (isInstallationTeamGate (some owner) = .next ↔
        ∃ u, some owner = some u ∧ (u.role = .installation_team ∨ u.role = .admin)) ∧
      (authorize [.admin, .installation_team] (some owner) = .next ↔
        ∃ u, some owner = some u ∧ u.role ∈ [Role.admin, Role.installation_team]) ∧
      (some owner = none → authorize [.admin, .installation_team] (some owner) = .rejected 401) ∧
      (∀ u, some owner = some u → u.role ∉ [Role.admin, Role.installation_team] →
        authorize [.admin, .installation_team] (some owner) = .rejected 403) ∧
      (∀ u, some owner = some u →
        (isAdminGate (some owner) = .next ↔ isAdmin u = true) ∧
        (isInstallationTeamGate (some owner) = .next ↔ isInstallationTeam u = true)) ∧
      (∀ (caller : User) (env : Env) (db : Db), caller.role = .customer →
        (∀ id status note,
          (setOrderStatus env db caller id status note).2 = .error .adminOnly ∧
          (setOrderStatus env db caller id status note).1 = db) ∧
        (∀ id p,
          (setPaymentStatus db caller id p).2 = .error .adminOnly ∧
          (setPaymentStatus db caller id p).1 = db) ∧
        (∀ req,
          (schedule env db caller req).2 = .error .adminOnly ∧
          (schedule env db caller req).1 = db) ∧
        (∀ id status note,
          (setInstallationStatus env db caller id status note).2 = .error .teamOnly ∧
          (setInstallationStatus env db caller id status note).1 = db) ∧
        (∀ id equipmentId status,
          (setEquipmentItemStatus env db caller id equipmentId status).2 = .error .teamOnly ∧
          (setEquipmentItemStatus env db caller id equipmentId status).1 = db) ∧
        (∀ id notes,
          (setTeamNotes db caller id notes).2 = .error .teamOnly ∧
          (setTeamNotes db caller id notes).1 = db) ∧
        Failure.httpStatus .adminOnly = 403 ∧ Failure.httpStatus .teamOnly = 403)) ∧
    isAdminGate (some adminUser) = .next ∧
    isAdminGate (some teamUser) = .rejected 403 ∧
    isInstallationTeamGate (some teamUser) = .next ∧
    isAdminGate (some owner) = .rejected 403 ∧
    isInstallationTeamGate (some owner) = .rejected 403 ∧
    isAdminGate none = .rejected 403 ∧
    isInstallationTeamGate none = .rejected 403 ∧
    authorize [.admin] none = .rejected 401 ∧
    authorize [.admin, .installation_team] (some owner) = .rejected 403 ∧
    authorize [.admin, .installation_team] (some teamUser) = .next ∧
    (setOrderStatus env1 dbPlaced owner 0 "shipped" none).2 = .error .adminOnly ∧
    (setOrderStatus env1 dbPlaced owner 0 "shipped" none).1.orders = dbPlaced.orders :=
  ⟨role_gates (some owner) [.admin, .installation_team],
    by decide, by decide, by decide, by decide, by decide, by decide, by decide, by decide,
    by decide, by decide, by with_unfolding_all rfl, by with_unfolding_all rfl⟩

end Playground
